import Mathlib

/-!
# MCP server: protocol dispatch core

A shallow embedding of `internal/mcp/types.go` and `internal/mcp/server.go`,
and the properties of the dispatcher proved over it.

Conventions of the embedding.

* A byte slice handed to `json.Unmarshal` is represented by what the JSON
  scanner makes of it: `Wire.notJSON` for bytes that are not one JSON
  document, `Wire.json doc` for the syntax tree of the document. An object
  keeps its members in the order written, repeated names included.
* A JSON string is a Unicode string, a JSON number is an integer literal
  taken by value (fractions are outside the model).
* A Go value of type `interface{}` (`nil`, `bool`, a number, `string`,
  `[]interface{}`, `map[string]interface{}`) is represented by a `JSON` tree:
  a Go map is the list of its entries in increasing key order, which is the
  order `json.Marshal` writes them in; `nil` is `JSON.null`; a number is its
  exact value. A number that is a float64 value stands for that float64, as
  every number that the decoder stores is one; any other number stands for a
  Go integer. `encodeAny` is the document that `json.Marshal` writes for the
  value. It differs from the tree in the numbers only: a float64 is written as
  the shortest decimal that is read back as the same float64 (`encodeNum`),
  which from `2 ^ 53` on need not be its exact value. Numbers are compared by
  value: that Go writes a float64 from `1e21` on with an exponent is not
  represented.
* A slice of a response struct is a list. The nil slice, which `json.Marshal`
  writes as `null`, is not among the values: the handlers build their slices
  with `make` or a literal.
* The schema of a tool is a Go value that the caller of `RegisterTool`
  chooses; it is represented by the document `json.Marshal` writes for it, or
  by the error `json.Marshal` returns for it when it has no encoding.
  `marshalMessage` is the document of an envelope, `jsonMarshal` the call of
  `json.Marshal`, which fails on a tool list with such a schema.
* The logger is not modelled. The clock and the upstream HTTP API, which the
  tools read, are the fields of `World`.
-/

namespace Mcp

/-! ## JSON documents -/

/-- Syntax tree of a JSON document. -/
inductive JSON where
  | null
  | bool (b : Bool)
  | num (n : Int)
  | str (s : String)
  | arr (items : List JSON)
  | obj (members : List (String × JSON))

/-- Bytes received from a transport, as the JSON scanner sees them. -/
inductive Wire where
  | notJSON
  | json (doc : JSON)

/-- Comparison of two strings byte by byte, as Go's `<` on strings: on UTF-8
this is the lexicographic order of the code points. -/
def ltChars : List Char → List Char → Bool
  | [], [] => false
  | [], _ :: _ => true
  | _ :: _, [] => false
  | x :: xs, y :: ys =>
    if x.toNat < y.toNat then true
    else if x.toNat = y.toNat then ltChars xs ys
    else false

/-- Strict order on map keys. -/
def keyLt (a b : String) : Bool := ltChars a.data b.data

/-- Assignment `m[k] = v` on a Go map held as a key-sorted entry list. -/
def mapSet {α : Type} (m : List (String × α)) (k : String) (v : α) : List (String × α) :=
  match m with
  | [] => [(k, v)]
  | (k', v') :: rest =>
    if keyLt k k' then (k, v) :: (k', v') :: rest
    else if k = k' then (k, v) :: rest
    else (k', v') :: mapSet rest k v

/-- Lookup `m[k]` with its presence flag. -/
def mapGet {α : Type} (m : List (String × α)) (k : String) : Option α :=
  match m with
  | [] => none
  | (k', v') :: rest => if k = k' then some v' else mapGet rest k

/-! ## Numbers -/

/-- Least `e` at or after the start value with `a / 2 ^ e < 2 ^ 53`. -/
def shiftFor (a : Nat) : Nat → Nat → Nat
  | 0, e => e
  | fuel + 1, e => if a / 2 ^ e < 2 ^ 53 then e else shiftFor a fuel (e + 1)

/-- The bound `2 ^ 1024`: a magnitude that rounds to it or beyond is not a
float64. -/
def float64Bound : Nat := 2 ^ 256 * 2 ^ 256 * 2 ^ 256 * 2 ^ 256

/-- Conversion of an integer literal by `strconv.ParseFloat(s, 64)`, which the
decoder applies to every number stored in an `interface{}`: the nearest
float64, ties to the even mantissa; `none` is the range error for a literal
that rounds beyond the largest float64. The float64 is given by its exact
integer value. -/
def float64OfInt (n : Int) : Option Int :=
  let a := n.natAbs
  if a < 2 ^ 53 then some n
  else if float64Bound ≤ a then none
  else
    let e := shiftFor a 971 1
    let q := a / 2 ^ e
    let r := a % 2 ^ e
    let q' := if 2 ^ (e - 1) < r ∨ (r = 2 ^ (e - 1) ∧ q % 2 = 1) then q + 1 else q
    if float64Bound ≤ q' * 2 ^ e then none
    else some (if n < 0 then -((q' * 2 ^ e : Nat) : Int) else ((q' * 2 ^ e : Nat) : Int))

/-- Number of decimal digits of a natural number below `10 ^ 330`. -/
def decimalDigits (a : Nat) : Nat → Nat
  | 0 => 0
  | fuel + 1 => if a = 0 then 0 else decimalDigits (a / 10) fuel + 1

/-- The magnitude `x` with the sign of `n`. -/
def signed (n : Int) (x : Nat) : Int := if n < 0 then -(x : Int) else (x : Int)

/-- The search of `strconv.AppendFloat(b, f, fmt, -1, 64)` for the shortest
decimal that is read back as the float64 `n`, from the coarsest power of ten
`10 ^ k` downwards: of the two multiples of `10 ^ k` that lie around `n`, the
ones that `ParseFloat` rounds to `n` are the candidates; the nearer one is
taken (the one with the even last digit when they are equally near), and
when there is none the search goes on with `10 ^ (k - 1)`. It ends with `n`
itself. -/
def shortestAt (n : Int) : Nat → Int
  | 0 => n
  | k + 1 =>
    let a := n.natAbs
    let u := 10 ^ (k + 1)
    let down := a / u * u
    let up := down + u
    let okdown := float64OfInt (signed n down) == some n
    let okup := float64OfInt (signed n up) == some n
    if okdown && okup then
      if a - down < up - a then signed n down
      else if up - a < a - down then signed n up
      else if a / u % 2 = 0 then signed n down
      else signed n up
    else if okdown then signed n down
    else if okup then signed n up
    else shortestAt n k

/-- The value of the number literal that `json.Marshal` writes for a number
held in memory. A number that is a float64 value is taken to be held as a
float64, as every number stored by the decoder is: it is written as the
shortest decimal that is read back as the same float64, which below `2 ^ 53`
is the integer itself. A number that is no float64 value is held in an integer
type and written in full. -/
def encodeNum (n : Int) : Int :=
  if n.natAbs < 2 ^ 53 then n
  else if float64OfInt n == some n then shortestAt n (decimalDigits n.natAbs 330)
  else n

/-- Range check of `strconv.ParseInt(s, 10, 64)` for a field of type `int`
(64 bits wide, as on every 64-bit platform). -/
def int64OfInt (n : Int) : Option Int :=
  if -(2 ^ 63) ≤ n ∧ n < 2 ^ 63 then some n else none

/-! ## Decoding into `interface{}` -/

mutual
/-- Value stored by `json.Unmarshal` in a field of type `interface{}`;
`none` when a number in the document is out of range. -/
def decodeAny : JSON → Option JSON
  | .null => some .null
  | .bool b => some (.bool b)
  | .num n =>
    match float64OfInt n with
    | some v => some (.num v)
    | none => none
  | .str s => some (.str s)
  | .arr xs =>
    match decodeItems xs with
    | some vs => some (.arr vs)
    | none => none
  | .obj ms =>
    match decodeMembers ms [] with
    | some m => some (.obj m)
    | none => none
termination_by structural x => x
/-- Elements of a `[]interface{}`. -/
def decodeItems : List JSON → Option (List JSON)
  | [] => some []
  | x :: xs =>
    match decodeAny x with
    | some v =>
      match decodeItems xs with
      | some vs => some (v :: vs)
      | none => none
    | none => none
termination_by structural x => x
/-- Members of an object stored one by one into the map `acc`
(`map[string]interface{}`): a repeated name overwrites. -/
def decodeMembers : List (String × JSON) → List (String × JSON) → Option (List (String × JSON))
  | [], acc => some acc
  | (k, x) :: ms, acc =>
    match decodeAny x with
    | some v => decodeMembers ms (mapSet acc k v)
    | none => none
termination_by structural x => x
end

mutual
/-- The document that `json.Marshal` writes for a value held in an
`interface{}`: the tree of the value with every number as it is written. -/
def encodeAny : JSON → JSON
  | .null => .null
  | .bool b => .bool b
  | .num n => .num (encodeNum n)
  | .str s => .str s
  | .arr xs => .arr (encodeItems xs)
  | .obj ms => .obj (encodeMembers ms)
termination_by structural x => x
/-- Elements of a slice, encoded. -/
def encodeItems : List JSON → List JSON
  | [] => []
  | x :: xs => encodeAny x :: encodeItems xs
termination_by structural x => x
/-- Entries of a map, encoded in key order. -/
def encodeMembers : List (String × JSON) → List (String × JSON)
  | [] => []
  | (k, x) :: ms => (k, encodeAny x) :: encodeMembers ms
termination_by structural x => x
end

/-- Encoding of an `interface{}` value by `json.Marshal`. It cannot fail on a
value that the decoder has stored. -/
def marshalAny (v : JSON) : Option JSON := some (encodeAny v)

/-! ## Struct field names -/

/-- Case folding that `encoding/json` applies to an object key before it
looks up the struct field: ASCII letters to upper case, and the two runes
whose simple case folding is an ASCII letter. -/
def foldRune (c : Char) : Char :=
  if 97 ≤ c.toNat ∧ c.toNat ≤ 122 then Char.ofNat (c.toNat - 32)
  else if c.toNat = 0x17F then 'S'
  else if c.toNat = 0x212A then 'K'
  else c

/-- Folded form of a key. -/
def foldName (s : String) : List Char := s.data.map foldRune

/-- Whether object key `key` selects the struct field tagged `field`. -/
def fieldMatch (field key : String) : Bool := foldName key == foldName field

/-- The loop of the decoder over the members of an object: each member is
stored by `set`; the first store that fails fails the decode. -/
def decodeFields {α : Type} (set : α → String → JSON → Option α) :
    List (String × JSON) → α → Option α
  | [], a => some a
  | (k, v) :: ms, a =>
    match set a k v with
    | some a' => decodeFields set ms a'
    | none => none

/-! ## Types of `types.go` -/

/-- Protocol version, `MCPVersion`. -/
def MCPVersion : String := "2024-11-05"

/-- Error code `ParseError`. -/
def ParseError : Int := -32700
/-- Error code `InvalidRequest`. -/
def InvalidRequest : Int := -32600
/-- Error code `MethodNotFound`. -/
def MethodNotFound : Int := -32601
/-- Error code `InvalidParams`. -/
def InvalidParams : Int := -32602
/-- Error code `InternalError`. -/
def InternalError : Int := -32603

/-- Go struct `Error`. -/
structure Error where
  Code : Int
  Message : String
  Data : JSON

/-- Go struct `ToolsCapability`. -/
structure ToolsCapability where
  ListChanged : Bool

/-- Go struct `ResourcesCapability`. -/
structure ResourcesCapability where
  Subscribe : Bool
  ListChanged : Bool

/-- Go struct `PromptsCapability`. -/
structure PromptsCapability where
  ListChanged : Bool

/-- Go struct `ServerCapabilities`; a nil pointer is `none`. `LoggingCapability`
is the empty struct. -/
structure ServerCapabilities where
  Logging : Option Unit
  Prompts : Option PromptsCapability
  Resources : Option ResourcesCapability
  Tools : Option ToolsCapability

/-- Go struct `ServerInfo`. -/
structure ServerInfo where
  Name : String
  Version : String

/-- Go struct `InitializeResponse`. -/
structure InitializeResponse where
  ProtocolVersion : String
  Capabilities : ServerCapabilities
  ServerInfo : ServerInfo

/-- Go struct `Tool`. The schema is a Go value of type `interface{}` that the
caller of `RegisterTool` chooses: `InputSchema` is the document that
`json.Marshal` writes for it, and `SchemaError` is the error that
`json.Marshal` returns instead when the value has no JSON encoding (a
channel, a function, a NaN); it is `none` for a value that has one. -/
structure Tool where
  Name : String
  Description : String
  InputSchema : JSON
  SchemaError : Option String := none

/-- Go struct `ToolsListResponse`. -/
structure ToolsListResponse where
  Tools : List Tool

/-- Go struct `ToolsCallRequest`; a nil `Arguments` map is `none`. -/
structure ToolsCallRequest where
  Name : String
  Arguments : Option (List (String × JSON))

/-- Go struct `Content`; `Type_` is the field `Type`. -/
structure Content where
  Type_ : String
  Text : String

/-- Go struct `ToolsCallResponse`. -/
structure ToolsCallResponse where
  Content : List Content
  IsError : Bool

/-- Go struct `Resource`. -/
structure Resource where
  URI : String
  Name : String
  Description : String
  MimeType : String

/-- Go struct `ResourcesListResponse`. -/
structure ResourcesListResponse where
  Resources : List Resource

/-- Go struct `ResourcesReadRequest`. -/
structure ResourcesReadRequest where
  URI : String

/-- Go struct `ResourceContent`. -/
structure ResourceContent where
  URI : String
  MimeType : String
  Text : String
  Blob : String

/-- Go struct `ResourcesReadResponse`. -/
structure ResourcesReadResponse where
  Contents : List ResourceContent

/-- Dynamic value of the `Result` field (`interface{}`): a decoded value
(`JSON.null` for nil), or one of the response structs a handler stores. -/
inductive Payload where
  | value (v : JSON)
  | initializeResponse (r : InitializeResponse)
  | toolsListResponse (r : ToolsListResponse)
  | toolsCallResponse (r : ToolsCallResponse)
  | resourcesListResponse (r : ResourcesListResponse)
  | resourcesReadResponse (r : ResourcesReadResponse)

/-- Go struct `Message`, the envelope. `ID` and `Params` hold decoded values,
`JSON.null` for nil; a nil `Error` pointer is `none`. -/
structure Message where
  JSONRPC : String
  ID : JSON
  Method : String
  Params : JSON
  Result : Payload
  Error : Option Error

/-- The zero `Message`, `var msg Message`. -/
def Message.zero : Message :=
  { JSONRPC := "", ID := .null, Method := "", Params := .null, Result := .value .null,
    Error := none }

/-- The zero `Error`. -/
def Error.zero : Error := { Code := 0, Message := "", Data := .null }

/-- `NewMessage` -/
def NewMessage (method : String) (params : JSON) : Message :=
  { JSONRPC := "2.0", ID := .null, Method := method, Params := params,
    Result := .value .null, Error := none }

/-- `NewResponse` -/
def NewResponse (id : JSON) (result : Payload) : Message :=
  { JSONRPC := "2.0", ID := id, Method := "", Params := .null, Result := result, Error := none }

/-- `NewError` -/
def NewError (id : JSON) (code : Int) (message : String) (data : JSON) : Message :=
  { JSONRPC := "2.0", ID := id, Method := "", Params := .null, Result := .value .null,
    Error := some { Code := code, Message := message, Data := data } }

/-! ## `json.Unmarshal` into the structs -/

/-- Store of one member into a field of type `string`: a string is stored,
`null` leaves the field, anything else is a type error. -/
def storeString (cur : String) : JSON → Option String
  | .str s => some s
  | .null => some cur
  | _ => none

/-- Store of one member of an `Error` object. -/
def Error.setField (e : Error) (key : String) (v : JSON) : Option Error :=
  if fieldMatch "code" key then
    match v with
    | .num n =>
      match int64OfInt n with
      | some c => some { e with Code := c }
      | none => none
    | .null => some e
    | _ => none
  else if fieldMatch "message" key then
    match storeString e.Message v with
    | some s => some { e with Message := s }
    | none => none
  else if fieldMatch "data" key then
    match decodeAny v with
    | some d => some { e with Data := d }
    | none => none
  else some e

/-- Store of one member of an envelope object. A key that selects no field
is skipped. The `error` member is a pointer to a struct: `null` resets it,
an object is decoded into the struct already pointed to, or into a new one. -/
def Message.setField (m : Message) (key : String) (v : JSON) : Option Message :=
  if fieldMatch "jsonrpc" key then
    match storeString m.JSONRPC v with
    | some s => some { m with JSONRPC := s }
    | none => none
  else if fieldMatch "id" key then
    match decodeAny v with
    | some x => some { m with ID := x }
    | none => none
  else if fieldMatch "method" key then
    match storeString m.Method v with
    | some s => some { m with Method := s }
    | none => none
  else if fieldMatch "params" key then
    match decodeAny v with
    | some x => some { m with Params := x }
    | none => none
  else if fieldMatch "result" key then
    match decodeAny v with
    | some x => some { m with Result := .value x }
    | none => none
  else if fieldMatch "error" key then
    match v with
    | .null => some { m with Error := none }
    | .obj ms =>
      match decodeFields Error.setField ms (m.Error.getD Error.zero) with
      | some e => some { m with Error := some e }
      | none => none
    | _ => none
  else some m

/-- Decoding of a document into a struct that starts as `zero`: `null` leaves
it, an object is decoded member by member, any other value is a type error. -/
def unmarshalStruct {α : Type} (set : α → String → JSON → Option α) (zero : α) :
    JSON → Option α
  | .null => some zero
  | .obj ms => decodeFields set ms zero
  | _ => none

/-- `json.Unmarshal(data, &msg)` for `var msg Message`; `none` is a returned
error (syntax error, type error or number out of range). -/
def unmarshalMessage : Wire → Option Message
  | .notJSON => none
  | .json doc => unmarshalStruct Message.setField Message.zero doc

/-- Store of one member of a `tools/call` parameter object. -/
def ToolsCallRequest.setField (r : ToolsCallRequest) (key : String) (v : JSON) :
    Option ToolsCallRequest :=
  if fieldMatch "name" key then
    match storeString r.Name v with
    | some s => some { r with Name := s }
    | none => none
  else if fieldMatch "arguments" key then
    match v with
    | .null => some { r with Arguments := none }
    | .obj ms =>
      match decodeMembers ms (r.Arguments.getD []) with
      | some m => some { r with Arguments := some m }
      | none => none
    | _ => none
  else some r

/-- `json.Unmarshal(paramsBytes, &req)` for `var req ToolsCallRequest`. -/
def unmarshalToolsCallRequest (doc : JSON) : Option ToolsCallRequest :=
  unmarshalStruct ToolsCallRequest.setField { Name := "", Arguments := none } doc

/-- Store of one member of a `resources/read` parameter object. -/
def ResourcesReadRequest.setField (r : ResourcesReadRequest) (key : String) (v : JSON) :
    Option ResourcesReadRequest :=
  if fieldMatch "uri" key then
    match storeString r.URI v with
    | some s => some { r with URI := s }
    | none => none
  else some r

/-- `json.Unmarshal(paramsBytes, &req)` for `var req ResourcesReadRequest`. -/
def unmarshalResourcesReadRequest (doc : JSON) : Option ResourcesReadRequest :=
  unmarshalStruct ResourcesReadRequest.setField { URI := "" } doc

/-! ## `json.Marshal` of the structs

Fields are written in the order of the struct declaration; a field tagged
`omitempty` is left out when it is the empty string, `false`, a nil pointer
or a nil interface. -/

/-- An `interface{}` member tagged `omitempty`. -/
def omitNull (key : String) : JSON → List (String × JSON)
  | .null => []
  | v => [(key, v)]

/-- A `string` member tagged `omitempty`. -/
def omitEmpty (key : String) (s : String) : List (String × JSON) :=
  if s = "" then [] else [(key, .str s)]

/-- A `bool` member tagged `omitempty`. -/
def omitFalse (key : String) (b : Bool) : List (String × JSON) :=
  if b then [(key, .bool true)] else []

/-- A pointer member tagged `omitempty`. -/
def omitNil {α : Type} (key : String) (enc : α → JSON) : Option α → List (String × JSON)
  | none => []
  | some a => [(key, enc a)]

/-- Encoding of `Error`. -/
def Error.toJSON (e : Error) : JSON :=
  .obj ([("code", .num e.Code), ("message", .str e.Message)]
    ++ omitNull "data" (encodeAny e.Data))

/-- Encoding of `ServerCapabilities`. -/
def ServerCapabilities.toJSON (c : ServerCapabilities) : JSON :=
  .obj (omitNil "logging" (fun _ => JSON.obj []) c.Logging
    ++ omitNil "prompts" (fun p => JSON.obj (omitFalse "listChanged" p.ListChanged)) c.Prompts
    ++ omitNil "resources" (fun r => JSON.obj (omitFalse "subscribe" r.Subscribe
        ++ omitFalse "listChanged" r.ListChanged)) c.Resources
    ++ omitNil "tools" (fun t => JSON.obj (omitFalse "listChanged" t.ListChanged)) c.Tools)

/-- Encoding of `ServerInfo`. -/
def ServerInfo.toJSON (i : ServerInfo) : JSON :=
  .obj [("name", .str i.Name), ("version", .str i.Version)]

/-- Encoding of `InitializeResponse`. -/
def InitializeResponse.toJSON (r : InitializeResponse) : JSON :=
  .obj [("protocolVersion", .str r.ProtocolVersion), ("capabilities", r.Capabilities.toJSON),
    ("serverInfo", r.ServerInfo.toJSON)]

/-- Encoding of `Tool`. -/
def Tool.toJSON (t : Tool) : JSON :=
  .obj [("name", .str t.Name), ("description", .str t.Description),
    ("inputSchema", t.InputSchema)]

/-- Encoding of `Content`. -/
def Content.toJSON (c : Content) : JSON :=
  .obj [("type", .str c.Type_), ("text", .str c.Text)]

/-- Encoding of `Resource`. -/
def Resource.toJSON (r : Resource) : JSON :=
  .obj ([("uri", .str r.URI), ("name", .str r.Name)] ++ omitEmpty "description" r.Description
    ++ omitEmpty "mimeType" r.MimeType)

/-- Encoding of `ResourceContent`. -/
def ResourceContent.toJSON (c : ResourceContent) : JSON :=
  .obj ([("uri", .str c.URI), ("mimeType", .str c.MimeType)] ++ omitEmpty "text" c.Text
    ++ omitEmpty "blob" c.Blob)

/-- Encoding of the dynamic value of `Result`. -/
def Payload.toJSON : Payload → JSON
  | .value v => encodeAny v
  | .initializeResponse r => r.toJSON
  | .toolsListResponse r => .obj [("tools", .arr (r.Tools.map Tool.toJSON))]
  | .toolsCallResponse r =>
    .obj ([("content", .arr (r.Content.map Content.toJSON))] ++ omitFalse "isError" r.IsError)
  | .resourcesListResponse r => .obj [("resources", .arr (r.Resources.map Resource.toJSON))]
  | .resourcesReadResponse r => .obj [("contents", .arr (r.Contents.map ResourceContent.toJSON))]

/-- The document that `json.Marshal` writes for a `Message` all of whose
values have an encoding. -/
def marshalMessage (m : Message) : JSON :=
  .obj ([("jsonrpc", .str m.JSONRPC)] ++ omitNull "id" (encodeAny m.ID)
    ++ omitEmpty "method" m.Method ++ omitNull "params" (encodeAny m.Params)
    ++ omitNull "result" m.Result.toJSON ++ omitNil "error" Error.toJSON m.Error)

/-- The error of `json.Marshal` on the dynamic value of `Result`: the values
of a result are strings, booleans and decoded values, which all have an
encoding, and the schemas of a tool list; the error is that of the first
schema without an encoding. -/
def Payload.marshalError : Payload → Option String
  | .toolsListResponse r => r.Tools.findSome? (fun t => t.SchemaError)
  | _ => none

/-- `json.Marshal(m)` for a `*Message`: the bytes, or the error returned. -/
def jsonMarshal (m : Message) : Except String JSON :=
  match m.Result.marshalError with
  | some err => .error err
  | none => .ok (marshalMessage m)

/-! ## The server, `server.go` -/

/-- What the tools read from outside the process. -/
structure World where
  /-- `time.Now().Format("2006-01-02 15:04:05")` -/
  nowStamp : String
  /-- `time.Now().Unix()` -/
  nowUnix : Int
  /-- `time.Now().Format(time.Kitchen)` -/
  nowKitchen : String
  /-- `time.Now().Format(time.RFC3339)` -/
  nowRFC3339 : String
  /-- The text `executeTool` makes of `ExecuteGetProjects` for a search string:
  the upstream API is called and the answer encoded. -/
  projects : String → String

/-- A value of the handler table, `func(*Message) (*Message, error)`: one of
the five methods of the server bound to it, or any other function. -/
inductive Handler where
  | handleInitialize
  | handleToolsList
  | handleToolsCall
  | handleResourcesList
  | handleResourcesRead
  | func (f : Message → Except String Message)

/-- Go struct `Server`, without its logger. -/
structure Server where
  serverInfo : ServerInfo
  capabilities : ServerCapabilities
  tools : List (String × Tool)
  resources : List (String × Resource)
  handlers : List (String × Handler)

/-- `registerHandlers` -/
def Server.registerHandlers (s : Server) : Server :=
  let h1 := mapSet s.handlers "initialize" Handler.handleInitialize
  let h2 := mapSet h1 "tools/list" Handler.handleToolsList
  let h3 := mapSet h2 "tools/call" Handler.handleToolsCall
  let h4 := mapSet h3 "resources/list" Handler.handleResourcesList
  let h5 := mapSet h4 "resources/read" Handler.handleResourcesRead
  { s with handlers := h5 }

/-- `NewServer` -/
def NewServer (name version : String) : Server :=
  Server.registerHandlers
    { serverInfo := { Name := name, Version := version },
      capabilities :=
        { Tools := some { ListChanged := false },
          Resources := some { Subscribe := false, ListChanged := false },
          Logging := some (),
          Prompts := none },
      tools := [],
      resources := [],
      handlers := [] }

/-- `RegisterTool` -/
def Server.RegisterTool (s : Server) (tool : Tool) : Server :=
  { s with tools := mapSet s.tools tool.Name tool }

/-- `RegisterResource` -/
def Server.RegisterResource (s : Server) (resource : Resource) : Server :=
  { s with resources := mapSet s.resources resource.URI resource }

/-- The type assertion `args[key].(string)` on a possibly nil map. -/
def argString (args : Option (List (String × JSON))) (key : String) : Option String :=
  match args with
  | none => none
  | some m =>
    match mapGet m key with
    | some (.str s) => some s
    | _ => none

/-- `ExecuteHelloWorld` -/
def ExecuteHelloWorld (w : World) (args : Option (List (String × JSON))) : String :=
  let name :=
    match argString args "name" with
    | some nameArg => if nameArg ≠ "" then nameArg else "World"
    | none => "World"
  "Hello, " ++ name ++ "! \uF8FFüåç\nWelcome to the EHQ MCP Server!\nCurrent time: " ++ w.nowStamp

/-- `ExecuteEcho` -/
def ExecuteEcho (args : Option (List (String × JSON))) : String :=
  match argString args "message" with
  | none => "Error: message parameter is required"
  | some message => "Echo: " ++ message

/-- `ExecuteGetTime` -/
def ExecuteGetTime (w : World) (args : Option (List (String × JSON))) : String :=
  let format :=
    match argString args "format" with
    | some formatArg => if formatArg ≠ "" then formatArg else "RFC3339"
    | none => "RFC3339"
  if format = "Unix" then "Unix timestamp: " ++ toString w.nowUnix
  else if format = "Kitchen" then "Time: " ++ w.nowKitchen
  else "Time: " ++ w.nowRFC3339

/-- The `get_projects` case of `executeTool`: the search string is read from
the arguments, the rest is the upstream call. -/
def ExecuteGetProjects (w : World) (args : Option (List (String × JSON))) : String :=
  let search :=
    match argString args "search" with
    | some searchArg => searchArg
    | none => ""
  w.projects search

/-- `executeTool` -/
def executeTool (w : World) (name : String) (args : Option (List (String × JSON))) : String :=
  if name = "hello_world" then ExecuteHelloWorld w args
  else if name = "echo" then ExecuteEcho args
  else if name = "get_time" then ExecuteGetTime w args
  else if name = "get_projects" then ExecuteGetProjects w args
  else "Tool \'" ++ name ++ "\' not implemented"

/-- `readResource` -/
def readResource (s : Server) (uri : String) : String :=
  if uri = "hello://world" then "Hello, World! This is a sample resource from the MCP server."
  else if uri = "info://server" then
    "Server: " ++ s.serverInfo.Name ++ " v" ++ s.serverInfo.Version ++ "\nProtocol: " ++ MCPVersion
  else "Resource \'" ++ uri ++ "\' content not available"

/-- `handleInitialize` -/
def handleInitialize (s : Server) (msg : Message) : Except String Message :=
  let response : InitializeResponse :=
    { ProtocolVersion := MCPVersion, Capabilities := s.capabilities, ServerInfo := s.serverInfo }
  .ok (NewResponse msg.ID (.initializeResponse response))

/-- `handleToolsList`; the tools are listed in the order of the entry list. -/
def handleToolsList (s : Server) (msg : Message) : Except String Message :=
  let tools := s.tools.map (fun e => e.2)
  .ok (NewResponse msg.ID (.toolsListResponse { Tools := tools }))

/-- `handleToolsCall` -/
def handleToolsCall (s : Server) (w : World) (msg : Message) : Except String Message :=
  match marshalAny msg.Params with
  | none => .ok (NewError msg.ID InvalidParams "Invalid parameters" .null)
  | some paramsBytes =>
    match unmarshalToolsCallRequest paramsBytes with
    | none => .ok (NewError msg.ID InvalidParams "Invalid parameters" .null)
    | some req =>
      match mapGet s.tools req.Name with
      | none => .ok (NewError msg.ID MethodNotFound ("Tool not found: " ++ req.Name) .null)
      | some _ =>
        let result := executeTool w req.Name req.Arguments
        .ok (NewResponse msg.ID (.toolsCallResponse
          { Content := [{ Type_ := "text", Text := result }], IsError := false }))

/-- `handleResourcesList`; listed in the order of the entry list. -/
def handleResourcesList (s : Server) (msg : Message) : Except String Message :=
  let resources := s.resources.map (fun e => e.2)
  .ok (NewResponse msg.ID (.resourcesListResponse { Resources := resources }))

/-- `handleResourcesRead` -/
def handleResourcesRead (s : Server) (msg : Message) : Except String Message :=
  match marshalAny msg.Params with
  | none => .ok (NewError msg.ID InvalidParams "Invalid parameters" .null)
  | some paramsBytes =>
    match unmarshalResourcesReadRequest paramsBytes with
    | none => .ok (NewError msg.ID InvalidParams "Invalid parameters" .null)
    | some req =>
      match mapGet s.resources req.URI with
      | none => .ok (NewError msg.ID MethodNotFound ("Resource not found: " ++ req.URI) .null)
      | some resource =>
        let content := readResource s req.URI
        .ok (NewResponse msg.ID (.resourcesReadResponse
          { Contents := [{ URI := req.URI, MimeType := resource.MimeType, Text := content,
                           Blob := "" }] }))

/-- Call of a value of the handler table. -/
def Handler.call (h : Handler) (s : Server) (w : World) (msg : Message) :
    Except String Message :=
  match h with
  | .handleInitialize => Mcp.handleInitialize s msg
  | .handleToolsList => Mcp.handleToolsList s msg
  | .handleToolsCall => Mcp.handleToolsCall s w msg
  | .handleResourcesList => Mcp.handleResourcesList s msg
  | .handleResourcesRead => Mcp.handleResourcesRead s msg
  | .func f => f msg

/-- `processMessage` -/
def processMessage (s : Server) (w : World) (msg : Message) : Except String Message :=
  match mapGet s.handlers msg.Method with
  | none => .ok (NewError msg.ID MethodNotFound ("Method not found: " ++ msg.Method) .null)
  | some handler => handler.call s w msg

/-- `HandleMessage`: the bytes returned, or the Go error returned. -/
def HandleMessage (s : Server) (w : World) (data : Wire) : Except String JSON :=
  match unmarshalMessage data with
  | none => jsonMarshal (NewError .null ParseError "Parse error" .null)
  | some msg =>
    match processMessage s w msg with
    | .error err => jsonMarshal (NewError msg.ID InternalError err .null)
    | .ok response => jsonMarshal response

/-- Server states that the exported interface produces: `NewServer` followed
by any registrations. -/
inductive Reachable : Server → Prop where
  | newServer (name version : String) : Reachable (NewServer name version)
  | registerTool {s : Server} (tool : Tool) : Reachable s → Reachable (s.RegisterTool tool)
  | registerResource {s : Server} (resource : Resource) :
      Reachable s → Reachable (s.RegisterResource resource)

/-! ## Vocabulary of the statements -/

/-- Member of an object document by name, first occurrence. -/
def JSON.get (doc : JSON) (key : String) : Option JSON :=
  match doc with
  | .obj ms => mapGet ms key
  | _ => none

/-- The handler table that `registerHandlers` builds on an empty one. -/
def builtinHandlers : List (String × Handler) :=
  [("initialize", .handleInitialize), ("resources/list", .handleResourcesList),
   ("resources/read", .handleResourcesRead), ("tools/call", .handleToolsCall),
   ("tools/list", .handleToolsList)]

/-- The five built-in method names. -/
def builtinMethods : List String :=
  ["initialize", "tools/list", "tools/call", "resources/list", "resources/read"]

/-- A fixed state of the outside world, for the examples. -/
def sampleWorld : World :=
  { nowStamp := "2024-11-05 10:00:00", nowUnix := 1730800800, nowKitchen := "10:00AM",
    nowRFC3339 := "2024-11-05T10:00:00Z", projects := fun _ => "" }

/-- Every key of the entry list is above `k`. -/
def keysAbove {α : Type} (k : String) : List (String × α) → Bool
  | [] => true
  | (k', _) :: rest => keyLt k k' && keysAbove k rest

/-- The entry list is in strictly increasing key order: the representation
invariant of a Go map. -/
def ascending {α : Type} : List (String × α) → Bool
  | [] => true
  | (k, _) :: rest => keysAbove k rest && ascending rest

/-- No name occurs twice among the members. -/
def distinctKeys {α : Type} : List (String × α) → Bool
  | [] => true
  | (k, _) :: rest => (mapGet rest k).isNone && distinctKeys rest

/-- Every member name of `ns` is a member name of `ms`. -/
def hasKeysOf {α β : Type} (ms : List (String × α)) (ns : List (String × β)) : Bool :=
  ns.all (fun p => (mapGet ms p.1).isSome)

mutual
/-- The tree represents a Go value that the decoder can have stored in an
`interface{}`: every number is a float64 and every map is in key order. -/
def isGoValue : JSON → Bool
  | .null => true
  | .bool _ => true
  | .num n => float64OfInt n == some n
  | .str _ => true
  | .arr xs => isGoValues xs
  | .obj ms => ascending ms && isGoEntries ms
termination_by structural x => x
/-- `isGoValue` on the elements of a slice. -/
def isGoValues : List JSON → Bool
  | [] => true
  | x :: xs => isGoValue x && isGoValues xs
termination_by structural x => x
/-- `isGoValue` on the values of a map. -/
def isGoEntries : List (String × JSON) → Bool
  | [] => true
  | (_, x) :: ms => isGoValue x && isGoEntries ms
termination_by structural x => x
end

mutual
/-- The document is one that is written back as it was read, up to the order
of members: no object repeats a name, and every number is the decimal that
`json.Marshal` writes for the float64 it is read as (every integer of
magnitude below `2 ^ 53` is, and so is every number that `json.Marshal` has
written for a float64). -/
def exactDoc : JSON → Bool
  | .null => true
  | .bool _ => true
  | .num n => (float64OfInt n).map encodeNum == some n
  | .str _ => true
  | .arr xs => exactItems xs
  | .obj ms => distinctKeys ms && exactMembers ms
termination_by structural x => x
/-- `exactDoc` on the elements of an array. -/
def exactItems : List JSON → Bool
  | [] => true
  | x :: xs => exactDoc x && exactItems xs
termination_by structural x => x
/-- `exactDoc` on the values of the members. -/
def exactMembers : List (String × JSON) → Bool
  | [] => true
  | (_, x) :: ms => exactDoc x && exactMembers ms
termination_by structural x => x
end

mutual
/-- Equality of two JSON documents that disregards the order of the members
of objects, at every depth. Objects are compared as finite maps: neither
repeats a name, both have the same names, and equal names carry documents that
are the same. -/
def sameDoc : JSON → JSON → Bool
  | .null, .null => true
  | .bool a, .bool b => a == b
  | .num a, .num b => a == b
  | .str a, .str b => a == b
  | .arr xs, .arr ys => sameItems xs ys
  | .obj ms, .obj ns =>
    distinctKeys ms && distinctKeys ns && hasKeysOf ms ns && sameMembers ms ns
  | _, _ => false
termination_by structural x => x
/-- `sameDoc` element by element. -/
def sameItems : List JSON → List JSON → Bool
  | [], [] => true
  | x :: xs, y :: ys => sameDoc x y && sameItems xs ys
  | _, _ => false
termination_by structural x => x
/-- Every member of the first list has a member of the same name in the second,
with the same document. -/
def sameMembers : List (String × JSON) → List (String × JSON) → Bool
  | [], _ => true
  | (k, v) :: ms, ns =>
    (match mapGet ns k with
      | some v' => sameDoc v v'
      | none => false) && sameMembers ms ns
termination_by structural x => x
end

/-- The value is the JSON literal `null`. -/
def JSON.isNull : JSON → Bool
  | .null => true
  | _ => false

/-- A member of the `error` object of the wire form that survives decoding and
encoding: `code` an integer in the range of `int`, `message` a string, `data`
any document but `null`, exact in the sense of `exactDoc`. -/
def wireErrorMember (k : String) (v : JSON) : Bool :=
  if k = "code" then
    (match v with
      | .num n => int64OfInt n == some n
      | _ => false)
  else if k = "message" then
    (match v with
      | .str _ => true
      | _ => false)
  else if k = "data" then exactDoc v && !v.isNull
  else false

/-- The `error` object of the wire form: `code` and `message`, optionally
`data`, each once. -/
def wireError : JSON → Bool
  | .obj es =>
    distinctKeys es && (mapGet es "code").isSome && (mapGet es "message").isSome &&
      es.all (fun p => wireErrorMember p.1 p.2)
  | _ => false

/-- A member of a serialized envelope that survives decoding and encoding: one
of the six field names, carrying a value of the field's type that is not the
empty value (`null`, or the empty method name) and is exact in the sense of
`exactDoc`. -/
def wireMember (k : String) (v : JSON) : Bool :=
  if k = "jsonrpc" then
    (match v with
      | .str _ => true
      | _ => false)
  else if k = "id" then exactDoc v && !v.isNull
  else if k = "method" then
    (match v with
      | .str s => s != ""
      | _ => false)
  else if k = "params" then exactDoc v && !v.isNull
  else if k = "result" then exactDoc v && !v.isNull
  else if k = "error" then wireError v
  else false

/-- Serialized envelopes on which encoding undoes decoding: an object that
carries `jsonrpc` and any of the other five members, each once, in any order,
none of them empty. The three wire forms (request, success response, error
response) are of this shape as soon as their id, method and error data, where
present, are not `null` or empty. -/
def wireEnvelope : JSON → Bool
  | .obj ms =>
    distinctKeys ms && (mapGet ms "jsonrpc").isSome && ms.all (fun p => wireMember p.1 p.2)
  | _ => false

/-- A request whose id is the integer `2 ^ 60`, which is a float64. -/
def floatIdRequest : JSON :=
  .obj [("jsonrpc", .str "2.0"), ("id", .num 1152921504606846976),
    ("method", .str "tools/list")]

/-- The capability set that `NewServer` stores. -/
def defaultCapabilities : ServerCapabilities :=
  { Tools := some { ListChanged := false },
    Resources := some { Subscribe := false, ListChanged := false },
    Logging := some (),
    Prompts := none }

/-- A server whose handler table holds, next to the built-in handlers, a
function that fails. -/
def failingServer : Server :=
  { NewServer "test-server" "1.0.0" with
    handlers := mapSet builtinHandlers "boom" (Handler.func (fun _ => .error "boom failed")) }

/-- The envelope is a response: it has no method name, and exactly one of
result and error. -/
def Message.isResponse (m : Message) : Bool :=
  m.Method == "" && xor (!m.Result.toJSON.isNull) m.Error.isSome

/-! ## The dispatcher as a program on the server

`HandleMessage` has a pointer receiver: it, `processMessage`, the handlers and
the methods that they call run on the server that the receiver points to and
can assign to its fields, as `RegisterTool` does. Here each of them is a
program in the state monad of the server, translated statement by statement:
a field of the receiver is read with `get` and assigned with `modify`. -/

/-- What an exchange takes from outside the server: the world that the tools
read; the order in which a `range` loop yields the entries of each catalog,
which Go leaves unspecified and which varies from one loop to the next; and
what a function of the handler table that is none of the five methods does to
the server, to which it may hold a pointer. -/
structure Runtime where
  world : World
  rangeTools : List (String × Tool) → List (String × Tool)
  rangeResources : List (String × Resource) → List (String × Resource)
  closure : (Message → Except String Message) → Message → Server → Server

/-- A program run on the server `s`: what it returns, and the server as it
leaves it. -/
def runOn {α : Type} (x : StateM Server α) (s : Server) : α × Server := Id.run (x.run s)

/-- `RegisterTool` as a program: it assigns to an entry of `s.tools`. -/
def RegisterToolM (tool : Tool) : StateM Server Unit :=
  modify fun s => { s with tools := mapSet s.tools tool.Name tool }

/-- `RegisterResource` as a program: it assigns to an entry of `s.resources`. -/
def RegisterResourceM (resource : Resource) : StateM Server Unit :=
  modify fun s => { s with resources := mapSet s.resources resource.URI resource }

/-- `executeTool` as a program; the four `Execute` methods use their receiver
for its logger only. -/
def executeToolM (rt : Runtime) (name : String) (args : Option (List (String × JSON))) :
    StateM Server String := do
  if name = "hello_world" then return ExecuteHelloWorld rt.world args
  else if name = "echo" then return ExecuteEcho args
  else if name = "get_time" then return ExecuteGetTime rt.world args
  else if name = "get_projects" then return ExecuteGetProjects rt.world args
  else return "Tool \'" ++ name ++ "\' not implemented"

/-- `readResource` as a program. -/
def readResourceM (uri : String) : StateM Server String := do
  if uri = "hello://world" then
    return "Hello, World! This is a sample resource from the MCP server."
  else if uri = "info://server" then
    let s ← get
    return "Server: " ++ s.serverInfo.Name ++ " v" ++ s.serverInfo.Version
      ++ "\nProtocol: " ++ MCPVersion
  else return "Resource \'" ++ uri ++ "\' content not available"

/-- `handleInitialize` as a program. -/
def handleInitializeM (msg : Message) : StateM Server (Except String Message) := do
  let s ← get
  let response : InitializeResponse :=
    { ProtocolVersion := MCPVersion, Capabilities := s.capabilities, ServerInfo := s.serverInfo }
  return .ok (NewResponse msg.ID (.initializeResponse response))

/-- `handleToolsList` as a program; the loop appends the tools in the order in
which `range s.tools` yields them. -/
def handleToolsListM (rt : Runtime) (msg : Message) : StateM Server (Except String Message) := do
  let s ← get
  let tools := (rt.rangeTools s.tools).map (fun e => e.2)
  return .ok (NewResponse msg.ID (.toolsListResponse { Tools := tools }))

/-- `handleToolsCall` as a program. -/
def handleToolsCallM (rt : Runtime) (msg : Message) : StateM Server (Except String Message) := do
  match marshalAny msg.Params with
  | none => return .ok (NewError msg.ID InvalidParams "Invalid parameters" .null)
  | some paramsBytes =>
    match unmarshalToolsCallRequest paramsBytes with
    | none => return .ok (NewError msg.ID InvalidParams "Invalid parameters" .null)
    | some req =>
      let s ← get
      match mapGet s.tools req.Name with
      | none =>
        return .ok (NewError msg.ID MethodNotFound ("Tool not found: " ++ req.Name) .null)
      | some _ =>
        let result ← executeToolM rt req.Name req.Arguments
        return .ok (NewResponse msg.ID (.toolsCallResponse
          { Content := [{ Type_ := "text", Text := result }], IsError := false }))

/-- `handleResourcesList` as a program; the loop appends the resources in the
order in which `range s.resources` yields them. -/
def handleResourcesListM (rt : Runtime) (msg : Message) :
    StateM Server (Except String Message) := do
  let s ← get
  let resources := (rt.rangeResources s.resources).map (fun e => e.2)
  return .ok (NewResponse msg.ID (.resourcesListResponse { Resources := resources }))

/-- `handleResourcesRead` as a program. -/
def handleResourcesReadM (msg : Message) : StateM Server (Except String Message) := do
  match marshalAny msg.Params with
  | none => return .ok (NewError msg.ID InvalidParams "Invalid parameters" .null)
  | some paramsBytes =>
    match unmarshalResourcesReadRequest paramsBytes with
    | none => return .ok (NewError msg.ID InvalidParams "Invalid parameters" .null)
    | some req =>
      let s ← get
      match mapGet s.resources req.URI with
      | none =>
        return .ok (NewError msg.ID MethodNotFound ("Resource not found: " ++ req.URI) .null)
      | some resource =>
        let content ← readResourceM req.URI
        return .ok (NewResponse msg.ID (.resourcesReadResponse
          { Contents := [{ URI := req.URI, MimeType := resource.MimeType, Text := content,
                           Blob := "" }] }))

/-- Call of a value of the handler table, as a program. One of the five
methods runs on the receiver it is bound to. Any other function returns what
it returns and does to the server what the runtime says it does. -/
def Handler.run (h : Handler) (rt : Runtime) (msg : Message) :
    StateM Server (Except String Message) :=
  match h with
  | .handleInitialize => handleInitializeM msg
  | .handleToolsList => handleToolsListM rt msg
  | .handleToolsCall => handleToolsCallM rt msg
  | .handleResourcesList => handleResourcesListM rt msg
  | .handleResourcesRead => handleResourcesReadM msg
  | .func f => do
    modify (rt.closure f msg)
    return f msg

/-- `processMessage` as a program. -/
def processMessageM (rt : Runtime) (msg : Message) : StateM Server (Except String Message) := do
  let s ← get
  match mapGet s.handlers msg.Method with
  | none =>
    return .ok (NewError msg.ID MethodNotFound ("Method not found: " ++ msg.Method) .null)
  | some handler => handler.run rt msg

/-- `HandleMessage` as a program. -/
def HandleMessageM (rt : Runtime) (data : Wire) : StateM Server (Except String JSON) := do
  match unmarshalMessage data with
  | none => return jsonMarshal (NewError .null ParseError "Parse error" .null)
  | some msg =>
    match ← processMessageM rt msg with
    | .error err => return jsonMarshal (NewError msg.ID InternalError err .null)
    | .ok response => return jsonMarshal response

/-- A loop of a transport: the messages are handled one after the other on the
same server, each with the runtime of its time. -/
def serveM : List (Runtime × Wire) → StateM Server (List (Except String JSON))
  | [] => return []
  | (rt, data) :: rest => do
    let out ← HandleMessageM rt data
    let outs ← serveM rest
    return out :: outs

/-- The handler is one of the five methods of the server. -/
def Handler.isMethod : Handler → Bool
  | .func _ => false
  | _ => true

/-- The handler table holds methods of the server only, as every table that
`registerHandlers` has filled does. -/
def Server.methodTable (s : Server) : Bool := s.handlers.all (fun p => p.2.isMethod)

/-! ## The HTTP transport, `transport/http.go` -/

/-- A request body as `json.NewDecoder(r.Body).Decode(&request)` reads it:
the stream has no complete JSON value at its start (the decoder returns an
error), or it starts with the JSON value `doc`, which is all the decoder
reads; `more` tells whether anything but white space follows the value. -/
inductive RequestBody where
  | noValue
  | value (doc : JSON) (more : Bool)

/-- The whole body as `json.Unmarshal` would see it. -/
def RequestBody.bytes : RequestBody → Wire
  | .noValue => .notJSON
  | .value doc false => .json doc
  | .value _ true => .notJSON

/-- An HTTP request to the endpoint: its method and its body. -/
structure HTTPRequest where
  Method : String
  Body : RequestBody

/-- A response body: text, or the bytes of a JSON document. -/
inductive ResponseBody where
  | text (s : String)
  | bytes (doc : JSON)

/-- An HTTP response: status code, `Content-Type` header and body. -/
structure HTTPResponse where
  Status : Nat
  ContentType : String
  Body : ResponseBody

/-- `http.Error(w, msg, code)` -/
def httpError (msg : String) (code : Nat) : HTTPResponse :=
  { Status := code, ContentType := "text/plain; charset=utf-8", Body := .text (msg ++ "\n") }

/-- The function that `HTTPTransport.Start` registers for `/mcp`. -/
def mcpHandler (handler : Wire → Except String JSON) (r : HTTPRequest) : HTTPResponse :=
  if r.Method ≠ "POST" then httpError "Method not allowed" 405
  else
    match r.Body with
    | .noValue => httpError "Invalid JSON" 400
    | .value doc _ =>
      match handler (.json doc) with
      | .error err => httpError err 500
      | .ok response => { Status := 200, ContentType := "application/json", Body := .bytes response }

/-! ## The stream transport, `transport/stdio.go` -/

/-- An `io.Writer` that is a byte stream: the bytes it has taken so far, and
the error its `Write` returns once it takes no more (`none` while it is
open). A byte is a natural number; the newline byte is 10. -/
structure ByteWriter where
  taken : List Nat
  failure : Option String

/-- `Write` of the stream: an open stream takes the whole slice. -/
def ByteWriter.Write (w : ByteWriter) (p : List Nat) : Option String × ByteWriter :=
  match w.failure with
  | some err => (some err, w)
  | none => (none, { w with taken := w.taken ++ p })

/-- Go struct `StdioTransport`, without its logger: `reader` is what the
buffered reader has still to deliver of its input, up to the end of input. -/
structure StdioTransport where
  reader : List Nat
  writer : ByteWriter

/-- `bufio.Reader.ReadBytes`: the bytes up to and including the first
`delim`, the error, and the input left. When the input ends before a `delim`
the bytes read so far come with the error `io.EOF`. -/
def ReadBytes (delim : Nat) : List Nat → List Nat × Option String × List Nat
  | [] => ([], some "EOF", [])
  | b :: bs =>
    if b = delim then ([b], none, bs)
    else
      match ReadBytes delim bs with
      | (line, err, rest) => (b :: line, err, rest)

/-- `ReadMessage`: the slice or the error returned, and the transport after
the call. -/
def StdioTransport.ReadMessage (t : StdioTransport) :
    Except String (List Nat) × StdioTransport :=
  match ReadBytes 10 t.reader with
  | (line, err, rest) =>
    match err with
    | some e => (.error e, { t with reader := rest })
    | none =>
      if line.length > 0 ∧ line.getLast? = some 10 then
        (.ok line.dropLast, { t with reader := rest })
      else (.ok line, { t with reader := rest })

/-- `WriteMessage`: the error returned (`none` is `nil`), and the transport
after the call. -/
def StdioTransport.WriteMessage (t : StdioTransport) (data : List Nat) :
    Option String × StdioTransport :=
  match t.writer.Write (data ++ [10]) with
  | (some err, w) => (some err, { t with writer := w })
  | (none, w) => (none, { t with writer := w })

/-- The transport after `WriteMessage` of each message in turn. -/
def writeAll (t : StdioTransport) : List (List Nat) → StdioTransport
  | [] => t
  | d :: ds => writeAll (t.WriteMessage d).2 ds

/-- What `n` successive calls of `ReadMessage` return, and the transport
after them. -/
def readN : Nat → StdioTransport → List (Except String (List Nat)) × StdioTransport
  | 0, t => ([], t)
  | n + 1, t =>
    match readN n (t.ReadMessage).2 with
    | (rs, t') => ((t.ReadMessage).1 :: rs, t')

/-- A stream that is open and has taken nothing. -/
def emptyWriter : ByteWriter := { taken := [], failure := none }

/-- The lines of a list of messages: each message followed by a newline. -/
def frame (msgs : List (List Nat)) : List Nat :=
  (msgs.map (fun d => d ++ [10])).flatten

/-! ## The API client, `pkg/api/ehq_client.go` -/

/-- `strings.HasSuffix`, on the characters of the strings. -/
def HasSuffix (s suffix : String) : Bool :=
  decide (s.data.length ≥ suffix.data.length) &&
    (s.data.drop (s.data.length - suffix.data.length) == suffix.data)

/-- `strings.TrimSuffix` -/
def TrimSuffix (s suffix : String) : String :=
  if HasSuffix s suffix then ⟨s.data.take (s.data.length - suffix.data.length)⟩ else s

/-- Go struct `http.Client`, as far as the package sets it: the timeout in
nanoseconds. -/
structure HTTPClient where
  Timeout : Int

/-- Go struct `EHQClient`; `HTTPClient` is a pointer. -/
structure EHQClient where
  BaseURL : String
  HTTPClient : Option HTTPClient
  Token : String

/-- Go struct `ProjectData` -/
structure ProjectData where
  Type_ : String
  ID : String
  Attributes : Option (List (String × JSON))

/-- Go struct `ProjectsResponse` -/
structure ProjectsResponse where
  Data : List ProjectData

/-- Request built by `http.NewRequest`, with the headers set on it. -/
structure ClientRequest where
  Method : String
  URL : String
  Header : List (String × String)

/-- Answer that `HTTPClient.Do` returns. -/
structure ClientResponse where
  StatusCode : Int
  Body : Wire

/-- What `GetProjects` calls outside the package: `url.QueryEscape`,
`http.NewRequest` with a nil body, `HTTPClient.Do` on a client, `io.ReadAll`
of a response body as a string, and the decoding of a response body into a
`ProjectsResponse`. -/
structure Upstream where
  queryEscape : String → String
  newRequest : String → String → Except String ClientRequest
  roundTrip : HTTPClient → ClientRequest → Except String ClientResponse
  readAll : Wire → String
  decodeProjects : Wire → Except String ProjectsResponse

/-- What a call has done outside the client: a request built, a request
sent. -/
inductive NetEvent where
  | built (method url : String)
  | sent (req : ClientRequest)

/-- How a call ends: it returns, or it panics on a nil pointer. -/
inductive Outcome (α : Type) where
  | returned (a : α)
  | panicked

/-- `NewEHQClient`; the timeout is `30 * time.Second`. -/
def NewEHQClient (baseURL : String) : EHQClient :=
  let baseURL := TrimSuffix baseURL "/"
  { BaseURL := baseURL, HTTPClient := some { Timeout := 30 * 1000000000 }, Token := "" }

/-- `GetProjects`: the pair returned (response pointer and error), what the
call did outside the client, and the client after the call. -/
def EHQClient.GetProjects (c : EHQClient) (u : Upstream) (search : String) :
    Outcome (Option ProjectsResponse × Option String) × List NetEvent × EHQClient :=
  if c.Token = "" then
    (.returned (none, some "client not authenticated - call Authenticate() first"), [], c)
  else
    let projectURL := c.BaseURL ++ "/api/v2/projects?filterable=true"
    let projectURL :=
      if search ≠ "" then projectURL ++ ("&filters[search]=" ++ u.queryEscape search)
      else projectURL
    match u.newRequest "GET" projectURL with
    | .error err =>
      (.returned (none, some ("failed to create projects request: " ++ err)),
        [.built "GET" projectURL], c)
    | .ok req =>
      let header := mapSet req.Header "Authorization" ("Bearer " ++ c.Token)
      let header := mapSet header "Content-Type" "application/json"
      let req := { req with Header := header }
      match c.HTTPClient with
      | none => (.panicked, [.built "GET" projectURL], c)
      | some client =>
        match u.roundTrip client req with
        | .error err =>
          (.returned (none, some ("failed to send projects request: " ++ err)),
            [.built "GET" projectURL, .sent req], c)
        | .ok resp =>
          if resp.StatusCode ≠ 200 then
            (.returned (none, some ("projects request failed with status "
                ++ toString resp.StatusCode ++ ": " ++ u.readAll resp.Body)),
              [.built "GET" projectURL, .sent req], c)
          else
            match u.decodeProjects resp.Body with
            | .error err =>
              (.returned (none, some ("failed to decode projects response: " ++ err)),
                [.built "GET" projectURL, .sent req], c)
            | .ok projectsResp =>
              (.returned (some projectsResp, none), [.built "GET" projectURL, .sent req], c)

/-- An upstream that answers every request with an empty project list. -/
def sampleUpstream : Upstream :=
  { queryEscape := fun s => s,
    newRequest := fun method url => .ok { Method := method, URL := url, Header := [] },
    roundTrip := fun _ _ => .ok { StatusCode := 200, Body := .json (.obj [("data", .arr [])]) },
    readAll := fun _ => "",
    decodeProjects := fun _ => .ok { Data := [] } }

/-! ## Error messages, `types.go` -/

/-- `ErrorMessages` -/
def ErrorMessages : List (Int × String) :=
  [(ParseError, "Parse error"), (InvalidRequest, "Invalid Request"),
   (MethodNotFound, "Method not found"), (InvalidParams, "Invalid params"),
   (InternalError, "Internal error")]

/-- `GetErrorMessage`; `%d` prints the decimal digits, after a minus sign for
a negative code. -/
def GetErrorMessage (code : Int) : String :=
  match ErrorMessages.lookup code with
  | some msg => msg
  | none => "Unknown error (" ++ toString code ++ ")"

/-! ## Transport selection, `cmd/multi-server/main.go` -/

/-- The flags of the multi-transport server. -/
structure Flags where
  debug : Bool
  version : Bool
  httpPort : Int
  wsPort : Int
  stdioOnly : Bool

/-- The flags as `flag.Parse` leaves them on an empty command line. -/
def Flags.default : Flags :=
  { debug := false, version := false, httpPort := 0, wsPort := 0, stdioOnly := false }

/-- The transports that `main` has started when it waits for the signal. -/
structure Started where
  stdio : Bool
  http : Bool
  ws : Bool
deriving DecidableEq

/-- The three `if` statements of `main` that start the transports. -/
def startTransports (f : Flags) : Started :=
  { stdio := f.stdioOnly || (f.httpPort == 0 && f.wsPort == 0),
    http := decide (f.httpPort > 0),
    ws := decide (f.wsPort > 0) }

/-- `main` of the multi-transport server as far as the transports go: with
`-version` it prints and exits (`none`), else it starts the transports. -/
def multiServerMain (f : Flags) : Option Started :=
  if f.version then none else some (startTransports f)

/-! ## Vocabulary of the dispatcher properties -/

/-- Every schema of the catalog has a JSON encoding. -/
def Server.encodable (s : Server) : Bool :=
  s.tools.all (fun kv => kv.2.SchemaError.isNone)

/-- The two envelopes agree in every field but the protocol tag. -/
def tagEq (a b : Message) : Prop :=
  a.ID = b.ID ∧ a.Method = b.Method ∧ a.Params = b.Params ∧ a.Result = b.Result ∧
    a.Error = b.Error

/-- Both decodings fail, or both succeed with envelopes that agree in every
field but the protocol tag. -/
def optTagEq : Option Message → Option Message → Prop
  | some a, some b => tagEq a b
  | none, none => True
  | _, _ => False

/-- Whether a member of an envelope object gives the protocol tag as a
string: its name selects the field `jsonrpc` and its value is a string. -/
def isTagMember (kv : String × JSON) : Bool :=
  fieldMatch "jsonrpc" kv.1 &&
    (match kv.2 with
      | .str _ => true
      | _ => false)

/-- The members of an envelope object without those that give the protocol
tag as a string. -/
def dropTag (ms : List (String × JSON)) : List (String × JSON) :=
  ms.filter (fun kv => !isTagMember kv)

/-- Whether a value is of a JSON type that a field of type `string` does not
take. -/
def notStringOrNull : JSON → Bool
  | .str _ => false
  | .null => false
  | _ => true

/-- Whether a value is of a JSON type that a field of type `*Error` does not
take. -/
def notObjectOrNull : JSON → Bool
  | .obj _ => false
  | .null => false
  | _ => true

/-- Whether a member of an envelope object has a value of a JSON type that
its field does not take: `jsonrpc` or `method` with a value that is neither a
string nor null, `error` with a value that is neither an object nor null. -/
def wrongTypeMember (kv : String × JSON) : Bool :=
  ((fieldMatch "jsonrpc" kv.1 || fieldMatch "method" kv.1) && notStringOrNull kv.2) ||
    (fieldMatch "error" kv.1 && notObjectOrNull kv.2)

/-- Whether a document is of a JSON type that an envelope does not take: a
top-level value that is neither an object nor null, or an object with a
member of the wrong type. -/
def wrongType : JSON → Bool
  | .null => false
  | .obj ms => ms.any wrongTypeMember
  | _ => true

/-- Whether a value is of a JSON type that the field `Arguments`, a map,
takes. -/
def objectOrNull : JSON → Bool
  | .obj _ => true
  | .null => true
  | _ => false

/-- Whether a member of a parameter object is neither a `name` member nor an
`arguments` member of a type that the field does not take. -/
def unnamedMember (kv : String × JSON) : Bool :=
  !fieldMatch "name" kv.1 && (!fieldMatch "arguments" kv.1 || objectOrNull kv.2)

/-- Whether the params of a `tools/call` request give no tool name and can be
decoded: they are absent or null, or an object without a member that selects
the field `name` and whose members that select `arguments` are objects or
null. -/
def paramsWithoutName : JSON → Bool
  | .null => true
  | .obj ms => ms.all unnamedMember
  | _ => false

/-! ## The tool descriptors, `pkg/tools/basic.go` -/

/-- `HelloWorldTool`; the schema is the document that encodes the map. -/
def HelloWorldTool : Tool :=
  { Name := "hello_world",
    Description := "Returns a friendly hello world message",
    InputSchema := .obj
      [("properties", .obj
          [("name", .obj [("description", .str "Name to greet (optional)"),
                          ("type", .str "string")])]),
       ("type", .str "object")] }

/-- `EchoTool` -/
def EchoTool : Tool :=
  { Name := "echo",
    Description := "Echoes back the provided message",
    InputSchema := .obj
      [("properties", .obj
          [("message", .obj [("description", .str "Message to echo back"),
                             ("type", .str "string")])]),
       ("required", .arr [.str "message"]),
       ("type", .str "object")] }

/-- `GetTimeTool` -/
def GetTimeTool : Tool :=
  { Name := "get_time",
    Description := "Returns the current date and time",
    InputSchema := .obj
      [("properties", .obj
          [("format", .obj
              [("description", .str "Time format (optional, defaults to RFC3339)"),
               ("enum", .arr [.str "RFC3339", .str "Unix", .str "Kitchen"]),
               ("type", .str "string")])]),
       ("type", .str "object")] }

/-- `GetProjectsTool` -/
def GetProjectsTool : Tool :=
  { Name := "get_projects",
    Description := "Fetches projects from the EHQ API using authentication",
    InputSchema := .obj
      [("properties", .obj
          [("search", .obj
              [("description",
                  .str "Search term to filter projects by name or description (optional)"),
               ("type", .str "string")])]),
       ("type", .str "object")] }

/-- A descriptor whose schema is a Go channel, a value that `json.Marshal`
does not encode. -/
def channelTool : Tool :=
  { Name := "stream", Description := "A tool whose schema is a channel",
    InputSchema := .null, SchemaError := some "json: unsupported type: chan int" }

/-- The names that `executeTool` has a case for. -/
def executedNames : List String := ["hello_world", "echo", "get_time", "get_projects"]

/-- A descriptor with a name that `executeTool` has no case for. -/
def customTool : Tool :=
  { Name := "custom_tool", Description := "A tool without a case",
    InputSchema := .obj [("type", .str "object")] }

/-- A server with the four tools of the package and `customTool`. -/
def customServer : Server :=
  (((((NewServer "test-server" "1.0.0").RegisterTool HelloWorldTool).RegisterTool
    EchoTool).RegisterTool GetTimeTool).RegisterTool GetProjectsTool).RegisterTool customTool

/-- A call of `customTool` with one argument. -/
def customCall : Wire :=
  .json (.obj [("jsonrpc", .str "2.0"), ("id", .num 1), ("method", .str "tools/call"),
    ("params", .obj [("name", .str "custom_tool"), ("arguments", .obj [("x", .num 1)])])])

/-- A server with two registered tools. -/
def twoToolServer : Server :=
  ((NewServer "test-server" "1.0.0").RegisterTool EchoTool).RegisterTool GetTimeTool

/-- A `tools/list` request with the id 1. -/
def listRequest : Wire :=
  .json (.obj [("jsonrpc", .str "2.0"), ("id", .num 1), ("method", .str "tools/list")])

/-- A runtime whose loops yield the entries in reverse key order and in which
a closure of the handler table registers the echo tool. -/
def reverseRuntime (w : World) : Runtime :=
  { world := w, rangeTools := List.reverse, rangeResources := List.reverse,
    closure := fun _ _ s => s.RegisterTool EchoTool }

/-! ## Properties -/

/-! ### The encoder -/

theorem jsonMarshal_of_none (m : Message) (h : m.Result.marshalError = none) :
    jsonMarshal m = .ok (marshalMessage m) := by
  simp only [jsonMarshal, h]

theorem jsonMarshal_ok {m : Message} {out : JSON} (h : jsonMarshal m = .ok out) :
    out = marshalMessage m ∧ m.Result.marshalError = none := by
  unfold jsonMarshal at h
  cases hm : m.Result.marshalError with
  | some err => rw [hm] at h; cases h
  | none =>
    rw [hm] at h
    exact ⟨(Except.ok.inj h).symm, rfl⟩

theorem jsonMarshal_newError (id : JSON) (code : Int) (message : String) (data : JSON) :
    jsonMarshal (NewError id code message data)
      = .ok (marshalMessage (NewError id code message data)) := rfl

theorem jsonMarshal_value (id : JSON) (v : JSON) :
    jsonMarshal (NewResponse id (.value v)) = .ok (marshalMessage (NewResponse id (.value v))) :=
  rfl

theorem jsonMarshal_initialize (id : JSON) (r : InitializeResponse) :
    jsonMarshal (NewResponse id (.initializeResponse r))
      = .ok (marshalMessage (NewResponse id (.initializeResponse r))) := rfl

theorem jsonMarshal_toolsCall (id : JSON) (r : ToolsCallResponse) :
    jsonMarshal (NewResponse id (.toolsCallResponse r))
      = .ok (marshalMessage (NewResponse id (.toolsCallResponse r))) := rfl

theorem jsonMarshal_resourcesList (id : JSON) (r : ResourcesListResponse) :
    jsonMarshal (NewResponse id (.resourcesListResponse r))
      = .ok (marshalMessage (NewResponse id (.resourcesListResponse r))) := rfl

theorem jsonMarshal_resourcesRead (id : JSON) (r : ResourcesReadResponse) :
    jsonMarshal (NewResponse id (.resourcesReadResponse r))
      = .ok (marshalMessage (NewResponse id (.resourcesReadResponse r))) := rfl

theorem findSome_schemaError (l : List Tool) :
    l.findSome? (fun t => t.SchemaError) = none ↔ ∀ t ∈ l, t.SchemaError = none := by
  induction l with
  | nil => simp
  | cons t l ih =>
    cases ht : t.SchemaError with
    | none => simp [List.findSome?, ht, ih]
    | some e => simp [List.findSome?, ht]

theorem jsonMarshal_toolsList (id : JSON) (l : List Tool) (h : ∀ t ∈ l, t.SchemaError = none) :
    jsonMarshal (NewResponse id (.toolsListResponse { Tools := l }))
      = .ok (marshalMessage (NewResponse id (.toolsListResponse { Tools := l }))) :=
  jsonMarshal_of_none _ ((findSome_schemaError l).2 h)

/-! ### Key order and maps -/

theorem ltChars_irrefl (a : List Char) : ltChars a a = false := by
  induction a with
  | nil => rfl
  | cons x xs ih => simp [ltChars, ih]

theorem ltChars_trans : ∀ (a b c : List Char),
    ltChars a b = true → ltChars b c = true → ltChars a c = true
  | [], [], _, h, _ => by simp [ltChars] at h
  | [], _ :: _, [], _, h => by simp [ltChars] at h
  | [], _ :: _, _ :: _, _, _ => by simp [ltChars]
  | _ :: _, [], _, h, _ => by simp [ltChars] at h
  | _ :: _, _ :: _, [], _, h => by simp [ltChars] at h
  | x :: xs, y :: ys, z :: zs, h₁, h₂ => by
    simp only [ltChars] at h₁ h₂ ⊢
    by_cases hxy : x.toNat < y.toNat
    · by_cases hyz : y.toNat < z.toNat
      · have : x.toNat < z.toNat := by omega
        simp [this]
      · simp only [hyz, if_false] at h₂
        by_cases hyz' : y.toNat = z.toNat
        · have : x.toNat < z.toNat := by omega
          simp [this]
        · simp [hyz'] at h₂
    · simp only [hxy, if_false] at h₁
      by_cases hxy' : x.toNat = y.toNat
      · simp only [hxy', if_true] at h₁
        by_cases hyz : y.toNat < z.toNat
        · have : x.toNat < z.toNat := by omega
          simp [this]
        · simp only [hyz, if_false] at h₂
          by_cases hyz' : y.toNat = z.toNat
          · simp only [hyz', if_true] at h₂
            have h3 : ¬ x.toNat < z.toNat := by omega
            have h4 : x.toNat = z.toNat := by omega
            rw [if_neg h3, if_pos h4]
            exact ltChars_trans xs ys zs h₁ h₂
          · simp [hyz'] at h₂
      · simp [hxy'] at h₁

theorem ltChars_total : ∀ (a b : List Char), a ≠ b → ltChars a b = true ∨ ltChars b a = true
  | [], [], h => absurd rfl h
  | [], _ :: _, _ => by simp [ltChars]
  | _ :: _, [], _ => by simp [ltChars]
  | x :: xs, y :: ys, h => by
    simp only [ltChars]
    by_cases hxy : x.toNat < y.toNat
    · simp [hxy]
    · by_cases hyx : y.toNat < x.toNat
      · simp [hyx]
      · have heq : x.toNat = y.toNat := by omega
        have hc : x = y := by
          apply Char.ext
          apply UInt32.ext
          exact heq
        subst hc
        have hne : xs ≠ ys := fun hh => h (by rw [hh])
        simpa using ltChars_total xs ys hne

theorem keyLt_irrefl (a : String) : keyLt a a = false := ltChars_irrefl _

theorem keyLt_trans {a b c : String} (h₁ : keyLt a b = true) (h₂ : keyLt b c = true) :
    keyLt a c = true := ltChars_trans _ _ _ h₁ h₂

theorem keyLt_total {a b : String} (h : a ≠ b) : keyLt a b = true ∨ keyLt b a = true :=
  ltChars_total _ _ (fun hd => h (String.ext hd))

theorem keyLt_ne {a b : String} (h : keyLt a b = true) : a ≠ b := by
  intro hab
  subst hab
  rw [keyLt_irrefl] at h
  exact Bool.false_ne_true h

theorem keyLt_asymm {a b : String} (h : keyLt a b = true) : keyLt b a = false := by
  cases hb : keyLt b a with
  | false => rfl
  | true =>
    have := keyLt_trans h hb
    rw [keyLt_irrefl] at this
    exact absurd this Bool.false_ne_true

theorem mapGet_mapSet {α : Type} (m : List (String × α)) (k : String) (v : α) (k' : String) :
    mapGet (mapSet m k v) k' = if k' = k then some v else mapGet m k' := by
  induction m with
  | nil => simp [mapSet, mapGet]
  | cons p rest ih =>
    obtain ⟨k₁, v₁⟩ := p
    simp only [mapSet]
    by_cases h1 : keyLt k k₁ = true
    · simp [h1, mapGet]
    · simp only [h1, if_false, Bool.false_eq_true]
      by_cases h2 : k = k₁
      · subst h2
        simp only [if_true, mapGet]
        by_cases h3 : k' = k <;> simp [h3]
      · simp only [h2, if_false, mapGet, ih]
        by_cases h3 : k' = k₁
        · subst h3
          have : k' ≠ k := fun h => h2 h.symm
          simp [this]
        · simp [h3]

theorem keysAbove_mapSet {α : Type} (lo : String) (m : List (String × α)) (k : String) (v : α)
    (hm : keysAbove lo m = true) (hk : keyLt lo k = true) :
    keysAbove lo (mapSet m k v) = true := by
  induction m with
  | nil => simp [mapSet, keysAbove, hk]
  | cons p rest ih =>
    obtain ⟨k₁, v₁⟩ := p
    simp only [keysAbove, Bool.and_eq_true] at hm
    simp only [mapSet]
    split_ifs
    · simp [keysAbove, hk, hm.1, hm.2]
    · simp [keysAbove, hk, hm.2]
    · simp [keysAbove, hm.1, ih hm.2]

theorem keysAbove_of_lt {α : Type} {a b : String} (m : List (String × α))
    (hab : keyLt a b = true) (hm : keysAbove b m = true) : keysAbove a m = true := by
  induction m with
  | nil => rfl
  | cons p rest ih =>
    obtain ⟨k₁, v₁⟩ := p
    simp only [keysAbove, Bool.and_eq_true] at hm ⊢
    exact ⟨keyLt_trans hab hm.1, ih hm.2⟩

theorem ascending_mapSet {α : Type} (m : List (String × α)) (k : String) (v : α)
    (hm : ascending m = true) : ascending (mapSet m k v) = true := by
  induction m with
  | nil => simp [mapSet, ascending, keysAbove]
  | cons p rest ih =>
    obtain ⟨k₁, v₁⟩ := p
    simp only [ascending, Bool.and_eq_true] at hm
    simp only [mapSet]
    by_cases h1 : keyLt k k₁ = true
    · simp only [h1, if_true, ascending, keysAbove, Bool.and_eq_true]
      exact ⟨⟨trivial, keysAbove_of_lt rest h1 hm.1⟩, hm.1, hm.2⟩
    · simp only [h1, if_false, Bool.false_eq_true]
      by_cases h2 : k = k₁
      · subst h2
        simp only [if_true, ascending, Bool.and_eq_true]
        exact hm
      · simp only [h2, if_false, ascending, Bool.and_eq_true]
        have h3 : keyLt k₁ k = true := by
          rcases keyLt_total h2 with h | h
          · exact absurd h h1
          · exact h
        exact ⟨keysAbove_mapSet k₁ rest k v hm.1 h3, ih hm.2⟩

theorem mapGet_of_keysAbove {α : Type} (k : String) (m : List (String × α))
    (h : keysAbove k m = true) : mapGet m k = none := by
  induction m with
  | nil => rfl
  | cons p rest ih =>
    obtain ⟨k₁, v₁⟩ := p
    simp only [keysAbove, Bool.and_eq_true] at h
    simp only [mapGet, keyLt_ne h.1, if_false]
    exact ih h.2

theorem distinctKeys_of_ascending {α : Type} (m : List (String × α))
    (h : ascending m = true) : distinctKeys m = true := by
  induction m with
  | nil => rfl
  | cons p rest ih =>
    obtain ⟨k₁, v₁⟩ := p
    simp only [ascending, Bool.and_eq_true] at h
    simp only [distinctKeys, Bool.and_eq_true, Option.isNone_iff_eq_none]
    exact ⟨mapGet_of_keysAbove k₁ rest h.1, ih h.2⟩

/-- Storing a key above every key of a map appends the entry. -/
theorem mapSet_append_last {α : Type} (m : List (String × α)) (k : String) (v : α)
    (h : ∀ p ∈ m, keyLt p.1 k = true) : mapSet m k v = m ++ [(k, v)] := by
  induction m with
  | nil => rfl
  | cons p rest ih =>
    obtain ⟨k₁, v₁⟩ := p
    have h1 : keyLt k₁ k = true := h (k₁, v₁) (List.mem_cons_self _ _)
    have h2 : keyLt k k₁ = false := keyLt_asymm h1
    have h3 : k ≠ k₁ := fun hh => keyLt_ne h1 hh.symm
    simp only [mapSet, h2, Bool.false_eq_true, if_false, h3, List.cons_append]
    rw [ih (fun p hp => h p (List.mem_cons_of_mem _ hp))]

/-! ### Decoding into `interface{}` -/

mutual
/-- A tree that represents a Go value is decoded to itself. -/
theorem decodeAny_goValue : ∀ v : JSON, isGoValue v = true → decodeAny v = some v
  | .null, _ => rfl
  | .bool _, _ => rfl
  | .num n, h => by
    simp only [isGoValue, beq_iff_eq] at h
    simp only [decodeAny, h]
  | .str _, _ => rfl
  | .arr xs, h => by
    simp only [isGoValue] at h
    simp only [decodeAny, decodeItems_goValues xs h]
  | .obj ms, h => by
    simp only [isGoValue, Bool.and_eq_true] at h
    have hm := decodeMembers_goEntries ms [] h.1 h.2 (fun p hp => by simp at hp)
    simp only [decodeAny, hm, List.nil_append]
theorem decodeItems_goValues : ∀ xs : List JSON, isGoValues xs = true → decodeItems xs = some xs
  | [], _ => rfl
  | x :: xs, h => by
    simp only [isGoValues, Bool.and_eq_true] at h
    simp only [decodeItems, decodeAny_goValue x h.1, decodeItems_goValues xs h.2]
theorem decodeMembers_goEntries : ∀ (ms acc : List (String × JSON)), ascending ms = true →
    isGoEntries ms = true → (∀ p ∈ acc, keysAbove p.1 ms = true) →
    decodeMembers ms acc = some (acc ++ ms)
  | [], acc, _, _, _ => by simp [decodeMembers]
  | (k, x) :: ms, acc, ha, hg, hacc => by
    simp only [ascending, Bool.and_eq_true] at ha
    simp only [isGoEntries, Bool.and_eq_true] at hg
    have hlt : ∀ p ∈ acc, keyLt p.1 k = true := fun p hp => by
      have := hacc p hp
      simp only [keysAbove, Bool.and_eq_true] at this
      exact this.1
    have hrest : ∀ p ∈ acc ++ [(k, x)], keysAbove p.1 ms = true := fun p hp => by
      rcases List.mem_append.1 hp with h1 | h1
      · have := hacc p h1
        simp only [keysAbove, Bool.and_eq_true] at this
        exact this.2
      · simp only [List.mem_singleton] at h1
        subst h1
        exact ha.1
    simp only [decodeMembers, decodeAny_goValue x hg.1, mapSet_append_last acc k x hlt,
      decodeMembers_goEntries ms (acc ++ [(k, x)]) ha.2 hg.2 hrest, List.append_assoc,
      List.singleton_append]
end

theorem mapGet_of_mem_distinct {α : Type} (m : List (String × α)) (k : String) (v : α)
    (hd : distinctKeys m = true) (hmem : (k, v) ∈ m) : mapGet m k = some v := by
  induction m with
  | nil => simp at hmem
  | cons p rest ih =>
    obtain ⟨k₁, v₁⟩ := p
    simp only [distinctKeys, Bool.and_eq_true, Option.isNone_iff_eq_none] at hd
    rcases List.mem_cons.1 hmem with h | h
    · simp only [Prod.mk.injEq] at h
      simp [mapGet, h.1, h.2]
    · have hr := ih hd.2 h
      by_cases hk : k = k₁
      · subst hk
        rw [hd.1] at hr
        simp at hr
      · simp [mapGet, hk, hr]

theorem mem_of_mapGet {α : Type} (m : List (String × α)) (k : String) (v : α)
    (h : mapGet m k = some v) : (k, v) ∈ m := by
  induction m with
  | nil => simp [mapGet] at h
  | cons p rest ih =>
    obtain ⟨k₁, v₁⟩ := p
    simp only [mapGet] at h
    by_cases hk : k = k₁
    · subst hk
      simp only [if_true, Option.some.injEq] at h
      subst h
      exact List.mem_cons_self _ _
    · simp only [hk, if_false] at h
      exact List.mem_cons_of_mem _ (ih h)

theorem sameMembers_iff (l ns : List (String × JSON)) :
    sameMembers l ns = true ↔
      ∀ p ∈ l, ∃ v', mapGet ns p.1 = some v' ∧ sameDoc p.2 v' = true := by
  induction l with
  | nil => simp [sameMembers]
  | cons p rest ih =>
    obtain ⟨k, v⟩ := p
    simp only [sameMembers, Bool.and_eq_true, ih, List.mem_cons, forall_eq_or_imp]
    constructor
    · rintro ⟨h1, h2⟩
      refine ⟨?_, h2⟩
      cases hg : mapGet ns k with
      | none => simp [hg] at h1
      | some v' =>
        simp only [hg] at h1
        exact ⟨v', rfl, h1⟩
    · rintro ⟨⟨v', h1, h1'⟩, h2⟩
      refine ⟨?_, h2⟩
      simp only [h1]
      exact h1'

theorem hasKeysOf_iff {α β : Type} (ms : List (String × α)) (ns : List (String × β)) :
    hasKeysOf ms ns = true ↔ ∀ p ∈ ns, ∃ v, mapGet ms p.1 = some v := by
  simp only [hasKeysOf, List.all_eq_true, Option.isSome_iff_exists]

theorem isGoEntries_mapSet (m : List (String × JSON)) (k : String) (v : JSON)
    (hm : isGoEntries m = true) (hv : isGoValue v = true) :
    isGoEntries (mapSet m k v) = true := by
  induction m with
  | nil => simp [mapSet, isGoEntries, hv]
  | cons p rest ih =>
    obtain ⟨k₁, v₁⟩ := p
    simp only [isGoEntries, Bool.and_eq_true] at hm
    simp only [mapSet]
    split_ifs
    · simp [isGoEntries, hv, hm.1, hm.2]
    · simp [isGoEntries, hv, hm.2]
    · simp [isGoEntries, hm.1, ih hm.2]

/-! ### Values that the decoder has stored -/

theorem shiftFor_props (a : Nat) : ∀ fuel e0 : Nat,
    e0 ≤ shiftFor a fuel e0 ∧ shiftFor a fuel e0 ≤ e0 + fuel ∧
    (∀ j, e0 ≤ j → j < shiftFor a fuel e0 → 2 ^ 53 ≤ a / 2 ^ j) ∧
    (a / 2 ^ (e0 + fuel) < 2 ^ 53 → a / 2 ^ shiftFor a fuel e0 < 2 ^ 53) := by
  intro fuel
  induction fuel with
  | zero =>
    intro e0
    simp only [shiftFor, Nat.add_zero, le_refl, true_and]
    exact ⟨fun j h1 h2 => absurd h1 (by omega), fun h => h⟩
  | succ fuel ih =>
    intro e0
    simp only [shiftFor]
    split_ifs with hlt
    · exact ⟨le_refl _, by omega, fun j h1 h2 => absurd h1 (by omega), fun _ => hlt⟩
    · obtain ⟨h1, h2, h3, h4⟩ := ih (e0 + 1)
      refine ⟨by omega, by omega, fun j hj1 hj2 => ?_, fun h => ?_⟩
      · by_cases hj : j = e0
        · subst hj; exact Nat.le_of_not_lt hlt
        · exact h3 j (by omega) hj2
      · apply h4
        have : e0 + 1 + fuel = e0 + (fuel + 1) := by omega
        rw [this]; exact h

theorem shiftFor_eq (a : Nat) : ∀ fuel e0 e : Nat, e0 ≤ e → e ≤ e0 + fuel →
    (∀ j, e0 ≤ j → j < e → 2 ^ 53 ≤ a / 2 ^ j) → a / 2 ^ e < 2 ^ 53 →
    shiftFor a fuel e0 = e := by
  intro fuel
  induction fuel with
  | zero =>
    intro e0 e h1 h2 _ _
    simp only [shiftFor]; omega
  | succ fuel ih =>
    intro e0 e h1 h2 h3 h4
    simp only [shiftFor]
    split_ifs with hlt
    · by_contra hne
      have := h3 e0 (le_refl _) (by omega)
      omega
    · have hne : e ≠ e0 := fun h => hlt (h ▸ h4)
      exact ih (e0 + 1) e (by omega) (by omega) (fun j hj1 hj2 => h3 j (by omega) hj2) h4

theorem float64Bound_eq : float64Bound = 2 ^ 53 * 2 ^ 971 := by
  unfold float64Bound
  rw [← pow_add, ← pow_add, ← pow_add, ← pow_add]

theorem mul_pow_div (q e j : Nat) (hj : j ≤ e) : q * 2 ^ e / 2 ^ j = q * 2 ^ (e - j) := by
  have : 2 ^ e = 2 ^ (e - j) * 2 ^ j := by rw [← pow_add]; congr 1; omega
  rw [this, ← Nat.mul_assoc, Nat.mul_div_cancel _ (Nat.two_pow_pos j)]

theorem shift_bound (q e : Nat) (hq : 2 ^ 52 ≤ q) (hb : q * 2 ^ e < float64Bound) :
    e ≤ 971 := by
  rw [float64Bound_eq] at hb
  by_contra hcon
  have hsplit : 2 ^ e = 2 ^ 971 * 2 ^ (e - 971) := by
    have := pow_add 2 971 (e - 971)
    rw [Nat.add_sub_of_le (by omega)] at this
    exact this
  have h1 : 2 ^ 1 ≤ 2 ^ (e - 971) := Nat.pow_le_pow_right (by decide) (by omega)
  have h2 : 2 ^ 971 * 2 ^ 1 ≤ 2 ^ e := by
    rw [hsplit]; exact Nat.mul_le_mul_left _ h1
  have h3 : 2 ^ 52 * (2 ^ 971 * 2 ^ 1) ≤ q * 2 ^ e := Nat.mul_le_mul hq h2
  have h4 : (2 : Nat) ^ 53 * 2 ^ 971 = 2 ^ 52 * (2 ^ 971 * 2 ^ 1) := by
    rw [← pow_add, ← pow_add, ← pow_add]
  rw [h4] at hb
  exact absurd hb (Nat.not_lt.2 h3)

/-- A magnitude with a mantissa below `2 ^ 53` is shifted back by its own
exponent. -/
theorem round_fixed_lt (q e : Nat) (hq : 2 ^ 52 ≤ q) (hq' : q < 2 ^ 53) (he : 1 ≤ e)
    (hb : q * 2 ^ e < float64Bound) :
    shiftFor (q * 2 ^ e) 971 1 = e := by
  have h971 := shift_bound q e hq hb
  apply shiftFor_eq _ 971 1 e he (by omega)
  · intro j hj1 hj2
    rw [mul_pow_div q e j (by omega)]
    have h1 : 2 ^ 1 ≤ 2 ^ (e - j) := Nat.pow_le_pow_right (by decide) (by omega)
    have h2 : 2 ^ 52 * 2 ^ 1 ≤ q * 2 ^ (e - j) := Nat.mul_le_mul hq h1
    have h3 : (2 : Nat) ^ 53 = 2 ^ 52 * 2 ^ 1 := by rw [← pow_add]
    omega
  · rw [Nat.mul_div_cancel _ (Nat.two_pow_pos e)]
    exact hq'

/-- A magnitude `q * 2 ^ e` with `2 ^ 52 ≤ q ≤ 2 ^ 53` below the bound is
rounded to itself. -/
theorem round_fixed (q e : Nat) (hq : 2 ^ 52 ≤ q) (hq' : q ≤ 2 ^ 53) (he : 1 ≤ e)
    (hb : q * 2 ^ e < float64Bound) :
    q * 2 ^ e / 2 ^ shiftFor (q * 2 ^ e) 971 1 * 2 ^ shiftFor (q * 2 ^ e) 971 1 = q * 2 ^ e ∧
    q * 2 ^ e % 2 ^ shiftFor (q * 2 ^ e) 971 1 = 0 ∧ 1 ≤ shiftFor (q * 2 ^ e) 971 1 := by
  rcases Nat.lt_or_eq_of_le hq' with hlt | heq
  · rw [round_fixed_lt q e hq hlt he hb, Nat.mul_div_cancel _ (Nat.two_pow_pos e)]
    exact ⟨rfl, Nat.mul_mod_left _ _, he⟩
  · have hrew : q * 2 ^ e = 2 ^ 52 * 2 ^ (e + 1) := by
      rw [heq, ← pow_add, ← pow_add]; congr 1; omega
    rw [hrew] at hb ⊢
    rw [round_fixed_lt (2 ^ 52) (e + 1) (le_refl _)
      (Nat.pow_lt_pow_right (by decide) (by decide)) (by omega) hb,
      Nat.mul_div_cancel _ (Nat.two_pow_pos (e + 1))]
    exact ⟨rfl, Nat.mul_mod_left _ _, by omega⟩

theorem two_pow_53_le (q e : Nat) (hq : 2 ^ 52 ≤ q) (he : 1 ≤ e) : 2 ^ 53 ≤ q * 2 ^ e := by
  have h1 : 2 ^ 1 ≤ 2 ^ e := Nat.pow_le_pow_right (by decide) he
  have h2 : 2 ^ 52 * 2 ^ 1 ≤ q * 2 ^ e := Nat.mul_le_mul hq h1
  have h3 : (2 : Nat) ^ 53 = 2 ^ 52 * 2 ^ 1 := by rw [← pow_add]
  rw [h3]; exact h2

theorem div_pow_lt (a m k : Nat) (h : a < 2 ^ 53 * 2 ^ m) (hk : m ≤ k) :
    a / 2 ^ k < 2 ^ 53 := by
  rw [Nat.div_lt_iff_lt_mul (Nat.two_pow_pos _)]
  exact lt_of_lt_of_le h (Nat.mul_le_mul_left _ (Nat.pow_le_pow_right (by decide) hk))

/-- An integer whose magnitude is a rounded magnitude converts to itself. -/
theorem float64OfInt_rounded (v : Int) (q e : Nat) (hq : 2 ^ 52 ≤ q) (hq' : q ≤ 2 ^ 53)
    (he : 1 ≤ e) (hb : q * 2 ^ e < float64Bound) (habs : v.natAbs = q * 2 ^ e) :
    float64OfInt v = some v := by
  have hge := two_pow_53_le q e hq he
  obtain ⟨r1, r2, r3⟩ := round_fixed q e hq hq' he hb
  unfold float64OfInt
  simp only [habs]
  rw [if_neg (Nat.not_lt.2 hge), if_neg (Nat.not_le.2 hb)]
  have hcond : ¬(2 ^ (shiftFor (q * 2 ^ e) 971 1 - 1) < q * 2 ^ e % 2 ^ shiftFor (q * 2 ^ e) 971 1 ∨
      q * 2 ^ e % 2 ^ shiftFor (q * 2 ^ e) 971 1 = 2 ^ (shiftFor (q * 2 ^ e) 971 1 - 1) ∧
        q * 2 ^ e / 2 ^ shiftFor (q * 2 ^ e) 971 1 % 2 = 1) := by
    rw [r2]
    have := Nat.two_pow_pos (shiftFor (q * 2 ^ e) 971 1 - 1)
    omega
  rw [if_neg hcond, r1, if_neg (Nat.not_le.2 hb), ← habs]
  congr 1
  split_ifs <;> omega

/-- The float64 nearest to an integer is a float64: it converts to itself. -/
theorem float64OfInt_fixed (n v : Int) (h : float64OfInt n = some v) :
    float64OfInt v = some v := by
  by_cases h1 : n.natAbs < 2 ^ 53
  · have : float64OfInt n = some n := by
      unfold float64OfInt
      simp only [h1, if_true]
    rw [this, Option.some.injEq] at h
    subst h
    exact this
  · by_cases h2 : float64Bound ≤ n.natAbs
    · unfold float64OfInt at h
      simp only [h1, h2, if_true, if_false] at h
      exact absurd h (by simp)
    · obtain ⟨p1, p2, p3, p4⟩ := shiftFor_props n.natAbs 971 1
      have hlt : n.natAbs / 2 ^ shiftFor n.natAbs 971 1 < 2 ^ 53 := by
        have hb : n.natAbs < 2 ^ 53 * 2 ^ 971 := by
          rw [← float64Bound_eq]; exact Nat.not_le.1 h2
        exact p4 (div_pow_lt _ _ _ hb (Nat.le_add_left _ _))
      have hge : 2 ^ 52 ≤ n.natAbs / 2 ^ shiftFor n.natAbs 971 1 := by
        have hm : 2 ^ 53 ≤ n.natAbs / 2 ^ (shiftFor n.natAbs 971 1 - 1) := by
          by_cases he : shiftFor n.natAbs 971 1 = 1
          · rw [he]; simp only [Nat.sub_self, pow_zero, Nat.div_one]; omega
          · exact p3 _ (by omega) (by omega)
        have hsplit : 2 ^ shiftFor n.natAbs 971 1 = 2 ^ (shiftFor n.natAbs 971 1 - 1) * 2 := by
          have := pow_succ 2 (shiftFor n.natAbs 971 1 - 1)
          rw [Nat.sub_add_cancel p1] at this
          exact this
        rw [hsplit, ← Nat.div_div_eq_div_mul]
        omega
      unfold float64OfInt at h
      simp only [h1, h2, if_false] at h
      split_ifs at h with h3 h4 h5 h6 h7
      · simp only [Option.some.injEq] at h
        exact float64OfInt_rounded v _ _ (by omega) (by omega) p1 (Nat.not_le.1 h4)
          (by rw [← h, Int.natAbs_neg, Int.natAbs_ofNat])
      · simp only [Option.some.injEq] at h
        exact float64OfInt_rounded v _ _ (by omega) (by omega) p1 (Nat.not_le.1 h4)
          (by rw [← h, Int.natAbs_ofNat])
      · simp only [Option.some.injEq] at h
        exact float64OfInt_rounded v _ _ hge (by omega) p1 (Nat.not_le.1 h6)
          (by rw [← h, Int.natAbs_neg, Int.natAbs_ofNat])
      · simp only [Option.some.injEq] at h
        exact float64OfInt_rounded v _ _ hge (by omega) p1 (Nat.not_le.1 h6)
          (by rw [← h, Int.natAbs_ofNat])

mutual
/-- What the decoder stores in an `interface{}` is a Go value. -/
theorem decodeAny_isGoValue : ∀ v v' : JSON, decodeAny v = some v' → isGoValue v' = true
  | .null, v', h => by
    simp only [decodeAny, Option.some.injEq] at h
    subst h; rfl
  | .bool _, v', h => by
    simp only [decodeAny, Option.some.injEq] at h
    subst h; rfl
  | .num n, v', h => by
    simp only [decodeAny] at h
    cases hf : float64OfInt n with
    | none => simp [hf] at h
    | some x =>
      simp only [hf, Option.some.injEq] at h
      subst h
      simp only [isGoValue, float64OfInt_fixed n x hf, beq_self_eq_true]
  | .str _, v', h => by
    simp only [decodeAny, Option.some.injEq] at h
    subst h; rfl
  | .arr xs, v', h => by
    simp only [decodeAny] at h
    cases hd : decodeItems xs with
    | none => simp [hd] at h
    | some vs =>
      simp only [hd, Option.some.injEq] at h
      subst h
      simp only [isGoValue, decodeItems_isGoValues xs vs hd]
  | .obj ms, v', h => by
    simp only [decodeAny] at h
    cases hd : decodeMembers ms [] with
    | none => simp [hd] at h
    | some m =>
      simp only [hd, Option.some.injEq] at h
      subst h
      have := decodeMembers_isGoEntries ms [] m rfl rfl hd
      simp only [isGoValue, this.1, this.2, Bool.and_self]
theorem decodeItems_isGoValues : ∀ xs vs : List JSON, decodeItems xs = some vs →
    isGoValues vs = true
  | [], vs, h => by
    simp only [decodeItems, Option.some.injEq] at h
    subst h; rfl
  | x :: xs, vs, h => by
    simp only [decodeItems] at h
    cases hx : decodeAny x with
    | none => simp [hx] at h
    | some v =>
      cases hd : decodeItems xs with
      | none => simp [hx, hd] at h
      | some ws =>
        simp only [hx, hd, Option.some.injEq] at h
        subst h
        simp only [isGoValues, decodeAny_isGoValue x v hx, decodeItems_isGoValues xs ws hd,
          Bool.and_self]
theorem decodeMembers_isGoEntries : ∀ ms acc m : List (String × JSON), ascending acc = true →
    isGoEntries acc = true → decodeMembers ms acc = some m →
    ascending m = true ∧ isGoEntries m = true
  | [], acc, m, ha, hg, h => by
    simp only [decodeMembers, Option.some.injEq] at h
    subst h; exact ⟨ha, hg⟩
  | (k, x) :: ms, acc, m, ha, hg, h => by
    simp only [decodeMembers] at h
    cases hx : decodeAny x with
    | none => simp [hx] at h
    | some v =>
      simp only [hx] at h
      exact decodeMembers_isGoEntries ms (mapSet acc k v) m (ascending_mapSet acc k v ha)
        (isGoEntries_mapSet acc k v hg (decodeAny_isGoValue x v hx)) h
end

/-- The store of a member keeps the params of an envelope a Go value. -/
theorem setField_params_goValue (a a' : Message) (k : String) (v : JSON)
    (h : a.setField k v = some a') (ha : isGoValue a.Params = true) :
    isGoValue a'.Params = true := by
  simp only [Message.setField] at h
  split_ifs at h
  · cases hs : storeString a.JSONRPC v with
    | none => simp [hs] at h
    | some s => simp only [hs, Option.some.injEq] at h; subst h; exact ha
  · cases hs : decodeAny v with
    | none => simp [hs] at h
    | some s => simp only [hs, Option.some.injEq] at h; subst h; exact ha
  · cases hs : storeString a.Method v with
    | none => simp [hs] at h
    | some s => simp only [hs, Option.some.injEq] at h; subst h; exact ha
  · cases hs : decodeAny v with
    | none => simp [hs] at h
    | some s =>
      simp only [hs, Option.some.injEq] at h; subst h
      exact decodeAny_isGoValue v s hs
  · cases hs : decodeAny v with
    | none => simp [hs] at h
    | some s => simp only [hs, Option.some.injEq] at h; subst h; exact ha
  · cases v with
    | null => simp only [Option.some.injEq] at h; subst h; exact ha
    | obj ms =>
      simp only at h
      cases hs : decodeFields Error.setField ms (a.Error.getD Error.zero) with
      | none => simp [hs] at h
      | some s => simp only [hs, Option.some.injEq] at h; subst h; exact ha
    | _ => simp at h
  · simp only [Option.some.injEq] at h; subst h; exact ha

theorem decodeFields_params_goValue (ms : List (String × JSON)) :
    ∀ a r : Message, decodeFields Message.setField ms a = some r →
      isGoValue a.Params = true → isGoValue r.Params = true := by
  induction ms with
  | nil =>
    intro a r h ha
    simp only [decodeFields, Option.some.injEq] at h
    subst h; exact ha
  | cons kv ms ih =>
    intro a r h ha
    obtain ⟨k, v⟩ := kv
    simp only [decodeFields] at h
    cases hs : a.setField k v with
    | none => simp [hs] at h
    | some a' =>
      simp only [hs] at h
      exact ih a' r h (setField_params_goValue a a' k v hs ha)

/-- The params of a decoded envelope are a Go value. -/
theorem unmarshalMessage_params_goValue (data : Wire) (r : Message)
    (h : unmarshalMessage data = some r) : isGoValue r.Params = true := by
  cases data with
  | notJSON => simp [unmarshalMessage] at h
  | json doc =>
    cases doc with
    | null =>
      simp only [unmarshalMessage, unmarshalStruct, Option.some.injEq] at h
      subst h; rfl
    | obj ms => exact decodeFields_params_goValue ms _ r h rfl
    | _ => simp [unmarshalMessage, unmarshalStruct] at h

theorem decodeMembers_goEntries_some : ∀ (o acc : List (String × JSON)),
    isGoEntries o = true → ∃ m, decodeMembers o acc = some m
  | [], acc, _ => ⟨acc, rfl⟩
  | (k, x) :: o, acc, h => by
    simp only [isGoEntries, Bool.and_eq_true] at h
    simp only [decodeMembers, decodeAny_goValue x h.1]
    exact decodeMembers_goEntries_some o _ h.2

/-- Members without a name leave the name of the request empty, and are
decoded when they are Go values. -/
theorem decodeFields_unnamed (ms : List (String × JSON)) :
    ∀ req : ToolsCallRequest, ms.all unnamedMember = true → isGoEntries ms = true →
      req.Name = "" →
      ∃ req', decodeFields ToolsCallRequest.setField ms req = some req' ∧ req'.Name = "" := by
  induction ms with
  | nil => intro req _ _ hn; exact ⟨req, rfl, hn⟩
  | cons kv ms ih =>
    intro req hall hgo hn
    obtain ⟨k, v⟩ := kv
    simp only [List.all_cons, Bool.and_eq_true] at hall
    simp only [isGoEntries, Bool.and_eq_true] at hgo
    obtain ⟨hkv, hrest⟩ := hall
    simp only [unnamedMember, Bool.and_eq_true, Bool.or_eq_true, Bool.not_eq_true',
      Bool.not_eq_eq_eq_not, Bool.not_true] at hkv
    obtain ⟨hname, hargs⟩ := hkv
    simp only [decodeFields, ToolsCallRequest.setField, hname, Bool.false_eq_true, if_false]
    rcases hargs with hargs | hargs
    · simp only [hargs, Bool.false_eq_true, if_false]
      exact ih req hrest hgo.2 hn
    · by_cases hk : fieldMatch "arguments" k = true
      · simp only [hk, if_true]
        cases v with
        | null => exact ih _ hrest hgo.2 hn
        | obj o =>
          have hgo' : isGoEntries o = true := by
            have := hgo.1
            simp only [isGoValue, Bool.and_eq_true] at this
            exact this.2
          obtain ⟨m, hm⟩ := decodeMembers_goEntries_some o (req.Arguments.getD []) hgo'
          simp only [hm]
          exact ih _ hrest hgo.2 hn
        | _ => simp [objectOrNull] at hargs
      · simp only [hk, if_false]
        exact ih req hrest hgo.2 hn

/-- Params without a name decode to a request with the empty name. -/
theorem unmarshal_paramsWithoutName (p : JSON) (hp : paramsWithoutName p = true)
    (hgo : isGoValue p = true) :
    ∃ req, unmarshalToolsCallRequest p = some req ∧ req.Name = "" := by
  cases p with
  | null => exact ⟨_, rfl, rfl⟩
  | obj ms =>
    simp only [paramsWithoutName] at hp
    simp only [isGoValue, Bool.and_eq_true] at hgo
    exact decodeFields_unnamed ms _ hp hgo.2 rfl
  | _ => simp [paramsWithoutName] at hp

/-! ### Numbers as they are written -/

theorem encodeNum_small (n : Int) (h : n.natAbs < 2 ^ 53) : encodeNum n = n := by
  simp only [encodeNum, h, if_true]

/-- Every step of the search returns a decimal that is read back as `n`. -/
theorem shortestAt_reads (n : Int) (h : float64OfInt n = some n) :
    ∀ k : Nat, float64OfInt (shortestAt n k) = some n := by
  intro k
  induction k with
  | zero => exact h
  | succ k ih =>
    simp only [shortestAt]
    split_ifs with h1 h2 h3 h4 h5 h6
    all_goals first
      | exact ih
      | (simp only [Bool.and_eq_true, beq_iff_eq] at h1; first | exact h1.1 | exact h1.2)
      | (simp only [beq_iff_eq] at h5; exact h5)
      | (simp only [beq_iff_eq] at h6; exact h6)

/-- The number written for a float64 is read back as that float64. -/
theorem float64OfInt_encodeNum (n : Int) (h : float64OfInt n = some n) :
    float64OfInt (encodeNum n) = some n := by
  simp only [encodeNum]
  split_ifs with h1 h2
  · exact h
  · exact shortestAt_reads n h _
  · exact h

mutual
/-- The encoding of a Go value is decoded to that value. -/
theorem decodeAny_encodeAny : ∀ v : JSON, isGoValue v = true →
    decodeAny (encodeAny v) = decodeAny v
  | .null, _ => rfl
  | .bool _, _ => rfl
  | .num n, h => by
    simp only [isGoValue, beq_iff_eq] at h
    simp only [encodeAny, decodeAny, float64OfInt_encodeNum n h, h]
  | .str _, _ => rfl
  | .arr xs, h => by
    simp only [isGoValue] at h
    simp only [encodeAny, decodeAny, decodeItems_encodeItems xs h]
  | .obj ms, h => by
    simp only [isGoValue, Bool.and_eq_true] at h
    simp only [encodeAny, decodeAny, decodeMembers_encodeMembers ms h.2 []]
theorem decodeItems_encodeItems : ∀ xs : List JSON, isGoValues xs = true →
    decodeItems (encodeItems xs) = decodeItems xs
  | [], _ => rfl
  | x :: xs, h => by
    simp only [isGoValues, Bool.and_eq_true] at h
    simp only [encodeItems, decodeItems, decodeAny_encodeAny x h.1,
      decodeItems_encodeItems xs h.2]
theorem decodeMembers_encodeMembers : ∀ ms : List (String × JSON), isGoEntries ms = true →
    ∀ acc : List (String × JSON), decodeMembers (encodeMembers ms) acc = decodeMembers ms acc
  | [], _, _ => rfl
  | (k, x) :: ms, h, acc => by
    simp only [isGoEntries, Bool.and_eq_true] at h
    simp only [encodeMembers, decodeMembers, decodeAny_encodeAny x h.1]
    cases decodeAny x with
    | none => rfl
    | some v => exact decodeMembers_encodeMembers ms h.2 _
end

/-- The parameters of `tools/call` are read from the encoding of a Go value as
from the value. -/
theorem toolsCall_setField_encoded (r : ToolsCallRequest) (k : String) (v : JSON)
    (h : isGoValue v = true) :
    ToolsCallRequest.setField r k (encodeAny v) = ToolsCallRequest.setField r k v := by
  cases v with
  | obj ms =>
    simp only [isGoValue, Bool.and_eq_true] at h
    simp only [ToolsCallRequest.setField, encodeAny, storeString,
      decodeMembers_encodeMembers ms h.2]
  | _ => rfl

theorem decodeFields_toolsCall_encoded : ∀ ms : List (String × JSON), isGoEntries ms = true →
    ∀ r : ToolsCallRequest,
      decodeFields ToolsCallRequest.setField (encodeMembers ms) r
        = decodeFields ToolsCallRequest.setField ms r
  | [], _, _ => rfl
  | (k, x) :: ms, h, r => by
    simp only [isGoEntries, Bool.and_eq_true] at h
    simp only [encodeMembers, decodeFields, toolsCall_setField_encoded r k x h.1]
    cases ToolsCallRequest.setField r k x with
    | none => rfl
    | some r' => exact decodeFields_toolsCall_encoded ms h.2 r'

theorem unmarshalToolsCallRequest_encoded (p : JSON) (h : isGoValue p = true) :
    unmarshalToolsCallRequest (encodeAny p) = unmarshalToolsCallRequest p := by
  cases p with
  | obj ms =>
    simp only [isGoValue, Bool.and_eq_true] at h
    simp only [unmarshalToolsCallRequest, unmarshalStruct, encodeAny,
      decodeFields_toolsCall_encoded ms h.2]
  | _ => rfl

theorem resourcesRead_setField_encoded (r : ResourcesReadRequest) (k : String) (v : JSON) :
    ResourcesReadRequest.setField r k (encodeAny v) = ResourcesReadRequest.setField r k v := by
  cases v <;> rfl

theorem decodeFields_resourcesRead_encoded : ∀ (ms : List (String × JSON))
    (r : ResourcesReadRequest),
      decodeFields ResourcesReadRequest.setField (encodeMembers ms) r
        = decodeFields ResourcesReadRequest.setField ms r
  | [], _ => rfl
  | (k, x) :: ms, r => by
    simp only [encodeMembers, decodeFields, resourcesRead_setField_encoded r k x]
    cases ResourcesReadRequest.setField r k x with
    | none => rfl
    | some r' => exact decodeFields_resourcesRead_encoded ms r'

theorem unmarshalResourcesReadRequest_encoded (p : JSON) :
    unmarshalResourcesReadRequest (encodeAny p) = unmarshalResourcesReadRequest p := by
  cases p with
  | obj ms =>
    simp only [unmarshalResourcesReadRequest, unmarshalStruct, encodeAny,
      decodeFields_resourcesRead_encoded ms]
  | _ => rfl

theorem mapGet_encodeMembers : ∀ (ms : List (String × JSON)) (k : String),
    mapGet (encodeMembers ms) k = (mapGet ms k).map encodeAny
  | [], _ => rfl
  | (k₁, x) :: ms, k => by
    simp only [encodeMembers, mapGet]
    split_ifs
    · rfl
    · exact mapGet_encodeMembers ms k

theorem distinctKeys_encodeMembers : ∀ ms : List (String × JSON),
    distinctKeys (encodeMembers ms) = distinctKeys ms
  | [] => rfl
  | (k, x) :: ms => by
    simp only [encodeMembers, distinctKeys, mapGet_encodeMembers, distinctKeys_encodeMembers ms]
    cases mapGet ms k <;> rfl

theorem mem_encodeMembers : ∀ (ms : List (String × JSON)) (p : String × JSON),
    p ∈ encodeMembers ms → ∃ v, (p.1, v) ∈ ms ∧ p.2 = encodeAny v
  | [], p, h => by simp [encodeMembers] at h
  | (k, x) :: ms, p, h => by
    simp only [encodeMembers, List.mem_cons] at h
    rcases h with h | h
    · subst h
      exact ⟨x, List.mem_cons_self _ _, rfl⟩
    · obtain ⟨v, hv, hp⟩ := mem_encodeMembers ms p h
      exact ⟨v, List.mem_cons_of_mem _ hv, hp⟩

mutual
/-- A document without repeated names whose numbers are as `json.Marshal`
writes them is decoded to a Go value that is written back as the same
document, up to member order. -/
theorem decodeAny_exact : ∀ v : JSON, exactDoc v = true →
    ∃ v', decodeAny v = some v' ∧ sameDoc (encodeAny v') v = true ∧ isGoValue v' = true ∧
      (v' = .null ↔ v = .null)
  | .null, _ => ⟨.null, rfl, rfl, rfl, Iff.rfl⟩
  | .bool b, _ => ⟨.bool b, rfl, by simp [sameDoc, encodeAny], rfl, Iff.rfl⟩
  | .num n, h => by
    simp only [exactDoc, beq_iff_eq] at h
    cases hf : float64OfInt n with
    | none => simp [hf] at h
    | some f =>
      simp only [hf, Option.map_some', Option.some.injEq] at h
      exact ⟨.num f, by simp only [decodeAny, hf], by simp [sameDoc, encodeAny, h],
        by simp [isGoValue, float64OfInt_fixed n f hf], by simp⟩
  | .str s, _ => ⟨.str s, rfl, by simp [sameDoc, encodeAny], rfl, Iff.rfl⟩
  | .arr xs, h => by
    simp only [exactDoc] at h
    obtain ⟨vs, h1, h2, h3⟩ := decodeItems_exact xs h
    exact ⟨.arr vs, by simp only [decodeAny, h1], by simp only [encodeAny, sameDoc, h2],
      by simp only [isGoValue, h3], by simp⟩
  | .obj ms, h => by
    simp only [exactDoc, Bool.and_eq_true] at h
    obtain ⟨m', h1, h2, h3, h4, h5⟩ := decodeMembers_exact ms h.2 h.1 [] rfl rfl
    have hd' := distinctKeys_of_ascending m' h2
    refine ⟨.obj m', by simp only [decodeAny, h1], ?_, by simp only [isGoValue, h2, h3,
      Bool.and_self], by simp⟩
    simp only [encodeAny, sameDoc, distinctKeys_encodeMembers, hd', h.1, Bool.true_and,
      Bool.and_eq_true]
    constructor
    · rw [hasKeysOf_iff]
      intro p hp
      obtain ⟨v', hv', _⟩ := h4 p.1 p.2 (mapGet_of_mem_distinct ms p.1 p.2 h.1 hp)
      exact ⟨encodeAny v', by rw [mapGet_encodeMembers, hv']; rfl⟩
    · rw [sameMembers_iff]
      intro p hp
      obtain ⟨x, hx, hpx⟩ := mem_encodeMembers m' p hp
      have hp' := mapGet_of_mem_distinct m' p.1 x hd' hx
      cases hg : mapGet ms p.1 with
      | none =>
        have := h5 p.1 hg
        rw [hp'] at this
        simp [mapGet] at this
      | some v =>
        obtain ⟨v'', hv'', hs⟩ := h4 p.1 v hg
        rw [hp'] at hv''
        simp only [Option.some.injEq] at hv''
        subst hv''
        exact ⟨v, rfl, by rw [hpx]; exact hs⟩
theorem decodeItems_exact : ∀ xs : List JSON, exactItems xs = true →
    ∃ vs, decodeItems xs = some vs ∧ sameItems (encodeItems vs) xs = true ∧
      isGoValues vs = true
  | [], _ => ⟨[], rfl, rfl, rfl⟩
  | x :: xs, h => by
    simp only [exactItems, Bool.and_eq_true] at h
    obtain ⟨v, h1, h2, h3, _⟩ := decodeAny_exact x h.1
    obtain ⟨vs, g1, g2, g3⟩ := decodeItems_exact xs h.2
    exact ⟨v :: vs, by simp only [decodeItems, h1, g1], by simp only [encodeItems, sameItems,
      h2, g2, Bool.and_self], by simp only [isGoValues, h3, g3, Bool.and_self]⟩
theorem decodeMembers_exact : ∀ ms : List (String × JSON), exactMembers ms = true →
    distinctKeys ms = true → ∀ acc : List (String × JSON), ascending acc = true →
    isGoEntries acc = true →
    ∃ m', decodeMembers ms acc = some m' ∧ ascending m' = true ∧ isGoEntries m' = true ∧
      (∀ k v, mapGet ms k = some v →
        ∃ v', mapGet m' k = some v' ∧ sameDoc (encodeAny v') v = true) ∧
      (∀ k, mapGet ms k = none → mapGet m' k = mapGet acc k)
  | [], _, _, acc, ha, hg =>
    ⟨acc, rfl, ha, hg, fun k v h => by simp [mapGet] at h, fun _ _ => rfl⟩
  | (k₀, x) :: ms, he, hd, acc, ha, hg => by
    simp only [exactMembers, Bool.and_eq_true] at he
    simp only [distinctKeys, Bool.and_eq_true, Option.isNone_iff_eq_none] at hd
    obtain ⟨v₀, h1, h2, h3, _⟩ := decodeAny_exact x he.1
    obtain ⟨m', g1, g2, g3, g4, g5⟩ := decodeMembers_exact ms he.2 hd.2 (mapSet acc k₀ v₀)
      (ascending_mapSet acc k₀ v₀ ha) (isGoEntries_mapSet acc k₀ v₀ hg h3)
    refine ⟨m', by simp only [decodeMembers, h1, g1], g2, g3, ?_, ?_⟩
    · intro k v hk
      simp only [mapGet] at hk
      by_cases hkk : k = k₀
      · subst hkk
        simp only [if_true, Option.some.injEq] at hk
        subst hk
        refine ⟨v₀, ?_, h2⟩
        rw [g5 k hd.1, mapGet_mapSet]
        simp
      · simp only [hkk, if_false] at hk
        exact g4 k v hk
    · intro k hk
      simp only [mapGet] at hk
      by_cases hkk : k = k₀
      · subst hkk
        simp at hk
      · simp only [hkk, if_false] at hk
        rw [g5 k hk, mapGet_mapSet]
        simp [hkk]
end

mutual
/-- What `json.Marshal` writes for a Go value is a document that is written
back as it was read. -/
theorem exactDoc_encodeAny : ∀ v : JSON, isGoValue v = true → exactDoc (encodeAny v) = true
  | .null, _ => rfl
  | .bool _, _ => rfl
  | .num n, h => by
    simp only [isGoValue, beq_iff_eq] at h
    simp only [encodeAny, exactDoc, float64OfInt_encodeNum n h, Option.map_some',
      beq_self_eq_true]
  | .str _, _ => rfl
  | .arr xs, h => by
    simp only [isGoValue] at h
    simp only [encodeAny, exactDoc, exactItems_encodeItems xs h]
  | .obj ms, h => by
    simp only [isGoValue, Bool.and_eq_true] at h
    simp only [encodeAny, exactDoc, distinctKeys_encodeMembers,
      distinctKeys_of_ascending ms h.1, exactMembers_encodeMembers ms h.2, Bool.and_self]
theorem exactItems_encodeItems : ∀ xs : List JSON, isGoValues xs = true →
    exactItems (encodeItems xs) = true
  | [], _ => rfl
  | x :: xs, h => by
    simp only [isGoValues, Bool.and_eq_true] at h
    simp only [encodeItems, exactItems, exactDoc_encodeAny x h.1, exactItems_encodeItems xs h.2,
      Bool.and_self]
theorem exactMembers_encodeMembers : ∀ ms : List (String × JSON), isGoEntries ms = true →
    exactMembers (encodeMembers ms) = true
  | [], _ => rfl
  | (_, x) :: ms, h => by
    simp only [isGoEntries, Bool.and_eq_true] at h
    simp only [encodeMembers, exactMembers, exactDoc_encodeAny x h.1,
      exactMembers_encodeMembers ms h.2, Bool.and_self]
end

theorem newServer_handlers (name version : String) :
    (NewServer name version).handlers = builtinHandlers := rfl

theorem reachable_handlers {s : Server} (h : Reachable s) : s.handlers = builtinHandlers := by
  induction h with
  | newServer name version => rfl
  | registerTool tool _ ih => exact ih
  | registerResource resource _ ih => exact ih

theorem mapGet_builtin_none (m : String) :
    mapGet builtinHandlers m = none ↔ m ∉ builtinMethods := by
  simp only [builtinHandlers, builtinMethods, mapGet]
  constructor
  · intro h
    simp only [List.mem_cons, List.mem_nil_iff, or_false, not_or]
    split_ifs at h
    simp_all
  · intro h
    simp only [List.mem_cons, List.mem_nil_iff, or_false, not_or] at h
    simp [h]

theorem mapGet_append {α : Type} (l₁ l₂ : List (String × α)) (k : String) :
    mapGet (l₁ ++ l₂) k = (mapGet l₁ k).orElse (fun _ => mapGet l₂ k) := by
  induction l₁ with
  | nil => simp [mapGet]
  | cons p rest ih =>
    obtain ⟨k', v'⟩ := p
    simp only [List.cons_append, mapGet]
    split_ifs <;> simp [ih]

theorem mapGet_omitNull (key k : String) (v : JSON) (h : k ≠ key) :
    mapGet (omitNull key v) k = none := by
  cases v <;> simp [omitNull, mapGet, h]

theorem mapGet_omitEmpty (key k : String) (s : String) (h : k ≠ key) :
    mapGet (omitEmpty key s) k = none := by
  unfold omitEmpty; split_ifs <;> simp [mapGet, h]

theorem mapGet_omitNil {α : Type} (key k : String) (enc : α → JSON) (o : Option α) (h : k ≠ key) :
    mapGet (omitNil key enc o) k = none := by
  cases o <;> simp [omitNil, mapGet, h]

theorem marshalMessage_get_id (m : Message) :
    (marshalMessage m).get "id"
      = (match m.ID with
          | .null => none
          | v => some (encodeAny v)) := by
  simp only [marshalMessage, JSON.get, List.cons_append, List.nil_append, mapGet, mapGet_append]
  rw [mapGet_omitEmpty _ _ _ (by decide), mapGet_omitNull "params" _ _ (by decide),
    mapGet_omitNull "result" _ _ (by decide), mapGet_omitNil _ _ _ _ (by decide)]
  cases m.ID <;> simp [omitNull, mapGet, encodeAny]

theorem marshalMessage_get_error (m : Message) :
    (marshalMessage m).get "error" = m.Error.map Error.toJSON := by
  simp only [marshalMessage, JSON.get, List.cons_append, List.nil_append, mapGet, mapGet_append]
  rw [mapGet_omitEmpty _ _ _ (by decide), mapGet_omitNull "params" _ _ (by decide),
    mapGet_omitNull "result" _ _ (by decide), mapGet_omitNull "id" _ _ (by decide)]
  cases m.Error <;> simp [omitNil, mapGet]

/-- The answer of a built-in handler has an encoding, unless it is the tool
list of a catalog with a schema that has none. -/
theorem builtin_call_encodes (k : String) (h : Handler)
    (hk : mapGet builtinHandlers k = some h) (s : Server) (w : World) (msg : Message)
    (he : s.encodable = true ∨ k ≠ "tools/list") :
    ∃ resp, h.call s w msg = .ok resp ∧ resp.Result.marshalError = none := by
  simp only [builtinHandlers, mapGet] at hk
  split_ifs at hk with h1 h2 h3 h4 h5 <;> simp only [Option.some.injEq] at hk <;> subst hk
  · exact ⟨_, rfl, rfl⟩
  · exact ⟨_, rfl, rfl⟩
  · simp only [Handler.call, handleResourcesRead, marshalAny]
    split
    · exact ⟨_, rfl, rfl⟩
    · split <;> exact ⟨_, rfl, rfl⟩
  · simp only [Handler.call, handleToolsCall, marshalAny]
    split
    · exact ⟨_, rfl, rfl⟩
    · split <;> exact ⟨_, rfl, rfl⟩
  · refine ⟨_, rfl, ?_⟩
    rcases he with he | he
    · simp only [NewResponse, Payload.marshalError]
      rw [findSome_schemaError]
      intro t ht
      obtain ⟨kv, hkv, rfl⟩ := List.mem_map.1 ht
      simp only [Server.encodable, List.all_eq_true] at he
      have := he kv hkv
      cases hse : kv.2.SchemaError with
      | none => rfl
      | some e => rw [hse] at this; cases this
    · exact absurd h5 he

/-! ### Dispatch -/

/-- C2: bytes that `json.Unmarshal` rejects are answered, without Go error, by
the encoding of the error envelope with code `ParseError` (-32700), message
"Parse error" and no id: the bytes have no `id` member. The answer is the same
for every server state and every state of the outside world, whatever the
handler table holds: no handler takes part in it. -/
theorem handleMessage_parse_error (s : Server) (w : World) (data : Wire)
    (h : unmarshalMessage data = none) :
    HandleMessage s w data = .ok (marshalMessage (NewError .null ParseError "Parse error" .null)) ∧
    marshalMessage (NewError .null ParseError "Parse error" .null)
      = .obj [("jsonrpc", .str "2.0"),
              ("error", .obj [("code", .num (-32700)), ("message", .str "Parse error")])] ∧
    (marshalMessage (NewError .null ParseError "Parse error" .null)).get "id" = none ∧
    ∀ (s' : Server) (w' : World), HandleMessage s' w' data = HandleMessage s w data := by
  refine ⟨?_, rfl, rfl, fun s' w' => ?_⟩
  · simp only [HandleMessage, jsonMarshal_newError, h]
  · simp only [HandleMessage, h]

/-- C2 at bytes that are not JSON. -/
theorem handleMessage_parse_error_witness :
    unmarshalMessage Wire.notJSON = none ∧
    (HandleMessage (NewServer "test-server" "1.0.0") sampleWorld Wire.notJSON
        = .ok (marshalMessage (NewError .null ParseError "Parse error" .null)) ∧
      marshalMessage (NewError .null ParseError "Parse error" .null)
        = .obj [("jsonrpc", .str "2.0"),
                ("error", .obj [("code", .num (-32700)), ("message", .str "Parse error")])] ∧
      (marshalMessage (NewError .null ParseError "Parse error" .null)).get "id" = none ∧
      ∀ (s' : Server) (w' : World), HandleMessage s' w' Wire.notJSON
        = HandleMessage (NewServer "test-server" "1.0.0") sampleWorld Wire.notJSON) :=
  ⟨rfl, handleMessage_parse_error (NewServer "test-server" "1.0.0") sampleWorld Wire.notJSON rfl⟩

theorem error_toJSON_inj {e₁ e₂ : Error} (h : e₁.toJSON = e₂.toJSON) :
    e₁.Code = e₂.Code ∧ e₁.Message = e₂.Message := by
  simp only [Error.toJSON, List.cons_append, List.nil_append, JSON.obj.injEq, List.cons.injEq,
    Prod.mk.injEq, JSON.num.injEq, JSON.str.injEq, true_and] at h
  exact ⟨h.1, h.2.1⟩

theorem append_ne_of_head {a b : String} (x y : String) (h : a.data.head? ≠ b.data.head?)
    (ha : a.data ≠ []) (hb : b.data ≠ []) : a ++ x ≠ b ++ y := by
  intro heq
  have hd : (a ++ x).data = (b ++ y).data := by rw [heq]
  simp only [String.data_append] at hd
  cases hA : a.data with
  | nil => exact ha hA
  | cons c cs =>
    cases hB : b.data with
    | nil => exact hb hB
    | cons d ds =>
      rw [hA, hB] at hd h
      simp only [List.cons_append, List.cons.injEq] at hd
      simp only [List.head?_cons, ne_eq, Option.some.injEq] at h
      exact h hd.1

/-- What a built-in handler answers: a success envelope, or an error envelope
that is not the one of an unknown method. -/
theorem builtin_call_error (h : Handler) (hmem : ∃ k, mapGet builtinHandlers k = some h)
    (s : Server) (w : World) (msg : Message) :
    ∃ resp, h.call s w msg = .ok resp ∧
      ∀ e, resp.Error = some e →
        e.Code ≠ MethodNotFound ∨ ∀ m, e.Message ≠ "Method not found: " ++ m := by
  obtain ⟨k, hk⟩ := hmem
  simp only [builtinHandlers, mapGet] at hk
  split_ifs at hk <;> simp only [Option.some.injEq] at hk <;> subst hk
  · exact ⟨_, rfl, fun e he => by simp [NewResponse] at he⟩
  · exact ⟨_, rfl, fun e he => by simp [NewResponse] at he⟩
  · simp only [Handler.call, handleResourcesRead, marshalAny]
    split
    · refine ⟨_, rfl, fun e he => ?_⟩
      simp only [NewError, Option.some.injEq] at he
      subst he
      exact Or.inl (by decide)
    · split
      · refine ⟨_, rfl, fun e he => ?_⟩
        simp only [NewError, Option.some.injEq] at he
        subst he
        exact Or.inr (fun m => append_ne_of_head _ _ (by decide) (by decide) (by decide))
      · exact ⟨_, rfl, fun e he => by simp [NewResponse] at he⟩
  · simp only [Handler.call, handleToolsCall, marshalAny]
    split
    · refine ⟨_, rfl, fun e he => ?_⟩
      simp only [NewError, Option.some.injEq] at he
      subst he
      exact Or.inl (by decide)
    · split
      · refine ⟨_, rfl, fun e he => ?_⟩
        simp only [NewError, Option.some.injEq] at he
        subst he
        exact Or.inr (fun m => append_ne_of_head _ _ (by decide) (by decide) (by decide))
      · exact ⟨_, rfl, fun e he => by simp [NewResponse] at he⟩
  · exact ⟨_, rfl, fun e he => by simp [NewResponse] at he⟩

/-- C3: on a reachable server (one built by `NewServer`, with or without later
registrations) a decodable envelope `e` is answered by the encoding of the
error envelope with `e`'s id, code `MethodNotFound` and message
"Method not found: " followed by `e.Method` exactly when `e.Method` is not one
of the five built-in method names; nothing else about the method name matters. -/
theorem handleMessage_method_not_found (s : Server) (w : World) (data : Wire) (e : Message)
    (hs : Reachable s) (he : unmarshalMessage data = some e) :
    HandleMessage s w data
        = .ok (marshalMessage
            (NewError e.ID MethodNotFound ("Method not found: " ++ e.Method) .null)) ↔
      e.Method ∉ builtinMethods := by
  constructor
  · intro hout hm
    have hh : ∃ h, mapGet builtinHandlers e.Method = some h := by
      cases hg : mapGet builtinHandlers e.Method with
      | none => exact absurd hm ((mapGet_builtin_none _).1 hg)
      | some h => exact ⟨h, rfl⟩
    obtain ⟨h, hh⟩ := hh
    obtain ⟨resp, hresp, herr⟩ := builtin_call_error h ⟨_, hh⟩ s w e
    simp only [HandleMessage, he, processMessage, reachable_handlers hs, hh, hresp,
      Except.ok.injEq] at hout
    have hget := congrArg (fun d => JSON.get d "error") (jsonMarshal_ok hout).1.symm
    simp only [marshalMessage_get_error] at hget
    cases hE : resp.Error with
    | none => simp [hE, NewError] at hget
    | some err =>
      rw [hE] at hget
      simp only [NewError, Option.map_some', Option.some.injEq] at hget
      obtain ⟨hc, hmsg⟩ := error_toJSON_inj hget
      rcases herr err hE with h1 | h2
      · exact h1 hc
      · exact h2 _ hmsg
  · intro hm
    have hg := (mapGet_builtin_none e.Method).2 hm
    simp only [HandleMessage, jsonMarshal_newError, he, processMessage, reachable_handlers hs, hg]

/-- C3 at the request of `TestHandleMessageUnknownMethod`. -/
theorem handleMessage_method_not_found_witness :
    (Reachable (NewServer "test-server" "1.0.0") ∧
      unmarshalMessage (.json (.obj [("jsonrpc", .str "2.0"), ("id", .num 1),
        ("method", .str "unknown/method")]))
        = some { JSONRPC := "2.0", ID := .num 1, Method := "unknown/method", Params := .null,
                 Result := .value .null, Error := none }) ∧
    (HandleMessage (NewServer "test-server" "1.0.0") sampleWorld
        (.json (.obj [("jsonrpc", .str "2.0"), ("id", .num 1),
          ("method", .str "unknown/method")]))
        = .ok (marshalMessage
            (NewError (.num 1) MethodNotFound ("Method not found: " ++ "unknown/method") .null)) ↔
      "unknown/method" ∉ builtinMethods) :=
  ⟨⟨Reachable.newServer _ _, rfl⟩,
   handleMessage_method_not_found (NewServer "test-server" "1.0.0") sampleWorld
    (.json (.obj [("jsonrpc", .str "2.0"), ("id", .num 1), ("method", .str "unknown/method")]))
    { JSONRPC := "2.0", ID := .num 1, Method := "unknown/method", Params := .null,
      Result := .value .null, Error := none }
    (Reachable.newServer _ _) rfl⟩

/-! ### `tools/call` -/

theorem processMessage_toolsCall (s : Server) (w : World) (r : Message) (hs : Reachable s)
    (hm : r.Method = "tools/call") : processMessage s w r = handleToolsCall s w r := by
  simp only [processMessage, reachable_handlers hs, hm]
  rfl

/-- C6: on a reachable server, a `tools/call` request whose params decode to a
request naming a tool that is not a key of the catalog is answered by the
encoding of the error envelope with the request's id, code `MethodNotFound`
(-32601) and message "Tool not found: " followed by the name. The answer is
the same in every state of the outside world: no tool is executed. -/
theorem toolsCall_unknown_tool (s : Server) (w : World) (data : Wire) (r : Message)
    (req : ToolsCallRequest) (hs : Reachable s) (hr : unmarshalMessage data = some r)
    (hm : r.Method = "tools/call") (hp : unmarshalToolsCallRequest r.Params = some req)
    (hn : mapGet s.tools req.Name = none) :
    (∀ w' : World, HandleMessage s w' data
      = .ok (marshalMessage (NewError r.ID MethodNotFound ("Tool not found: " ++ req.Name) .null)))
    ∧ HandleMessage s w data
      = .ok (marshalMessage (NewError r.ID (-32601) ("Tool not found: " ++ req.Name) .null)) := by
  have key : ∀ w' : World, HandleMessage s w' data
      = .ok (marshalMessage
          (NewError r.ID MethodNotFound ("Tool not found: " ++ req.Name) .null)) := by
    intro w'
    simp only [HandleMessage, jsonMarshal_newError, hr, processMessage_toolsCall s w' r hs hm,
      handleToolsCall,
      marshalAny,
      unmarshalToolsCallRequest_encoded r.Params (unmarshalMessage_params_goValue data r hr), hp, hn]
  exact ⟨key, key w⟩

/-- C6 at the request of `TestHandleToolsCallUnknownTool`. -/
theorem toolsCall_unknown_tool_witness :
    (Reachable (NewServer "test-server" "1.0.0") ∧
      unmarshalMessage (.json (.obj [("jsonrpc", .str "2.0"), ("id", .num 1),
        ("method", .str "tools/call"),
        ("params", .obj [("name", .str "unknown-tool"), ("arguments", .obj [])])]))
        = some { JSONRPC := "2.0", ID := .num 1, Method := "tools/call",
                 Params := .obj [("arguments", .obj []), ("name", .str "unknown-tool")],
                 Result := .value .null, Error := none } ∧
      "tools/call" = "tools/call" ∧
      unmarshalToolsCallRequest (.obj [("arguments", .obj []), ("name", .str "unknown-tool")])
        = some { Name := "unknown-tool", Arguments := some [] } ∧
      mapGet (NewServer "test-server" "1.0.0").tools "unknown-tool" = none) ∧
    ((∀ w' : World, HandleMessage (NewServer "test-server" "1.0.0") w'
        (.json (.obj [("jsonrpc", .str "2.0"), ("id", .num 1), ("method", .str "tools/call"),
          ("params", .obj [("name", .str "unknown-tool"), ("arguments", .obj [])])]))
        = .ok (marshalMessage
            (NewError (.num 1) MethodNotFound ("Tool not found: " ++ "unknown-tool") .null))) ∧
      HandleMessage (NewServer "test-server" "1.0.0") sampleWorld
        (.json (.obj [("jsonrpc", .str "2.0"), ("id", .num 1), ("method", .str "tools/call"),
          ("params", .obj [("name", .str "unknown-tool"), ("arguments", .obj [])])]))
        = .ok (marshalMessage
            (NewError (.num 1) (-32601) ("Tool not found: " ++ "unknown-tool") .null))) :=
  ⟨⟨Reachable.newServer _ _, rfl, rfl, rfl, rfl⟩,
   toolsCall_unknown_tool (NewServer "test-server" "1.0.0") sampleWorld
    (.json (.obj [("jsonrpc", .str "2.0"), ("id", .num 1), ("method", .str "tools/call"),
      ("params", .obj [("name", .str "unknown-tool"), ("arguments", .obj [])])]))
    { JSONRPC := "2.0", ID := .num 1, Method := "tools/call",
      Params := .obj [("arguments", .obj []), ("name", .str "unknown-tool")],
      Result := .value .null, Error := none }
    { Name := "unknown-tool", Arguments := some [] }
    (Reachable.newServer _ _) rfl rfl rfl rfl⟩

/-- C7: on a reachable server, a `tools/call` request whose params
`json.Unmarshal` rejects for `ToolsCallRequest` is answered by the encoding of
the error envelope with the request's id and code `InvalidParams` (-32602),
whatever the catalog holds. Rejected are, among others, a params object whose
name is a number or whose arguments are a string or an array, and params that
are an array or a string. -/
theorem toolsCall_invalid_params (s : Server) (w : World) (data : Wire) (r : Message)
    (hs : Reachable s) (hr : unmarshalMessage data = some r)
    (hm : r.Method = "tools/call") (hp : unmarshalToolsCallRequest r.Params = none) :
    HandleMessage s w data
      = .ok (marshalMessage (NewError r.ID InvalidParams "Invalid parameters" .null))
    ∧ InvalidParams = -32602
    ∧ (∀ n : Int, unmarshalToolsCallRequest (.obj [("name", .num n)]) = none)
    ∧ (∀ a n : String,
        unmarshalToolsCallRequest (.obj [("arguments", .str a), ("name", .str n)]) = none)
    ∧ (∀ (xs : List JSON) (n : String),
        unmarshalToolsCallRequest (.obj [("arguments", .arr xs), ("name", .str n)]) = none)
    ∧ (∀ xs : List JSON, unmarshalToolsCallRequest (.arr xs) = none)
    ∧ (∀ a : String, unmarshalToolsCallRequest (.str a) = none) := by
  refine ⟨?_, rfl, fun _ => rfl, fun _ _ => rfl, fun _ _ => rfl, fun _ => rfl, fun _ => rfl⟩
  simp only [HandleMessage, jsonMarshal_newError, hr, processMessage_toolsCall s w r hs hm,
    handleToolsCall,
    marshalAny,
      unmarshalToolsCallRequest_encoded r.Params (unmarshalMessage_params_goValue data r hr), hp]

/-- C7 at a request whose tool name is the number 5, on a server that has a
tool registered. -/
theorem toolsCall_invalid_params_witness :
    (Reachable ((NewServer "test-server" "1.0.0").RegisterTool
        { Name := "echo", Description := "Echoes back the provided message",
          InputSchema := .obj [("type", .str "object")] }) ∧
      unmarshalMessage (.json (.obj [("jsonrpc", .str "2.0"), ("id", .str "a"),
        ("method", .str "tools/call"), ("params", .obj [("name", .num 5)])]))
        = some { JSONRPC := "2.0", ID := .str "a", Method := "tools/call",
                 Params := .obj [("name", .num 5)], Result := .value .null, Error := none } ∧
      "tools/call" = "tools/call" ∧
      unmarshalToolsCallRequest (.obj [("name", .num 5)]) = none) ∧
    (HandleMessage ((NewServer "test-server" "1.0.0").RegisterTool
        { Name := "echo", Description := "Echoes back the provided message",
          InputSchema := .obj [("type", .str "object")] }) sampleWorld
        (.json (.obj [("jsonrpc", .str "2.0"), ("id", .str "a"),
          ("method", .str "tools/call"), ("params", .obj [("name", .num 5)])]))
      = .ok (marshalMessage (NewError (.str "a") InvalidParams "Invalid parameters" .null))
    ∧ InvalidParams = -32602
    ∧ (∀ n : Int, unmarshalToolsCallRequest (.obj [("name", .num n)]) = none)
    ∧ (∀ a n : String,
        unmarshalToolsCallRequest (.obj [("arguments", .str a), ("name", .str n)]) = none)
    ∧ (∀ (xs : List JSON) (n : String),
        unmarshalToolsCallRequest (.obj [("arguments", .arr xs), ("name", .str n)]) = none)
    ∧ (∀ xs : List JSON, unmarshalToolsCallRequest (.arr xs) = none)
    ∧ (∀ a : String, unmarshalToolsCallRequest (.str a) = none)) :=
  ⟨⟨Reachable.registerTool _ (Reachable.newServer _ _), rfl, rfl, rfl⟩,
   toolsCall_invalid_params _ sampleWorld
    (.json (.obj [("jsonrpc", .str "2.0"), ("id", .str "a"),
      ("method", .str "tools/call"), ("params", .obj [("name", .num 5)])]))
    { JSONRPC := "2.0", ID := .str "a", Method := "tools/call",
      Params := .obj [("name", .num 5)], Result := .value .null, Error := none }
    (Reachable.registerTool _ (Reachable.newServer _ _)) rfl rfl rfl⟩

/-- The answer to a `tools/call` request that names a registered tool. -/
theorem registered_tool_answer (s : Server) (w : World) (data : Wire) (r : Message)
    (req : ToolsCallRequest) (tool : Tool) (hs : Reachable s)
    (hr : unmarshalMessage data = some r) (hm : r.Method = "tools/call")
    (hp : unmarshalToolsCallRequest r.Params = some req)
    (ht : mapGet s.tools req.Name = some tool) :
    ∃ out : JSON, HandleMessage s w data = .ok out ∧
      out = marshalMessage (NewResponse r.ID (.toolsCallResponse
        { Content := [{ Type_ := "text", Text := executeTool w req.Name req.Arguments }],
          IsError := false })) ∧
      out.get "result" = some (.obj [("content", .arr [.obj [("type", .str "text"),
        ("text", .str (executeTool w req.Name req.Arguments))]])]) ∧
      out.get "error" = none := by
  refine ⟨_, ?_, rfl, ?_, ?_⟩
  · simp only [HandleMessage, jsonMarshal_toolsCall, hr, processMessage_toolsCall s w r hs hm,
      handleToolsCall,
      marshalAny,
      unmarshalToolsCallRequest_encoded r.Params (unmarshalMessage_params_goValue data r hr), hp, ht]
  · simp only [marshalMessage, NewResponse, JSON.get, List.cons_append, List.nil_append, mapGet,
      mapGet_append]
    rw [mapGet_omitNull "id" _ _ (by decide)]
    simp [omitEmpty, omitNull, omitNil, omitFalse, mapGet, Payload.toJSON, Content.toJSON]
  · rw [marshalMessage_get_error]
    rfl

/-- C8: on a reachable server, a `tools/call` request whose params decode to a
request naming a registered tool is answered, whatever the arguments, by the
encoding of a success envelope with the request's id: the result is present
and holds a content list of exactly one item, of type "text", whose text is
what `executeTool` returns; there is no error member. -/
theorem toolsCall_success (s : Server) (w : World) (data : Wire) (r : Message)
    (req : ToolsCallRequest) (tool : Tool) (hs : Reachable s)
    (hr : unmarshalMessage data = some r) (hm : r.Method = "tools/call")
    (hp : unmarshalToolsCallRequest r.Params = some req)
    (ht : mapGet s.tools req.Name = some tool) :
    ∃ out : JSON, HandleMessage s w data = .ok out ∧
      out = marshalMessage (NewResponse r.ID (.toolsCallResponse
        { Content := [{ Type_ := "text", Text := executeTool w req.Name req.Arguments }],
          IsError := false })) ∧
      out.get "result" = some (.obj [("content", .arr [.obj [("type", .str "text"),
        ("text", .str (executeTool w req.Name req.Arguments))]])]) ∧
      out.get "error" = none :=
  registered_tool_answer s w data r req tool hs hr hm hp ht

/-- C8 at a `get_time` request with the format "Kitchen". -/
theorem toolsCall_success_witness :
    (Reachable ((NewServer "test-server" "1.0.0").RegisterTool
        { Name := "get_time", Description := "Returns the current date and time",
          InputSchema := .obj [("type", .str "object")] }) ∧
      unmarshalMessage (.json (.obj [("jsonrpc", .str "2.0"), ("id", .num 1),
        ("method", .str "tools/call"),
        ("params", .obj [("name", .str "get_time"),
          ("arguments", .obj [("format", .str "Kitchen")])])]))
        = some { JSONRPC := "2.0", ID := .num 1, Method := "tools/call",
                 Params := .obj [("arguments", .obj [("format", .str "Kitchen")]),
                   ("name", .str "get_time")],
                 Result := .value .null, Error := none } ∧
      "tools/call" = "tools/call" ∧
      unmarshalToolsCallRequest
          (.obj [("arguments", .obj [("format", .str "Kitchen")]), ("name", .str "get_time")])
        = some { Name := "get_time", Arguments := some [("format", .str "Kitchen")] } ∧
      mapGet ((NewServer "test-server" "1.0.0").RegisterTool
        { Name := "get_time", Description := "Returns the current date and time",
          InputSchema := .obj [("type", .str "object")] }).tools "get_time"
        = some { Name := "get_time", Description := "Returns the current date and time",
                 InputSchema := .obj [("type", .str "object")] }) ∧
    ∃ out : JSON,
      HandleMessage ((NewServer "test-server" "1.0.0").RegisterTool
        { Name := "get_time", Description := "Returns the current date and time",
          InputSchema := .obj [("type", .str "object")] }) sampleWorld
        (.json (.obj [("jsonrpc", .str "2.0"), ("id", .num 1), ("method", .str "tools/call"),
          ("params", .obj [("name", .str "get_time"),
            ("arguments", .obj [("format", .str "Kitchen")])])])) = .ok out ∧
      out = marshalMessage (NewResponse (.num 1) (.toolsCallResponse
        { Content := [{ Type_ := "text",
                        Text := executeTool sampleWorld "get_time"
                          (some [("format", .str "Kitchen")]) }],
          IsError := false })) ∧
      out.get "result" = some (.obj [("content", .arr [.obj [("type", .str "text"),
        ("text", .str (executeTool sampleWorld "get_time"
          (some [("format", .str "Kitchen")])))]])]) ∧
      out.get "error" = none :=
  ⟨⟨Reachable.registerTool _ (Reachable.newServer _ _), rfl, rfl, rfl, rfl⟩,
   toolsCall_success _ sampleWorld
    (.json (.obj [("jsonrpc", .str "2.0"), ("id", .num 1), ("method", .str "tools/call"),
      ("params", .obj [("name", .str "get_time"),
        ("arguments", .obj [("format", .str "Kitchen")])])]))
    { JSONRPC := "2.0", ID := .num 1, Method := "tools/call",
      Params := .obj [("arguments", .obj [("format", .str "Kitchen")]),
        ("name", .str "get_time")],
      Result := .value .null, Error := none }
    { Name := "get_time", Arguments := some [("format", .str "Kitchen")] }
    { Name := "get_time", Description := "Returns the current date and time",
      InputSchema := .obj [("type", .str "object")] }
    (Reachable.registerTool _ (Reachable.newServer _ _)) rfl rfl rfl rfl⟩

/-- C10: on a reachable server with a tool registered under the name "echo", a
`tools/call` request whose params decode to the name "echo" and to arguments
that are absent or have no `message` entry is answered by the encoding of a
success envelope, not an error envelope, whose single content item is the text
"Error: message parameter is required". -/
theorem toolsCall_echo_missing_message (s : Server) (w : World) (data : Wire) (r : Message)
    (tool : Tool) (args : Option (List (String × JSON))) (hs : Reachable s)
    (hr : unmarshalMessage data = some r) (hm : r.Method = "tools/call")
    (hp : unmarshalToolsCallRequest r.Params = some { Name := "echo", Arguments := args })
    (hargs : ∀ m, args = some m → mapGet m "message" = none)
    (ht : mapGet s.tools "echo" = some tool) :
    ∃ out : JSON, HandleMessage s w data = .ok out ∧
      out = marshalMessage (NewResponse r.ID (.toolsCallResponse
        { Content := [{ Type_ := "text", Text := "Error: message parameter is required" }],
          IsError := false })) ∧
      out.get "error" = none ∧
      out.get "result" = some (.obj [("content", .arr [.obj [("type", .str "text"),
        ("text", .str "Error: message parameter is required")]])]) := by
  have he : executeTool w "echo" args = "Error: message parameter is required" := by
    have h1 : argString args "message" = none := by
      cases args with
      | none => rfl
      | some m => simp [argString, hargs m rfl]
    simp [executeTool, ExecuteEcho, h1]
  obtain ⟨out, h1, h2, h3, h4⟩ := registered_tool_answer s w data r _ tool hs hr hm hp ht
  simp only [he] at h2 h3
  exact ⟨out, h1, h2, h4, h3⟩

/-- C10 at a request with an empty arguments object. -/
theorem toolsCall_echo_missing_message_witness :
    (Reachable ((NewServer "test-server" "1.0.0").RegisterTool
        { Name := "echo", Description := "Echoes back the provided message",
          InputSchema := .obj [("type", .str "object")] }) ∧
      unmarshalMessage (.json (.obj [("jsonrpc", .str "2.0"), ("id", .num 4),
        ("method", .str "tools/call"),
        ("params", .obj [("name", .str "echo"), ("arguments", .obj [])])]))
        = some { JSONRPC := "2.0", ID := .num 4, Method := "tools/call",
                 Params := .obj [("arguments", .obj []), ("name", .str "echo")],
                 Result := .value .null, Error := none } ∧
      "tools/call" = "tools/call" ∧
      unmarshalToolsCallRequest (.obj [("arguments", .obj []), ("name", .str "echo")])
        = some { Name := "echo", Arguments := some [] } ∧
      (∀ m : List (String × JSON), some [] = some m → mapGet m "message" = none) ∧
      mapGet ((NewServer "test-server" "1.0.0").RegisterTool
        { Name := "echo", Description := "Echoes back the provided message",
          InputSchema := .obj [("type", .str "object")] }).tools "echo"
        = some { Name := "echo", Description := "Echoes back the provided message",
                 InputSchema := .obj [("type", .str "object")] }) ∧
    ∃ out : JSON,
      HandleMessage ((NewServer "test-server" "1.0.0").RegisterTool
        { Name := "echo", Description := "Echoes back the provided message",
          InputSchema := .obj [("type", .str "object")] }) sampleWorld
        (.json (.obj [("jsonrpc", .str "2.0"), ("id", .num 4), ("method", .str "tools/call"),
          ("params", .obj [("name", .str "echo"), ("arguments", .obj [])])])) = .ok out ∧
      out = marshalMessage (NewResponse (.num 4) (.toolsCallResponse
        { Content := [{ Type_ := "text", Text := "Error: message parameter is required" }],
          IsError := false })) ∧
      out.get "error" = none ∧
      out.get "result" = some (.obj [("content", .arr [.obj [("type", .str "text"),
        ("text", .str "Error: message parameter is required")]])]) :=
  ⟨⟨Reachable.registerTool _ (Reachable.newServer _ _), rfl, rfl, rfl,
     fun m hm => by cases hm; rfl, rfl⟩,
   toolsCall_echo_missing_message _ sampleWorld
    (.json (.obj [("jsonrpc", .str "2.0"), ("id", .num 4), ("method", .str "tools/call"),
      ("params", .obj [("name", .str "echo"), ("arguments", .obj [])])]))
    { JSONRPC := "2.0", ID := .num 4, Method := "tools/call",
      Params := .obj [("arguments", .obj []), ("name", .str "echo")],
      Result := .value .null, Error := none }
    { Name := "echo", Description := "Echoes back the provided message",
      InputSchema := .obj [("type", .str "object")] }
    (some [])
    (Reachable.registerTool _ (Reachable.newServer _ _)) rfl rfl rfl
    (fun m hm => by cases hm; rfl) rfl⟩

/-! ### Decoding an envelope -/

theorem mapGet_omitNull_self (key : String) (v : JSON) (h : v.isNull = false) :
    mapGet (omitNull key v) key = some v := by
  cases v <;> simp [omitNull, mapGet, JSON.isNull] at h ⊢

theorem marshalMessage_get_jsonrpc (m : Message) :
    (marshalMessage m).get "jsonrpc" = some (.str m.JSONRPC) := by
  simp [marshalMessage, JSON.get, mapGet]

theorem marshalMessage_get_result (m : Message) (h : m.Result.toJSON.isNull = false) :
    (marshalMessage m).get "result" = some m.Result.toJSON := by
  simp only [marshalMessage, JSON.get, List.cons_append, List.nil_append, mapGet, mapGet_append]
  rw [mapGet_omitNull "id" _ _ (by decide), mapGet_omitEmpty _ _ _ (by decide),
    mapGet_omitNull "params" _ _ (by decide), mapGet_omitNull_self _ _ h]
  simp

/-- The store of a member keeps the result of an envelope a decoded value. -/
theorem setField_result_value (a a' : Message) (k : String) (v : JSON)
    (h : a.setField k v = some a') (ha : ∃ x, a.Result = .value x) :
    ∃ x, a'.Result = .value x := by
  simp only [Message.setField] at h
  split_ifs at h
  · cases hs : storeString a.JSONRPC v with
    | none => simp [hs] at h
    | some s => simp only [hs, Option.some.injEq] at h; subst h; exact ha
  · cases hs : decodeAny v with
    | none => simp [hs] at h
    | some s => simp only [hs, Option.some.injEq] at h; subst h; exact ha
  · cases hs : storeString a.Method v with
    | none => simp [hs] at h
    | some s => simp only [hs, Option.some.injEq] at h; subst h; exact ha
  · cases hs : decodeAny v with
    | none => simp [hs] at h
    | some s => simp only [hs, Option.some.injEq] at h; subst h; exact ha
  · cases hs : decodeAny v with
    | none => simp [hs] at h
    | some s => simp only [hs, Option.some.injEq] at h; subst h; exact ⟨s, rfl⟩
  · cases v with
    | null => simp only [Option.some.injEq] at h; subst h; exact ha
    | obj ms =>
      simp only at h
      cases hs : decodeFields Error.setField ms (a.Error.getD Error.zero) with
      | none => simp [hs] at h
      | some s => simp only [hs, Option.some.injEq] at h; subst h; exact ha
    | _ => simp at h
  · simp only [Option.some.injEq] at h; subst h; exact ha

theorem decodeFields_result_value (ms : List (String × JSON)) :
    ∀ a r : Message, decodeFields Message.setField ms a = some r →
      (∃ x, a.Result = .value x) → ∃ x, r.Result = .value x := by
  induction ms with
  | nil =>
    intro a r h ha
    simp only [decodeFields, Option.some.injEq] at h
    subst h; exact ha
  | cons kv ms ih =>
    intro a r h ha
    obtain ⟨k, v⟩ := kv
    simp only [decodeFields] at h
    cases hs : a.setField k v with
    | none => simp [hs] at h
    | some a' =>
      simp only [hs] at h
      exact ih a' r h (setField_result_value a a' k v hs ha)

/-- The result of a decoded envelope is a decoded value. -/
theorem unmarshalMessage_result_value (data : Wire) (r : Message)
    (h : unmarshalMessage data = some r) : ∃ x, r.Result = .value x := by
  cases data with
  | notJSON => simp [unmarshalMessage] at h
  | json doc =>
    cases doc with
    | null =>
      simp only [unmarshalMessage, unmarshalStruct, Option.some.injEq] at h
      subst h; exact ⟨.null, rfl⟩
    | obj ms => exact decodeFields_result_value ms _ r h ⟨.null, rfl⟩
    | _ => simp [unmarshalMessage, unmarshalStruct] at h

/-- The request with the id `2 ^ 60` is not among the serialized envelopes on
which encoding undoes decoding. The same request with the id written as
`json.Marshal` writes that float64 is among them: it is decoded with the id
`2 ^ 60` and encoded back as it was. -/
theorem wireEnvelope_float_id :
    wireEnvelope floatIdRequest = false ∧
    wireEnvelope (.obj [("jsonrpc", .str "2.0"), ("id", .num 1152921504606847000),
      ("method", .str "tools/list")]) = true ∧
    unmarshalMessage (.json (.obj [("jsonrpc", .str "2.0"), ("id", .num 1152921504606847000),
        ("method", .str "tools/list")]))
      = some { JSONRPC := "2.0", ID := .num 1152921504606846976, Method := "tools/list",
               Params := .null, Result := .value .null, Error := none } ∧
    marshalMessage { JSONRPC := "2.0", ID := .num 1152921504606846976, Method := "tools/list",
                     Params := .null, Result := .value .null, Error := none }
      = .obj [("jsonrpc", .str "2.0"), ("id", .num 1152921504606847000),
          ("method", .str "tools/list")] :=
  ⟨rfl, rfl, rfl, rfl⟩

theorem handleMessage_parse_error_aux (s : Server) (w : World) (data : Wire)
    (h : unmarshalMessage data = none) :
    HandleMessage s w data
      = .ok (marshalMessage (NewError .null ParseError "Parse error" .null)) := by
  simp only [HandleMessage, jsonMarshal_newError, h]

/-! ### Reachable servers -/

theorem mem_mapSet {α : Type} (m : List (String × α)) (k : String) (v : α) (p : String × α)
    (hp : p ∈ mapSet m k v) : p = (k, v) ∨ p ∈ m := by
  induction m with
  | nil =>
    simp only [mapSet, List.mem_singleton] at hp
    exact Or.inl hp
  | cons q rest ih =>
    obtain ⟨k₁, v₁⟩ := q
    simp only [mapSet] at hp
    split_ifs at hp
    · rcases List.mem_cons.1 hp with h | h
      · exact Or.inl h
      · exact Or.inr h
    · rcases List.mem_cons.1 hp with h | h
      · exact Or.inl h
      · exact Or.inr (List.mem_cons_of_mem _ h)
    · rcases List.mem_cons.1 hp with h | h
      · exact Or.inr (h ▸ List.mem_cons_self _ _)
      · rcases ih h with h' | h'
        · exact Or.inl h'
        · exact Or.inr (List.mem_cons_of_mem _ h')

/-- On a reachable server the tool catalog is in key order and every tool is
filed under its own name. -/
theorem reachable_tools {s : Server} (h : Reachable s) :
    ascending s.tools = true ∧ ∀ p ∈ s.tools, p.2.Name = p.1 := by
  induction h with
  | newServer name version => exact ⟨rfl, fun p hp => by cases hp⟩
  | registerTool tool _ ih =>
    refine ⟨ascending_mapSet _ _ _ ih.1, fun p hp => ?_⟩
    rcases mem_mapSet _ _ _ p hp with h | h
    · rw [h]
    · exact ih.2 p h
  | registerResource resource _ ih => exact ih

/-- On a reachable server the resource catalog is in key order and every
resource is filed under its own uri. -/
theorem reachable_resources {s : Server} (h : Reachable s) :
    ascending s.resources = true ∧ ∀ p ∈ s.resources, p.2.URI = p.1 := by
  induction h with
  | newServer name version => exact ⟨rfl, fun p hp => by cases hp⟩
  | registerTool tool _ ih => exact ih
  | registerResource resource _ ih =>
    refine ⟨ascending_mapSet _ _ _ ih.1, fun p hp => ?_⟩
    rcases mem_mapSet _ _ _ p hp with h | h
    · rw [h]
    · exact ih.2 p h

/-- The capability set of `NewServer`. -/
theorem reachable_capabilities {s : Server} (h : Reachable s) :
    s.capabilities = defaultCapabilities := by
  induction h with
  | newServer name version => rfl
  | registerTool tool _ ih => exact ih
  | registerResource resource _ ih => exact ih

/-! ### `resources/read` -/

theorem processMessage_resourcesRead (s : Server) (w : World) (r : Message) (hs : Reachable s)
    (hm : r.Method = "resources/read") : processMessage s w r = handleResourcesRead s r := by
  simp only [processMessage, reachable_handlers hs, hm]
  rfl

/-- C11: on a reachable server whose catalog has a resource under the uri
"hello://world", a `resources/read` request with params `{uri: "hello://world"}`
is answered by the encoding of a success envelope with the request's id whose
contents are exactly one item, with uri "hello://world" and the fixed text
"Hello, World! This is a sample resource from the MCP server."; of the
descriptor only the MIME type appears in the answer, and nothing of the
server identity. -/
theorem resourcesRead_hello (s : Server) (w : World) (data : Wire) (r : Message)
    (res : Resource) (hs : Reachable s) (hr : unmarshalMessage data = some r)
    (hm : r.Method = "resources/read") (hp : r.Params = .obj [("uri", .str "hello://world")])
    (hres : mapGet s.resources "hello://world" = some res) :
    ∃ out : JSON, HandleMessage s w data = .ok out ∧
      out = marshalMessage (NewResponse r.ID (.resourcesReadResponse
        { Contents := [{ URI := "hello://world", MimeType := res.MimeType,
                         Text := "Hello, World! This is a sample resource from the MCP server.",
                         Blob := "" }] })) ∧
      out.get "result" = some (.obj [("contents", .arr [.obj [("uri", .str "hello://world"),
        ("mimeType", .str res.MimeType),
        ("text", .str "Hello, World! This is a sample resource from the MCP server.")]])]) ∧
      out.get "error" = none := by
  have hd : unmarshalResourcesReadRequest r.Params = some { URI := "hello://world" } := by
    rw [hp]; rfl
  refine ⟨_, ?_, rfl, ?_, ?_⟩
  · simp only [HandleMessage, hr, processMessage_resourcesRead s w r hs hm, handleResourcesRead,
      marshalAny, unmarshalResourcesReadRequest_encoded, hd, hres]
    rfl
  · exact marshalMessage_get_result (NewResponse r.ID (.resourcesReadResponse
      { Contents := [{ URI := "hello://world", MimeType := res.MimeType,
                       Text := "Hello, World! This is a sample resource from the MCP server.",
                       Blob := "" }] })) rfl
  · rw [marshalMessage_get_error]
    rfl

/-- C11 at the server of `TestHandleResourcesRead`. -/
theorem resourcesRead_hello_witness :
    (Reachable ((NewServer "test-server" "1.0.0").RegisterResource
        { URI := "hello://world", Name := "Hello World", Description := "",
          MimeType := "text/plain" }) ∧
      unmarshalMessage (.json (.obj [("jsonrpc", .str "2.0"), ("id", .num 1),
        ("method", .str "resources/read"), ("params", .obj [("uri", .str "hello://world")])]))
        = some { JSONRPC := "2.0", ID := .num 1, Method := "resources/read",
                 Params := .obj [("uri", .str "hello://world")],
                 Result := .value .null, Error := none } ∧
      "resources/read" = "resources/read" ∧
      JSON.obj [("uri", .str "hello://world")] = .obj [("uri", .str "hello://world")] ∧
      mapGet ((NewServer "test-server" "1.0.0").RegisterResource
        { URI := "hello://world", Name := "Hello World", Description := "",
          MimeType := "text/plain" }).resources "hello://world"
        = some { URI := "hello://world", Name := "Hello World", Description := "",
                 MimeType := "text/plain" }) ∧
    ∃ out : JSON,
      HandleMessage ((NewServer "test-server" "1.0.0").RegisterResource
        { URI := "hello://world", Name := "Hello World", Description := "",
          MimeType := "text/plain" }) sampleWorld
        (.json (.obj [("jsonrpc", .str "2.0"), ("id", .num 1),
          ("method", .str "resources/read"),
          ("params", .obj [("uri", .str "hello://world")])])) = .ok out ∧
      out = marshalMessage (NewResponse (.num 1) (.resourcesReadResponse
        { Contents := [{ URI := "hello://world", MimeType := "text/plain",
                         Text := "Hello, World! This is a sample resource from the MCP server.",
                         Blob := "" }] })) ∧
      out.get "result" = some (.obj [("contents", .arr [.obj [("uri", .str "hello://world"),
        ("mimeType", .str "text/plain"),
        ("text", .str "Hello, World! This is a sample resource from the MCP server.")]])]) ∧
      out.get "error" = none :=
  ⟨⟨Reachable.registerResource _ (Reachable.newServer _ _), rfl, rfl, rfl, rfl⟩,
   resourcesRead_hello _ sampleWorld
    (.json (.obj [("jsonrpc", .str "2.0"), ("id", .num 1), ("method", .str "resources/read"),
      ("params", .obj [("uri", .str "hello://world")])]))
    { JSONRPC := "2.0", ID := .num 1, Method := "resources/read",
      Params := .obj [("uri", .str "hello://world")], Result := .value .null, Error := none }
    { URI := "hello://world", Name := "Hello World", Description := "",
      MimeType := "text/plain" }
    (Reachable.registerResource _ (Reachable.newServer _ _)) rfl rfl rfl rfl⟩

/-- C12: on a reachable server, a `resources/read` request whose params decode
to a uri `u` that is not a key of the resource catalog (params `{uri: u}`
decode to `u`) is answered by the encoding of the error envelope with the
request's id, code `MethodNotFound` and message "Resource not found: " followed
by `u`. That includes the two uris for which `readResource` has content: on a
server without registrations both are answered so. -/
theorem resourcesRead_unknown (s : Server) (w : World) (data : Wire) (r : Message) (u : String)
    (hs : Reachable s) (hr : unmarshalMessage data = some r)
    (hm : r.Method = "resources/read") (hp : r.Params = .obj [("uri", .str u)])
    (hu : mapGet s.resources u = none) :
    HandleMessage s w data
      = .ok (marshalMessage (NewError r.ID MethodNotFound ("Resource not found: " ++ u) .null)) ∧
    (∀ name version : String, mapGet (NewServer name version).resources "hello://world" = none ∧
      mapGet (NewServer name version).resources "info://server" = none) := by
  have hd : unmarshalResourcesReadRequest r.Params = some { URI := u } := by
    rw [hp]; rfl
  refine ⟨?_, fun _ _ => ⟨rfl, rfl⟩⟩
  simp only [HandleMessage, jsonMarshal_newError, hr, processMessage_resourcesRead s w r hs hm,
    handleResourcesRead,
    marshalAny, unmarshalResourcesReadRequest_encoded, hd, hu]

/-- C12 at the uri "hello://world" on a server that registered only
"info://server". -/
theorem resourcesRead_unknown_witness :
    (Reachable ((NewServer "test-server" "1.0.0").RegisterResource
        { URI := "info://server", Name := "Server Information", Description := "",
          MimeType := "text/plain" }) ∧
      unmarshalMessage (.json (.obj [("jsonrpc", .str "2.0"), ("id", .num 3),
        ("method", .str "resources/read"), ("params", .obj [("uri", .str "hello://world")])]))
        = some { JSONRPC := "2.0", ID := .num 3, Method := "resources/read",
                 Params := .obj [("uri", .str "hello://world")],
                 Result := .value .null, Error := none } ∧
      "resources/read" = "resources/read" ∧
      JSON.obj [("uri", .str "hello://world")] = .obj [("uri", .str "hello://world")] ∧
      mapGet ((NewServer "test-server" "1.0.0").RegisterResource
        { URI := "info://server", Name := "Server Information", Description := "",
          MimeType := "text/plain" }).resources "hello://world" = none) ∧
    (HandleMessage ((NewServer "test-server" "1.0.0").RegisterResource
        { URI := "info://server", Name := "Server Information", Description := "",
          MimeType := "text/plain" }) sampleWorld
        (.json (.obj [("jsonrpc", .str "2.0"), ("id", .num 3),
          ("method", .str "resources/read"),
          ("params", .obj [("uri", .str "hello://world")])]))
      = .ok (marshalMessage
          (NewError (.num 3) MethodNotFound ("Resource not found: " ++ "hello://world") .null)) ∧
    (∀ name version : String, mapGet (NewServer name version).resources "hello://world" = none ∧
      mapGet (NewServer name version).resources "info://server" = none)) :=
  ⟨⟨Reachable.registerResource _ (Reachable.newServer _ _), rfl, rfl, rfl, rfl⟩,
   resourcesRead_unknown _ sampleWorld
    (.json (.obj [("jsonrpc", .str "2.0"), ("id", .num 3), ("method", .str "resources/read"),
      ("params", .obj [("uri", .str "hello://world")])]))
    { JSONRPC := "2.0", ID := .num 3, Method := "resources/read",
      Params := .obj [("uri", .str "hello://world")], Result := .value .null, Error := none }
    "hello://world"
    (Reachable.registerResource _ (Reachable.newServer _ _)) rfl rfl rfl rfl⟩

/-! ### The tool catalog -/

theorem mapSet_mapSet_same {α : Type} (m : List (String × α)) (k : String) (v₁ v₂ : α) :
    mapSet (mapSet m k v₁) k v₂ = mapSet m k v₂ := by
  induction m with
  | nil => simp [mapSet, keyLt_irrefl]
  | cons p rest ih =>
    obtain ⟨k₁, x⟩ := p
    by_cases h1 : keyLt k k₁ = true
    · simp [mapSet, h1, keyLt_irrefl]
    · by_cases h2 : k = k₁
      · subst h2
        simp [mapSet, keyLt_irrefl]
      · simp only [mapSet, h1, h2, if_false, Bool.false_eq_true, ih]

theorem length_mapSet_congr {α : Type} (m : List (String × α)) (k : String) (v₁ v₂ : α) :
    (mapSet m k v₁).length = (mapSet m k v₂).length := by
  induction m with
  | nil => rfl
  | cons p rest ih =>
    obtain ⟨k₁, x⟩ := p
    simp only [mapSet]
    split_ifs <;> simp [ih]

theorem filter_keysAbove {α : Type} (k : String) (m : List (String × α))
    (h : keysAbove k m = true) : m.filter (fun p => decide (p.1 = k)) = [] := by
  induction m with
  | nil => rfl
  | cons p rest ih =>
    obtain ⟨k₁, x⟩ := p
    simp only [keysAbove, Bool.and_eq_true] at h
    have hne : ¬ k₁ = k := fun hh => keyLt_ne h.1 hh.symm
    simp [List.filter_cons, hne, ih h.2]

/-- In a map in key order a key that is present has exactly one entry. -/
theorem filter_key {α : Type} (m : List (String × α)) (k : String) (v : α)
    (ha : ascending m = true) (hg : mapGet m k = some v) :
    m.filter (fun p => decide (p.1 = k)) = [(k, v)] := by
  induction m with
  | nil => simp [mapGet] at hg
  | cons p rest ih =>
    obtain ⟨k₁, x⟩ := p
    simp only [ascending, Bool.and_eq_true] at ha
    simp only [mapGet] at hg
    by_cases hk : k = k₁
    · subst hk
      simp only [if_true, Option.some.injEq] at hg
      subst hg
      simp [List.filter_cons, filter_keysAbove k rest ha.1]
    · simp only [hk, if_false] at hg
      have hne : ¬ k₁ = k := fun hh => hk hh.symm
      simp [List.filter_cons, hne, ih ha.2 hg]

theorem keys_nodup {α : Type} (m : List (String × α)) (ha : ascending m = true) :
    (m.map (fun p => p.1)).Nodup := by
  induction m with
  | nil => exact List.nodup_nil
  | cons p rest ih =>
    obtain ⟨k₁, x⟩ := p
    simp only [ascending, Bool.and_eq_true] at ha
    simp only [List.map_cons, List.nodup_cons]
    refine ⟨?_, ih ha.2⟩
    intro hmem
    obtain ⟨q, hq, hqk⟩ := List.mem_map.1 hmem
    have hnone := mapGet_of_keysAbove k₁ rest ha.1
    have hsome := mapGet_of_mem_distinct rest q.1 q.2 (distinctKeys_of_ascending rest ha.2) hq
    rw [hqk, hnone] at hsome
    cases hsome

/-- The names of the listed tools are the keys of the catalog. -/
theorem tool_names_eq_keys (m : List (String × Tool)) (h : ∀ p ∈ m, p.2.Name = p.1) :
    (m.map (fun e => e.2)).map Tool.Name = m.map (fun p => p.1) := by
  rw [List.map_map]
  exact List.map_congr_left (fun p hp => h p hp)

/-- Among the listed tools a name that is a key of the catalog is carried by
exactly the tool filed under it. -/
theorem tools_filter_name (m : List (String × Tool)) (n : String) (t : Tool)
    (ha : ascending m = true) (hinv : ∀ p ∈ m, p.2.Name = p.1) (hg : mapGet m n = some t) :
    (m.map (fun e => e.2)).filter (fun x => decide (x.Name = n)) = [t] := by
  have h1 : (m.map (fun e => e.2)).filter (fun x => decide (x.Name = n))
      = (m.filter (fun p => decide (p.2.Name = n))).map (fun e => e.2) := by
    rw [List.filter_map]
    rfl
  have h2 : m.filter (fun p => decide (p.2.Name = n)) = m.filter (fun p => decide (p.1 = n)) :=
    List.filter_congr (fun p hp => by rw [hinv p hp])
  rw [h1, h2, filter_key m n t ha hg]
  rfl

theorem processMessage_toolsList (s : Server) (w : World) (r : Message) (hs : Reachable s)
    (hm : r.Method = "tools/list") : processMessage s w r = handleToolsList s r := by
  simp only [processMessage, reachable_handlers hs, hm]
  rfl

/-- C13: on a reachable server, registering `t₁` and then `t₂` under the same
name leaves the catalog as registering `t₂` alone does: the name has exactly
one entry, which is `t₂`, the catalog has as many entries as after registering
`t₁` alone, and `tools/list` answers with a list in which exactly one
descriptor has that name, `t₂`; `HandleMessage` returns what `json.Marshal`
makes of that answer, which is its document when every schema listed has an
encoding. -/
theorem registerTool_last_wins (s : Server) (t₁ t₂ : Tool) (hs : Reachable s)
    (hn : t₁.Name = t₂.Name) :
    mapGet ((s.RegisterTool t₁).RegisterTool t₂).tools t₂.Name = some t₂ ∧
    ((s.RegisterTool t₁).RegisterTool t₂).tools.filter (fun p => decide (p.1 = t₂.Name))
      = [(t₂.Name, t₂)] ∧
    ((s.RegisterTool t₁).RegisterTool t₂).tools.length = (s.RegisterTool t₁).tools.length ∧
    ((s.RegisterTool t₁).RegisterTool t₂).tools = (s.RegisterTool t₂).tools ∧
    ∀ (w : World) (data : Wire) (r : Message), unmarshalMessage data = some r →
      r.Method = "tools/list" →
      ∃ l : List Tool,
        processMessage ((s.RegisterTool t₁).RegisterTool t₂) w r
          = .ok (NewResponse r.ID (.toolsListResponse { Tools := l })) ∧
        HandleMessage ((s.RegisterTool t₁).RegisterTool t₂) w data
          = jsonMarshal (NewResponse r.ID (.toolsListResponse { Tools := l })) ∧
        l.filter (fun x => decide (x.Name = t₂.Name)) = [t₂] ∧
        ((∀ t ∈ l, t.SchemaError = none) →
          HandleMessage ((s.RegisterTool t₁).RegisterTool t₂) w data
            = .ok (marshalMessage (NewResponse r.ID (.toolsListResponse { Tools := l })))) := by
  have hs₂ : Reachable ((s.RegisterTool t₁).RegisterTool t₂) :=
    Reachable.registerTool t₂ (Reachable.registerTool t₁ hs)
  obtain ⟨hasc, hinv⟩ := reachable_tools hs₂
  have hget : mapGet ((s.RegisterTool t₁).RegisterTool t₂).tools t₂.Name = some t₂ := by
    simp only [Server.RegisterTool, mapGet_mapSet, if_true]
  refine ⟨hget, filter_key _ _ _ hasc hget, ?_, ?_, ?_⟩
  · simp only [Server.RegisterTool, hn]
    rw [mapSet_mapSet_same]
    exact length_mapSet_congr _ _ _ _
  · simp only [Server.RegisterTool, hn]
    rw [mapSet_mapSet_same]
  · intro w data r hr hm
    have hH : HandleMessage ((s.RegisterTool t₁).RegisterTool t₂) w data
        = jsonMarshal (NewResponse r.ID (.toolsListResponse
            { Tools := ((s.RegisterTool t₁).RegisterTool t₂).tools.map (fun e => e.2) })) := by
      simp only [HandleMessage, hr, processMessage_toolsList _ w r hs₂ hm, handleToolsList]
    refine ⟨_, ?_, hH, tools_filter_name _ _ _ hasc hinv hget, fun henc => ?_⟩
    · simp only [processMessage_toolsList _ w r hs₂ hm, handleToolsList]
    · rw [hH]
      exact jsonMarshal_toolsList _ _ henc

/-- C13 at two descriptors named "echo" on a new server. -/
theorem registerTool_last_wins_witness :
    (Reachable (NewServer "test-server" "1.0.0") ∧
      ({ Name := "echo", Description := "first", InputSchema := .null } : Tool).Name
        = ({ Name := "echo", Description := "second", InputSchema := .null } : Tool).Name) ∧
    (mapGet (((NewServer "test-server" "1.0.0").RegisterTool
        { Name := "echo", Description := "first", InputSchema := .null }).RegisterTool
        { Name := "echo", Description := "second", InputSchema := .null }).tools
        ({ Name := "echo", Description := "second", InputSchema := .null } : Tool).Name
      = some { Name := "echo", Description := "second", InputSchema := .null } ∧
    (((NewServer "test-server" "1.0.0").RegisterTool
        { Name := "echo", Description := "first", InputSchema := .null }).RegisterTool
        { Name := "echo", Description := "second", InputSchema := .null }).tools.filter
        (fun p => decide (p.1
          = ({ Name := "echo", Description := "second", InputSchema := .null } : Tool).Name))
      = [(({ Name := "echo", Description := "second", InputSchema := .null } : Tool).Name,
          { Name := "echo", Description := "second", InputSchema := .null })] ∧
    (((NewServer "test-server" "1.0.0").RegisterTool
        { Name := "echo", Description := "first", InputSchema := .null }).RegisterTool
        { Name := "echo", Description := "second", InputSchema := .null }).tools.length
      = ((NewServer "test-server" "1.0.0").RegisterTool
        { Name := "echo", Description := "first", InputSchema := .null }).tools.length ∧
    (((NewServer "test-server" "1.0.0").RegisterTool
        { Name := "echo", Description := "first", InputSchema := .null }).RegisterTool
        { Name := "echo", Description := "second", InputSchema := .null }).tools
      = ((NewServer "test-server" "1.0.0").RegisterTool
        { Name := "echo", Description := "second", InputSchema := .null }).tools ∧
    ∀ (w : World) (data : Wire) (r : Message), unmarshalMessage data = some r →
      r.Method = "tools/list" →
      ∃ l : List Tool,
        processMessage (((NewServer "test-server" "1.0.0").RegisterTool
            { Name := "echo", Description := "first", InputSchema := .null }).RegisterTool
            { Name := "echo", Description := "second", InputSchema := .null }) w r
          = .ok (NewResponse r.ID (.toolsListResponse { Tools := l })) ∧
        HandleMessage (((NewServer "test-server" "1.0.0").RegisterTool
            { Name := "echo", Description := "first", InputSchema := .null }).RegisterTool
            { Name := "echo", Description := "second", InputSchema := .null }) w data
          = jsonMarshal (NewResponse r.ID (.toolsListResponse { Tools := l })) ∧
        l.filter (fun x => decide (x.Name
            = ({ Name := "echo", Description := "second", InputSchema := .null } : Tool).Name))
          = [{ Name := "echo", Description := "second", InputSchema := .null }] ∧
        ((∀ t ∈ l, t.SchemaError = none) →
          HandleMessage (((NewServer "test-server" "1.0.0").RegisterTool
              { Name := "echo", Description := "first", InputSchema := .null }).RegisterTool
              { Name := "echo", Description := "second", InputSchema := .null }) w data
            = .ok (marshalMessage (NewResponse r.ID (.toolsListResponse { Tools := l }))))) :=
  ⟨⟨Reachable.newServer _ _, rfl⟩,
   registerTool_last_wins (NewServer "test-server" "1.0.0")
    { Name := "echo", Description := "first", InputSchema := .null }
    { Name := "echo", Description := "second", InputSchema := .null }
    (Reachable.newServer _ _) rfl⟩

/-- C16: on a reachable server a `tools/list` request is answered by a
success envelope with the request's id whose tools list holds the values of
the catalog and nothing else: a descriptor is listed exactly when it is filed
in the catalog, the names listed are the keys of the catalog, no name is
listed twice, and the list is as long as the catalog. On a server without
tools the list is empty, and written as `[]`. `HandleMessage` returns what
`json.Marshal` makes of that envelope: its document, when every schema of the
catalog has an encoding. -/
theorem toolsList_catalog (s : Server) (w : World) (data : Wire) (r : Message)
    (hs : Reachable s) (hr : unmarshalMessage data = some r) (hm : r.Method = "tools/list") :
    ∃ l : List Tool,
      processMessage s w r = .ok (NewResponse r.ID (.toolsListResponse { Tools := l })) ∧
      HandleMessage s w data
        = jsonMarshal (NewResponse r.ID (.toolsListResponse { Tools := l })) ∧
      (s.encodable = true → HandleMessage s w data
        = .ok (marshalMessage (NewResponse r.ID (.toolsListResponse { Tools := l })))) ∧
      (marshalMessage (NewResponse r.ID (.toolsListResponse { Tools := l }))).get "result"
        = some (.obj [("tools", .arr (l.map Tool.toJSON))]) ∧
      (marshalMessage (NewResponse r.ID (.toolsListResponse { Tools := l }))).get "error" = none ∧
      (∀ t : Tool, t ∈ l ↔ ∃ k, mapGet s.tools k = some t) ∧
      l.map Tool.Name = s.tools.map (fun p => p.1) ∧
      (l.map Tool.Name).Nodup ∧ l.Nodup ∧
      l.length = s.tools.length ∧
      (s.tools = [] → l = []) := by
  obtain ⟨hasc, hinv⟩ := reachable_tools hs
  have hnames := tool_names_eq_keys s.tools hinv
  have hnd : ((s.tools.map (fun e => e.2)).map Tool.Name).Nodup := by
    rw [hnames]
    exact keys_nodup s.tools hasc
  have hH : HandleMessage s w data = jsonMarshal (NewResponse r.ID (.toolsListResponse
      { Tools := s.tools.map (fun e => e.2) })) := by
    simp only [HandleMessage, hr, processMessage_toolsList s w r hs hm, handleToolsList]
  refine ⟨s.tools.map (fun e => e.2), ?_, hH, fun henc => ?_, ?_, ?_, ?_, hnames, hnd,
    List.Nodup.of_map _ hnd, List.length_map _ _, fun h => by rw [h]; rfl⟩
  · simp only [processMessage_toolsList s w r hs hm, handleToolsList]
  · rw [hH]
    apply jsonMarshal_toolsList
    intro t ht
    obtain ⟨kv, hkv, rfl⟩ := List.mem_map.1 ht
    simp only [Server.encodable, List.all_eq_true] at henc
    have := henc kv hkv
    cases hse : kv.2.SchemaError with
    | none => rfl
    | some e => rw [hse] at this; cases this
  · exact marshalMessage_get_result (NewResponse r.ID (.toolsListResponse
      { Tools := s.tools.map (fun e => e.2) })) rfl
  · rw [marshalMessage_get_error]
    rfl
  · intro t
    constructor
    · intro ht
      obtain ⟨p, hp, hpt⟩ := List.mem_map.1 ht
      exact ⟨p.1, by
        rw [← hpt]
        exact mapGet_of_mem_distinct s.tools p.1 p.2 (distinctKeys_of_ascending _ hasc) hp⟩
    · rintro ⟨k, hk⟩
      exact List.mem_map.2 ⟨(k, t), mem_of_mapGet s.tools k t hk, rfl⟩

/-- C16 at the server and request of `TestHandleToolsList`. -/
theorem toolsList_catalog_witness :
    (Reachable ((NewServer "test-server" "1.0.0").RegisterTool
        { Name := "test-tool", Description := "A test tool",
          InputSchema := .obj [("type", .str "object")] }) ∧
      unmarshalMessage (.json (.obj [("jsonrpc", .str "2.0"), ("id", .num 1),
        ("method", .str "tools/list")]))
        = some { JSONRPC := "2.0", ID := .num 1, Method := "tools/list", Params := .null,
                 Result := .value .null, Error := none } ∧
      "tools/list" = "tools/list") ∧
    HandleMessage ((NewServer "test-server" "1.0.0").RegisterTool
        { Name := "test-tool", Description := "A test tool",
          InputSchema := .obj [("type", .str "object")] }) sampleWorld
        (.json (.obj [("jsonrpc", .str "2.0"), ("id", .num 1), ("method", .str "tools/list")]))
      = .ok (.obj [("jsonrpc", .str "2.0"), ("id", .num 1),
          ("result", .obj [("tools", .arr [.obj [("name", .str "test-tool"),
            ("description", .str "A test tool"),
            ("inputSchema", .obj [("type", .str "object")])]])])]) ∧
    ∃ l : List Tool,
      processMessage ((NewServer "test-server" "1.0.0").RegisterTool
          { Name := "test-tool", Description := "A test tool",
            InputSchema := .obj [("type", .str "object")] }) sampleWorld
          { JSONRPC := "2.0", ID := .num 1, Method := "tools/list", Params := .null,
            Result := .value .null, Error := none }
        = .ok (NewResponse (.num 1) (.toolsListResponse { Tools := l })) ∧
      HandleMessage ((NewServer "test-server" "1.0.0").RegisterTool
          { Name := "test-tool", Description := "A test tool",
            InputSchema := .obj [("type", .str "object")] }) sampleWorld
          (.json (.obj [("jsonrpc", .str "2.0"), ("id", .num 1), ("method", .str "tools/list")]))
        = jsonMarshal (NewResponse (.num 1) (.toolsListResponse { Tools := l })) ∧
      (((NewServer "test-server" "1.0.0").RegisterTool
          { Name := "test-tool", Description := "A test tool",
            InputSchema := .obj [("type", .str "object")] }).encodable = true →
        HandleMessage ((NewServer "test-server" "1.0.0").RegisterTool
          { Name := "test-tool", Description := "A test tool",
            InputSchema := .obj [("type", .str "object")] }) sampleWorld
          (.json (.obj [("jsonrpc", .str "2.0"), ("id", .num 1), ("method", .str "tools/list")]))
        = .ok (marshalMessage (NewResponse (.num 1) (.toolsListResponse { Tools := l })))) ∧
      (marshalMessage (NewResponse (.num 1) (.toolsListResponse { Tools := l }))).get "result"
        = some (.obj [("tools", .arr (l.map Tool.toJSON))]) ∧
      (marshalMessage (NewResponse (.num 1) (.toolsListResponse { Tools := l }))).get "error"
        = none ∧
      (∀ t : Tool, t ∈ l ↔ ∃ k, mapGet ((NewServer "test-server" "1.0.0").RegisterTool
          { Name := "test-tool", Description := "A test tool",
            InputSchema := .obj [("type", .str "object")] }).tools k = some t) ∧
      l.map Tool.Name = ((NewServer "test-server" "1.0.0").RegisterTool
          { Name := "test-tool", Description := "A test tool",
            InputSchema := .obj [("type", .str "object")] }).tools.map (fun p => p.1) ∧
      (l.map Tool.Name).Nodup ∧ l.Nodup ∧
      l.length = ((NewServer "test-server" "1.0.0").RegisterTool
          { Name := "test-tool", Description := "A test tool",
            InputSchema := .obj [("type", .str "object")] }).tools.length ∧
      (((NewServer "test-server" "1.0.0").RegisterTool
          { Name := "test-tool", Description := "A test tool",
            InputSchema := .obj [("type", .str "object")] }).tools = [] → l = []) :=
  ⟨⟨Reachable.registerTool _ (Reachable.newServer _ _), rfl, rfl⟩, rfl,
   toolsList_catalog _ sampleWorld
    (.json (.obj [("jsonrpc", .str "2.0"), ("id", .num 1), ("method", .str "tools/list")]))
    { JSONRPC := "2.0", ID := .num 1, Method := "tools/list", Params := .null,
      Result := .value .null, Error := none }
    (Reachable.registerTool _ (Reachable.newServer _ _)) rfl rfl⟩

/-! ### `initialize` -/

/-- The answer of a reachable server to an `initialize` request. -/
theorem handleMessage_init (s : Server) (w : World) (data : Wire) (r : Message)
    (hs : Reachable s) (hr : unmarshalMessage data = some r) (hm : r.Method = "initialize") :
    HandleMessage s w data = .ok (marshalMessage (NewResponse r.ID (.initializeResponse
      { ProtocolVersion := MCPVersion, Capabilities := defaultCapabilities,
        ServerInfo := s.serverInfo }))) := by
  have hp : processMessage s w r = handleInitialize s r := by
    simp only [processMessage, reachable_handlers hs, hm]
    rfl
  simp only [HandleMessage, jsonMarshal_initialize, hr, hp, handleInitialize,
    reachable_capabilities hs]

/-- C14: on a server reachable from `NewServer` by any registrations, an
`initialize` request is answered by bytes whose `result` has a `capabilities`
object with the members `logging`, `resources` and `tools`. -/
theorem initialize_capabilities (s : Server) (w : World) (data : Wire) (r : Message)
    (hs : Reachable s) (hr : unmarshalMessage data = some r) (hm : r.Method = "initialize") :
    ∃ out res caps : JSON, HandleMessage s w data = .ok out ∧
      out.get "result" = some res ∧ res.get "capabilities" = some caps ∧
      caps = .obj [("logging", .obj []), ("resources", .obj []), ("tools", .obj [])] ∧
      caps.get "tools" = some (.obj []) ∧ caps.get "resources" = some (.obj []) ∧
      caps.get "logging" = some (.obj []) := by
  refine ⟨_, _, _, handleMessage_init s w data r hs hr hm,
    marshalMessage_get_result (NewResponse r.ID (.initializeResponse
      { ProtocolVersion := MCPVersion, Capabilities := defaultCapabilities,
        ServerInfo := s.serverInfo })) rfl, rfl, rfl, rfl, rfl, rfl⟩

/-- C14 at the server and request of `TestServerCapabilities`. -/
theorem initialize_capabilities_witness :
    (Reachable (((NewServer "test-server" "1.0.0").RegisterTool
        { Name := "hello_world", Description := "Returns a friendly hello world message",
          InputSchema := .obj [("type", .str "object")] }).RegisterResource
        { URI := "hello://world", Name := "Hello World",
          Description := "A simple hello world resource", MimeType := "text/plain" }) ∧
      unmarshalMessage (.json (.obj [("jsonrpc", .str "2.0"), ("id", .num 1),
        ("method", .str "initialize"),
        ("params", .obj [("protocolVersion", .str "2024-11-05"), ("capabilities", .obj [])])]))
        = some { JSONRPC := "2.0", ID := .num 1, Method := "initialize",
                 Params := .obj [("capabilities", .obj []),
                   ("protocolVersion", .str "2024-11-05")],
                 Result := .value .null, Error := none } ∧
      "initialize" = "initialize") ∧
    ∃ out res caps : JSON,
      HandleMessage (((NewServer "test-server" "1.0.0").RegisterTool
        { Name := "hello_world", Description := "Returns a friendly hello world message",
          InputSchema := .obj [("type", .str "object")] }).RegisterResource
        { URI := "hello://world", Name := "Hello World",
          Description := "A simple hello world resource", MimeType := "text/plain" })
        sampleWorld
        (.json (.obj [("jsonrpc", .str "2.0"), ("id", .num 1), ("method", .str "initialize"),
          ("params", .obj [("protocolVersion", .str "2024-11-05"),
            ("capabilities", .obj [])])])) = .ok out ∧
      out.get "result" = some res ∧ res.get "capabilities" = some caps ∧
      caps = .obj [("logging", .obj []), ("resources", .obj []), ("tools", .obj [])] ∧
      caps.get "tools" = some (.obj []) ∧ caps.get "resources" = some (.obj []) ∧
      caps.get "logging" = some (.obj []) :=
  ⟨⟨Reachable.registerResource _ (Reachable.registerTool _ (Reachable.newServer _ _)), rfl, rfl⟩,
   initialize_capabilities _ sampleWorld
    (.json (.obj [("jsonrpc", .str "2.0"), ("id", .num 1), ("method", .str "initialize"),
      ("params", .obj [("protocolVersion", .str "2024-11-05"), ("capabilities", .obj [])])]))
    { JSONRPC := "2.0", ID := .num 1, Method := "initialize",
      Params := .obj [("capabilities", .obj []), ("protocolVersion", .str "2024-11-05")],
      Result := .value .null, Error := none }
    (Reachable.registerResource _ (Reachable.registerTool _ (Reachable.newServer _ _)))
    rfl rfl⟩

/-- C15: on a server built by `NewServer name version`, with or without
registrations after it, every decodable `initialize` request is answered by
the encoding of a success envelope with the request's id whose result has
protocolVersion "2024-11-05" and serverInfo `{name, version}`, and no error
member. The params are not looked at: two `initialize` requests with the same
id get the same bytes, whatever their params. -/
theorem initialize_unconditional (name version : String) (s : Server) (w : World)
    (data : Wire) (r : Message) (hs : Reachable s)
    (hi : s.serverInfo = { Name := name, Version := version })
    (hr : unmarshalMessage data = some r) (hm : r.Method = "initialize") :
    ∃ out : JSON, HandleMessage s w data = .ok out ∧
      out = marshalMessage (NewResponse r.ID (.initializeResponse
        { ProtocolVersion := "2024-11-05", Capabilities := defaultCapabilities,
          ServerInfo := { Name := name, Version := version } })) ∧
      out.get "result" = some (.obj [("protocolVersion", .str "2024-11-05"),
        ("capabilities", .obj [("logging", .obj []), ("resources", .obj []),
          ("tools", .obj [])]),
        ("serverInfo", .obj [("name", .str name), ("version", .str version)])]) ∧
      out.get "error" = none ∧
      (NewServer name version).serverInfo = { Name := name, Version := version } ∧
      ∀ (data' : Wire) (r' : Message), unmarshalMessage data' = some r' →
        r'.Method = "initialize" → r'.ID = r.ID → HandleMessage s w data' = .ok out := by
  have key : ∀ (d : Wire) (q : Message), unmarshalMessage d = some q → q.Method = "initialize" →
      HandleMessage s w d = .ok (marshalMessage (NewResponse q.ID (.initializeResponse
        { ProtocolVersion := "2024-11-05", Capabilities := defaultCapabilities,
          ServerInfo := { Name := name, Version := version } }))) := by
    intro d q hq hqm
    rw [handleMessage_init s w d q hs hq hqm, hi]
    rfl
  refine ⟨_, key data r hr hm, rfl, ?_, ?_, rfl, ?_⟩
  · exact marshalMessage_get_result (NewResponse r.ID (.initializeResponse
      { ProtocolVersion := "2024-11-05", Capabilities := defaultCapabilities,
        ServerInfo := { Name := name, Version := version } })) rfl
  · rw [marshalMessage_get_error]
    rfl
  · intro data' r' hr' hm' hid
    rw [key data' r' hr' hm', hid]

/-- C15 at an `initialize` request whose params are a string, and against the
request of `TestHandleInitialize`. -/
theorem initialize_unconditional_witness :
    (Reachable (NewServer "test-server" "1.0.0") ∧
      (NewServer "test-server" "1.0.0").serverInfo
        = { Name := "test-server", Version := "1.0.0" } ∧
      unmarshalMessage (.json (.obj [("jsonrpc", .str "2.0"), ("id", .num 1),
        ("method", .str "initialize"), ("params", .str "not an object")]))
        = some { JSONRPC := "2.0", ID := .num 1, Method := "initialize",
                 Params := .str "not an object", Result := .value .null, Error := none } ∧
      "initialize" = "initialize") ∧
    ∃ out : JSON,
      HandleMessage (NewServer "test-server" "1.0.0") sampleWorld
        (.json (.obj [("jsonrpc", .str "2.0"), ("id", .num 1), ("method", .str "initialize"),
          ("params", .str "not an object")])) = .ok out ∧
      out = marshalMessage (NewResponse (.num 1) (.initializeResponse
        { ProtocolVersion := "2024-11-05", Capabilities := defaultCapabilities,
          ServerInfo := { Name := "test-server", Version := "1.0.0" } })) ∧
      out.get "result" = some (.obj [("protocolVersion", .str "2024-11-05"),
        ("capabilities", .obj [("logging", .obj []), ("resources", .obj []),
          ("tools", .obj [])]),
        ("serverInfo", .obj [("name", .str "test-server"), ("version", .str "1.0.0")])]) ∧
      out.get "error" = none ∧
      (NewServer "test-server" "1.0.0").serverInfo
        = { Name := "test-server", Version := "1.0.0" } ∧
      ∀ (data' : Wire) (r' : Message), unmarshalMessage data' = some r' →
        r'.Method = "initialize" → r'.ID = .num 1 →
        HandleMessage (NewServer "test-server" "1.0.0") sampleWorld data' = .ok out :=
  ⟨⟨Reachable.newServer _ _, rfl, rfl, rfl⟩,
   initialize_unconditional "test-server" "1.0.0" (NewServer "test-server" "1.0.0") sampleWorld
    (.json (.obj [("jsonrpc", .str "2.0"), ("id", .num 1), ("method", .str "initialize"),
      ("params", .str "not an object")]))
    { JSONRPC := "2.0", ID := .num 1, Method := "initialize",
      Params := .str "not an object", Result := .value .null, Error := none }
    (Reachable.newServer _ _) rfl rfl rfl⟩

/-! ### Errors of handlers and the shape of the answers -/

/-- What `HandleMessage` returns is what `json.Marshal` returns for an
envelope. -/
theorem handleMessage_encoder (s : Server) (w : World) (data : Wire) :
    ∃ resp : Message, HandleMessage s w data = jsonMarshal resp := by
  unfold HandleMessage
  cases unmarshalMessage data with
  | none => exact ⟨_, rfl⟩
  | some msg =>
    simp only
    cases processMessage s w msg with
    | error err => exact ⟨_, rfl⟩
    | ok response => exact ⟨_, rfl⟩

/-- On a reachable server with an encodable catalog the answer of the
dispatcher has an encoding; so has, on every reachable server, the answer to
a request for another method than `tools/list`. -/
theorem processMessage_encodes (s : Server) (w : World) (msg : Message) (hs : Reachable s)
    (he : s.encodable = true ∨ msg.Method ≠ "tools/list") :
    ∃ resp, processMessage s w msg = .ok resp ∧ resp.Result.marshalError = none := by
  simp only [processMessage, reachable_handlers hs]
  cases hg : mapGet builtinHandlers msg.Method with
  | none => exact ⟨_, rfl, rfl⟩
  | some h => exact builtin_call_encodes msg.Method h hg s w msg he

/-- On a reachable server `HandleMessage` returns bytes, and no Go error, when
the catalog is encodable or the request is not a `tools/list` request. -/
theorem handleMessage_bytes (s : Server) (w : World) (data : Wire) (hs : Reachable s)
    (he : s.encodable = true ∨ ∀ r, unmarshalMessage data = some r → r.Method ≠ "tools/list") :
    ∃ out : JSON, HandleMessage s w data = .ok out := by
  unfold HandleMessage
  cases hr : unmarshalMessage data with
  | none => exact ⟨_, rfl⟩
  | some msg =>
    have he' : s.encodable = true ∨ msg.Method ≠ "tools/list" := by
      rcases he with h | h
      · exact Or.inl h
      · exact Or.inr (h msg hr)
    obtain ⟨resp, hresp, henc⟩ := processMessage_encodes s w msg hs he'
    simp only [hresp]
    exact ⟨_, jsonMarshal_of_none _ henc⟩

/-- C17: for every server state, when a decodable envelope `e` is routed to a
handler of the table and that handler returns an error with description `d`,
`HandleMessage` returns, without a Go error, the encoding of the error envelope
with `e`'s id, code `InternalError` (-32603) and message `d`. -/
theorem handler_error_internal (s : Server) (w : World) (data : Wire) (e : Message)
    (h : Handler) (d : String) (he : unmarshalMessage data = some e)
    (hh : mapGet s.handlers e.Method = some h) (hd : h.call s w e = .error d) :
    HandleMessage s w data = .ok (marshalMessage (NewError e.ID InternalError d .null)) ∧
    InternalError = -32603 ∧
    (marshalMessage (NewError e.ID InternalError d .null)).get "error"
      = some (.obj [("code", .num (-32603)), ("message", .str d)]) ∧
    (marshalMessage (NewError e.ID InternalError d .null)).get "id"
      = (match e.ID with
          | .null => none
          | v => some (encodeAny v)) := by
  refine ⟨?_, rfl, ?_, ?_⟩
  · simp only [HandleMessage, jsonMarshal_newError, he, processMessage, hh, hd]
  · rw [marshalMessage_get_error]
    rfl
  · rw [marshalMessage_get_id]
    rfl

/-- C17 at a server whose table has a failing function under "boom". -/
theorem handler_error_internal_witness :
    (unmarshalMessage (.json (.obj [("jsonrpc", .str "2.0"), ("id", .num 7),
        ("method", .str "boom")]))
        = some { JSONRPC := "2.0", ID := .num 7, Method := "boom", Params := .null,
                 Result := .value .null, Error := none } ∧
      (∃ f, mapGet failingServer.handlers "boom" = some (Handler.func f) ∧
        (Handler.func f).call failingServer sampleWorld
          { JSONRPC := "2.0", ID := .num 7, Method := "boom", Params := .null,
            Result := .value .null, Error := none } = .error "boom failed")) ∧
    (HandleMessage failingServer sampleWorld
        (.json (.obj [("jsonrpc", .str "2.0"), ("id", .num 7), ("method", .str "boom")]))
      = .ok (marshalMessage (NewError (.num 7) InternalError "boom failed" .null)) ∧
    InternalError = -32603 ∧
    (marshalMessage (NewError (.num 7) InternalError "boom failed" .null)).get "error"
      = some (.obj [("code", .num (-32603)), ("message", .str "boom failed")]) ∧
    (marshalMessage (NewError (.num 7) InternalError "boom failed" .null)).get "id"
      = some (.num 7)) :=
  ⟨⟨rfl, ⟨fun _ => .error "boom failed", rfl, rfl⟩⟩,
   handler_error_internal failingServer sampleWorld
    (.json (.obj [("jsonrpc", .str "2.0"), ("id", .num 7), ("method", .str "boom")]))
    { JSONRPC := "2.0", ID := .num 7, Method := "boom", Params := .null,
      Result := .value .null, Error := none }
    (Handler.func (fun _ => .error "boom failed")) "boom failed" rfl rfl rfl⟩

theorem marshalMessage_get_method_empty (m : Message) (h : m.Method = "") :
    (marshalMessage m).get "method" = none := by
  simp only [marshalMessage, JSON.get, List.cons_append, List.nil_append, mapGet, mapGet_append]
  rw [mapGet_omitNull "id" _ _ (by decide), mapGet_omitNull "params" _ _ (by decide),
    mapGet_omitNull "result" _ _ (by decide), mapGet_omitNil _ _ _ _ (by decide)]
  simp [omitEmpty, h, mapGet]

theorem marshalMessage_get_result_null (m : Message) (h : m.Result.toJSON.isNull = true) :
    (marshalMessage m).get "result" = none := by
  have hn : m.Result.toJSON = .null := by
    cases hv : m.Result.toJSON <;> simp [hv, JSON.isNull] at h ⊢
  simp only [marshalMessage, JSON.get, List.cons_append, List.nil_append, mapGet, mapGet_append]
  rw [mapGet_omitNull "id" _ _ (by decide), mapGet_omitNull "params" _ _ (by decide),
    mapGet_omitEmpty _ _ _ (by decide), mapGet_omitNil _ _ _ _ (by decide), hn]
  simp [omitNull, mapGet]

/-- The members of the encoding of a response. -/
theorem response_members (m : Message) (h : m.isResponse = true) :
    (marshalMessage m).get "method" = none ∧
    xor ((marshalMessage m).get "result").isSome ((marshalMessage m).get "error").isSome
      = true := by
  simp only [Message.isResponse, Bool.and_eq_true, beq_iff_eq] at h
  obtain ⟨hm, hx⟩ := h
  refine ⟨marshalMessage_get_method_empty m hm, ?_⟩
  rw [marshalMessage_get_error]
  cases hn : m.Result.toJSON.isNull with
  | true =>
    rw [marshalMessage_get_result_null m hn]
    rw [hn] at hx
    cases hE : m.Error <;> simp [hE] at hx ⊢
  | false =>
    rw [marshalMessage_get_result m hn]
    rw [hn] at hx
    cases hE : m.Error <;> simp [hE] at hx ⊢

/-- Every answer of a built-in handler is a response. -/
theorem builtin_call_response (h : Handler) (hmem : ∃ k, mapGet builtinHandlers k = some h)
    (s : Server) (w : World) (msg : Message) :
    ∃ resp, h.call s w msg = .ok resp ∧ resp.isResponse = true := by
  obtain ⟨k, hk⟩ := hmem
  simp only [builtinHandlers, mapGet] at hk
  split_ifs at hk <;> simp only [Option.some.injEq] at hk <;> subst hk
  · exact ⟨_, rfl, rfl⟩
  · exact ⟨_, rfl, rfl⟩
  · simp only [Handler.call, handleResourcesRead, marshalAny]
    split
    · exact ⟨_, rfl, rfl⟩
    · split <;> exact ⟨_, rfl, rfl⟩
  · simp only [Handler.call, handleToolsCall, marshalAny]
    split
    · exact ⟨_, rfl, rfl⟩
    · split <;> exact ⟨_, rfl, rfl⟩
  · exact ⟨_, rfl, rfl⟩

/-- C18: on a reachable server, whatever the bytes received, `HandleMessage`
returns what `json.Marshal` makes of a response envelope: the envelope has no
method name and exactly one of result and error, and so have the bytes
returned, whenever bytes are returned: no `method` member, and exactly one of
the members `result` and `error`. Bytes are returned when every schema of the
catalog has an encoding. -/
theorem handleMessage_response (s : Server) (w : World) (data : Wire) (hs : Reachable s) :
    (∃ resp : Message, HandleMessage s w data = jsonMarshal resp ∧
      resp.isResponse = true ∧
      (marshalMessage resp).get "method" = none ∧
      xor ((marshalMessage resp).get "result").isSome ((marshalMessage resp).get "error").isSome
        = true) ∧
    (∀ out : JSON, HandleMessage s w data = .ok out →
      out.get "method" = none ∧
      xor (out.get "result").isSome (out.get "error").isSome = true) ∧
    (s.encodable = true → ∃ out : JSON, HandleMessage s w data = .ok out) := by
  have key : ∃ resp : Message, HandleMessage s w data = jsonMarshal resp ∧
      resp.isResponse = true := by
    unfold HandleMessage
    cases unmarshalMessage data with
    | none => exact ⟨_, rfl, rfl⟩
    | some msg =>
      simp only [processMessage, reachable_handlers hs]
      cases hg : mapGet builtinHandlers msg.Method with
      | none => exact ⟨_, rfl, rfl⟩
      | some h =>
        obtain ⟨resp, hresp, hshape⟩ := builtin_call_response h ⟨_, hg⟩ s w msg
        simp only [hresp]
        exact ⟨resp, rfl, hshape⟩
  obtain ⟨resp, h1, h2⟩ := key
  refine ⟨⟨resp, h1, h2, (response_members resp h2).1, (response_members resp h2).2⟩,
    fun out hout => ?_, fun he => handleMessage_bytes s w data hs (Or.inl he)⟩
  rw [h1] at hout
  rw [(jsonMarshal_ok hout).1]
  exact ⟨(response_members resp h2).1, (response_members resp h2).2⟩

/-- C18 at bytes that are not JSON. -/
theorem handleMessage_response_witness :
    Reachable (NewServer "test-server" "1.0.0") ∧
    HandleMessage (NewServer "test-server" "1.0.0") sampleWorld Wire.notJSON
      = .ok (.obj [("jsonrpc", .str "2.0"),
          ("error", .obj [("code", .num (-32700)), ("message", .str "Parse error")])]) ∧
    (∃ resp : Message,
      HandleMessage (NewServer "test-server" "1.0.0") sampleWorld Wire.notJSON
        = jsonMarshal resp ∧
      resp.isResponse = true ∧
      (marshalMessage resp).get "method" = none ∧
      xor ((marshalMessage resp).get "result").isSome ((marshalMessage resp).get "error").isSome
        = true) ∧
    (∀ out : JSON, HandleMessage (NewServer "test-server" "1.0.0") sampleWorld Wire.notJSON
        = .ok out →
      out.get "method" = none ∧
      xor (out.get "result").isSome (out.get "error").isSome = true) ∧
    ((NewServer "test-server" "1.0.0").encodable = true →
      ∃ out : JSON, HandleMessage (NewServer "test-server" "1.0.0") sampleWorld Wire.notJSON
        = .ok out) :=
  ⟨Reachable.newServer _ _, rfl,
   handleMessage_response (NewServer "test-server" "1.0.0") sampleWorld Wire.notJSON
    (Reachable.newServer _ _)⟩

/-! ### The server across exchanges -/

theorem runOn_pure {α : Type} (a : α) (s : Server) :
    runOn (pure a : StateM Server α) s = (a, s) := rfl

theorem runOn_bind {α β : Type} (x : StateM Server α) (f : α → StateM Server β) (s : Server) :
    runOn (x >>= f) s = runOn (f (runOn x s).1) (runOn x s).2 := rfl

theorem runOn_get (s : Server) : runOn (get : StateM Server Server) s = (s, s) := rfl

theorem runOn_modify (f : Server → Server) (s : Server) :
    runOn (modify f : StateM Server Unit) s = ((), f s) := rfl

/-- `RegisterTool` as a program leaves the server that `RegisterTool` returns. -/
theorem registerToolM_eq (tool : Tool) (s : Server) :
    runOn (RegisterToolM tool) s = ((), s.RegisterTool tool) := rfl

theorem registerResourceM_eq (resource : Resource) (s : Server) :
    runOn (RegisterResourceM resource) s = ((), s.RegisterResource resource) := rfl

theorem executeToolM_eq (rt : Runtime) (name : String) (args : Option (List (String × JSON)))
    (s : Server) :
    runOn (executeToolM rt name args) s = (executeTool rt.world name args, s) := by
  unfold executeToolM executeTool
  split_ifs <;> rfl

theorem readResourceM_eq (uri : String) (s : Server) :
    runOn (readResourceM uri) s = (readResource s uri, s) := by
  unfold readResourceM readResource
  split_ifs <;> rfl

theorem handleInitializeM_eq (msg : Message) (s : Server) :
    runOn (handleInitializeM msg) s = (handleInitialize s msg, s) := rfl

/-- The tool list as a program: the server is left as it was, and the tools
are listed in the order of the loop. -/
theorem handleToolsListM_eq (rt : Runtime) (msg : Message) (s : Server) :
    runOn (handleToolsListM rt msg) s
      = (.ok (NewResponse msg.ID (.toolsListResponse
          { Tools := (rt.rangeTools s.tools).map (fun e => e.2) })), s) := rfl

theorem handleResourcesListM_eq (rt : Runtime) (msg : Message) (s : Server) :
    runOn (handleResourcesListM rt msg) s
      = (.ok (NewResponse msg.ID (.resourcesListResponse
          { Resources := (rt.rangeResources s.resources).map (fun e => e.2) })), s) := rfl

theorem handleToolsCallM_eq (rt : Runtime) (msg : Message) (s : Server) :
    runOn (handleToolsCallM rt msg) s = (handleToolsCall s rt.world msg, s) := by
  unfold handleToolsCallM handleToolsCall
  simp only [marshalAny]
  cases unmarshalToolsCallRequest (encodeAny msg.Params) with
  | none => rfl
  | some req =>
    simp only [runOn_bind, runOn_get]
    cases mapGet s.tools req.Name with
    | none => rfl
    | some t =>
      simp only [runOn_bind, executeToolM_eq]
      rfl

theorem handleResourcesReadM_eq (msg : Message) (s : Server) :
    runOn (handleResourcesReadM msg) s = (handleResourcesRead s msg, s) := by
  unfold handleResourcesReadM handleResourcesRead
  simp only [marshalAny]
  cases unmarshalResourcesReadRequest (encodeAny msg.Params) with
  | none => rfl
  | some req =>
    simp only [runOn_bind, runOn_get]
    cases mapGet s.resources req.URI with
    | none => rfl
    | some t =>
      simp only [runOn_bind, readResourceM_eq]
      rfl

/-- A method of the server leaves the server as it was. -/
theorem handler_run_frame (h : Handler) (hm : h.isMethod = true) (rt : Runtime)
    (msg : Message) (s : Server) : (runOn (h.run rt msg) s).2 = s := by
  cases h with
  | func f => cases hm
  | handleInitialize => rfl
  | handleToolsList => rfl
  | handleToolsCall => simp only [Handler.run, handleToolsCallM_eq]
  | handleResourcesList => rfl
  | handleResourcesRead => simp only [Handler.run, handleResourcesReadM_eq]

/-- When the loops yield the entries in key order, a handler returns what
`Handler.call` returns. -/
theorem handler_run_answer (h : Handler) (rt : Runtime) (msg : Message) (s : Server)
    (ht : ∀ l, rt.rangeTools l = l) (hr : ∀ l, rt.rangeResources l = l) :
    (runOn (h.run rt msg) s).1 = h.call s rt.world msg := by
  cases h with
  | func f => rfl
  | handleInitialize => rfl
  | handleToolsList =>
    simp only [Handler.run, handleToolsListM_eq, ht, Handler.call, handleToolsList]
  | handleToolsCall => simp only [Handler.run, handleToolsCallM_eq, Handler.call]
  | handleResourcesList =>
    simp only [Handler.run, handleResourcesListM_eq, hr, Handler.call, handleResourcesList]
  | handleResourcesRead => simp only [Handler.run, handleResourcesReadM_eq, Handler.call]

theorem methodTable_lookup (s : Server) (hs : s.methodTable = true) (k : String) (h : Handler)
    (hg : mapGet s.handlers k = some h) : h.isMethod = true := by
  simp only [Server.methodTable, List.all_eq_true] at hs
  exact hs (k, h) (mem_of_mapGet s.handlers k h hg)

theorem reachable_methodTable {s : Server} (h : Reachable s) : s.methodTable = true := by
  simp only [Server.methodTable, reachable_handlers h]
  rfl

theorem processMessageM_frame (rt : Runtime) (msg : Message) (s : Server)
    (hs : s.methodTable = true) : (runOn (processMessageM rt msg) s).2 = s := by
  unfold processMessageM
  simp only [runOn_bind, runOn_get]
  cases hg : mapGet s.handlers msg.Method with
  | none => rfl
  | some h => exact handler_run_frame h (methodTable_lookup s hs _ h hg) rt msg s

theorem processMessageM_answer (rt : Runtime) (msg : Message) (s : Server)
    (ht : ∀ l, rt.rangeTools l = l) (hr : ∀ l, rt.rangeResources l = l) :
    (runOn (processMessageM rt msg) s).1 = processMessage s rt.world msg := by
  unfold processMessageM processMessage
  simp only [runOn_bind, runOn_get]
  cases hg : mapGet s.handlers msg.Method with
  | none => rfl
  | some h => exact handler_run_answer h rt msg s ht hr

theorem handleMessageM_split (rt : Runtime) (data : Wire) (s : Server) :
    runOn (HandleMessageM rt data) s
      = (match unmarshalMessage data with
          | none => (jsonMarshal (NewError .null ParseError "Parse error" .null), s)
          | some msg =>
            ((match (runOn (processMessageM rt msg) s).1 with
              | .error err => jsonMarshal (NewError msg.ID InternalError err .null)
              | .ok response => jsonMarshal response),
             (runOn (processMessageM rt msg) s).2)) := by
  unfold HandleMessageM
  cases unmarshalMessage data with
  | none => rfl
  | some msg =>
    simp only [runOn_bind]
    cases (runOn (processMessageM rt msg) s).1 <;> rfl

theorem handleMessageM_frame (rt : Runtime) (data : Wire) (s : Server)
    (hs : s.methodTable = true) : (runOn (HandleMessageM rt data) s).2 = s := by
  rw [handleMessageM_split]
  cases unmarshalMessage data with
  | none => rfl
  | some msg => exact processMessageM_frame rt msg s hs

theorem handleMessageM_answer (rt : Runtime) (data : Wire) (s : Server)
    (ht : ∀ l, rt.rangeTools l = l) (hr : ∀ l, rt.rangeResources l = l) :
    (runOn (HandleMessageM rt data) s).1 = HandleMessage s rt.world data := by
  rw [handleMessageM_split]
  unfold HandleMessage
  cases unmarshalMessage data with
  | none => rfl
  | some msg =>
    simp only [processMessageM_answer rt msg s ht hr]

theorem serveM_eq (s : Server) (hs : s.methodTable = true) (msgs : List (Runtime × Wire)) :
    runOn (serveM msgs) s
      = (msgs.map (fun m => (runOn (HandleMessageM m.1 m.2) s).1), s) := by
  induction msgs with
  | nil => rfl
  | cons m rest ih =>
    obtain ⟨rt, data⟩ := m
    simp only [serveM, runOn_bind, handleMessageM_frame rt data s hs, ih, List.map_cons]
    rfl

/-- A function of the handler table that is none of the five methods can write
to the server: with one that registers a tool, the exchange leaves a catalog
that is not the catalog it found. -/
theorem closure_handler_writes :
    failingServer.methodTable = false ∧ failingServer.tools = [] ∧
    (runOn (HandleMessageM (reverseRuntime sampleWorld)
        (.json (.obj [("jsonrpc", .str "2.0"), ("id", .num 7), ("method", .str "boom")])))
      failingServer).2.tools = [("echo", EchoTool)] :=
  ⟨rfl, rfl, rfl⟩

/-- C19: for every server state whose handler table holds methods of the
server only, as the table of every server built by `NewServer` does, and for
every input, `HandleMessage` leaves the server as it found it: identity,
capability set, tool catalog, resource catalog and handler table are
unchanged, whatever the world, the order of the map loops and the closures of
the runtime are. Hence, when messages are handled one after the other, the
server at the end is the server at the start, each answer is the one that the
server at the start gives in the runtime of that message, and the answer to a
message is the same whatever messages were handled before it. When the loops
yield the entries in key order the answer is the one `HandleMessage` returns. -/
theorem handleMessage_stateless (s : Server) (rt : Runtime) (data : Wire)
    (hs : s.methodTable = true) :
    (runOn (HandleMessageM rt data) s).2 = s ∧
    (runOn (HandleMessageM rt data) s).2.serverInfo = s.serverInfo ∧
    (runOn (HandleMessageM rt data) s).2.capabilities = s.capabilities ∧
    (runOn (HandleMessageM rt data) s).2.tools = s.tools ∧
    (runOn (HandleMessageM rt data) s).2.resources = s.resources ∧
    (runOn (HandleMessageM rt data) s).2.handlers = s.handlers ∧
    (∀ msgs : List (Runtime × Wire), (runOn (serveM msgs) s).2 = s ∧
      (runOn (serveM msgs) s).1 = msgs.map (fun m => (runOn (HandleMessageM m.1 m.2) s).1)) ∧
    (∀ before₁ before₂ : List (Runtime × Wire),
      (runOn (serveM (before₁ ++ [(rt, data)])) s).1.getLast?
        = some (runOn (HandleMessageM rt data) s).1 ∧
      (runOn (serveM (before₁ ++ [(rt, data)])) s).1.getLast?
        = (runOn (serveM (before₂ ++ [(rt, data)])) s).1.getLast?) ∧
    ((∀ l, rt.rangeTools l = l) → (∀ l, rt.rangeResources l = l) →
      (runOn (HandleMessageM rt data) s).1 = HandleMessage s rt.world data) := by
  have hf := handleMessageM_frame rt data s hs
  have hlast : ∀ before : List (Runtime × Wire),
      (runOn (serveM (before ++ [(rt, data)])) s).1.getLast?
        = some (runOn (HandleMessageM rt data) s).1 := by
    intro before
    rw [serveM_eq s hs]
    simp [List.getLast?_append]
  refine ⟨hf, by rw [hf], by rw [hf], by rw [hf], by rw [hf], by rw [hf], fun msgs => ?_,
    fun b₁ b₂ => ⟨hlast b₁, by rw [hlast b₁, hlast b₂]⟩, handleMessageM_answer rt data s⟩
  rw [serveM_eq s hs]
  exact ⟨rfl, rfl⟩

/-- C19 at a `tools/list` request on a server with two tools, in a runtime
whose loops yield the entries in reverse key order. -/
theorem handleMessage_stateless_witness :
    (Reachable twoToolServer ∧ twoToolServer.methodTable = true) ∧
    (runOn (HandleMessageM (reverseRuntime sampleWorld) listRequest) twoToolServer).2
      = twoToolServer ∧
    (runOn (HandleMessageM (reverseRuntime sampleWorld) listRequest)
      twoToolServer).2.serverInfo = twoToolServer.serverInfo ∧
    (runOn (HandleMessageM (reverseRuntime sampleWorld) listRequest)
      twoToolServer).2.capabilities = twoToolServer.capabilities ∧
    (runOn (HandleMessageM (reverseRuntime sampleWorld) listRequest)
      twoToolServer).2.tools = twoToolServer.tools ∧
    (runOn (HandleMessageM (reverseRuntime sampleWorld) listRequest)
      twoToolServer).2.resources = twoToolServer.resources ∧
    (runOn (HandleMessageM (reverseRuntime sampleWorld) listRequest)
      twoToolServer).2.handlers = twoToolServer.handlers ∧
    (∀ msgs : List (Runtime × Wire), (runOn (serveM msgs) twoToolServer).2 = twoToolServer ∧
      (runOn (serveM msgs) twoToolServer).1
        = msgs.map (fun m => (runOn (HandleMessageM m.1 m.2) twoToolServer).1)) ∧
    (∀ before₁ before₂ : List (Runtime × Wire),
      (runOn (serveM (before₁ ++ [(reverseRuntime sampleWorld, listRequest)]))
          twoToolServer).1.getLast?
        = some (runOn (HandleMessageM (reverseRuntime sampleWorld) listRequest)
            twoToolServer).1 ∧
      (runOn (serveM (before₁ ++ [(reverseRuntime sampleWorld, listRequest)]))
          twoToolServer).1.getLast?
        = (runOn (serveM (before₂ ++ [(reverseRuntime sampleWorld, listRequest)]))
            twoToolServer).1.getLast?) ∧
    ((∀ l, (reverseRuntime sampleWorld).rangeTools l = l) →
      (∀ l, (reverseRuntime sampleWorld).rangeResources l = l) →
      (runOn (HandleMessageM (reverseRuntime sampleWorld) listRequest) twoToolServer).1
        = HandleMessage twoToolServer (reverseRuntime sampleWorld).world listRequest) :=
  ⟨⟨Reachable.registerTool _ (Reachable.registerTool _ (Reachable.newServer _ _)), rfl⟩,
   handleMessage_stateless twoToolServer (reverseRuntime sampleWorld) listRequest rfl⟩

/-! ### The HTTP transport -/

/-- C20, as stated, fails: a body that is not JSON is answered by the
dispatcher with the `ParseError` envelope, but the HTTP handler answers it with
status 400 and the text "Invalid JSON", without calling the dispatcher. -/
theorem http_invalid_json :
    HandleMessage (NewServer "test-server" "1.0.0") sampleWorld RequestBody.noValue.bytes
      = .ok (marshalMessage (NewError .null ParseError "Parse error" .null)) ∧
    mcpHandler (HandleMessage (NewServer "test-server" "1.0.0") sampleWorld)
        { Method := "POST", Body := .noValue }
      = { Status := 400, ContentType := "text/plain; charset=utf-8",
          Body := .text "Invalid JSON\n" } ∧
    ¬ ∃ out : JSON,
      HandleMessage (NewServer "test-server" "1.0.0") sampleWorld RequestBody.noValue.bytes
        = .ok out ∧
      (mcpHandler (HandleMessage (NewServer "test-server" "1.0.0") sampleWorld)
        { Method := "POST", Body := .noValue }).Body = .bytes out := by
  refine ⟨rfl, rfl, ?_⟩
  rintro ⟨out, _, h⟩
  have hb : (mcpHandler (HandleMessage (NewServer "test-server" "1.0.0") sampleWorld)
      { Method := "POST", Body := .noValue }).Body = .text "Invalid JSON\n" := rfl
  rw [hb] at h
  cases h

/-- C20, amended: for every POST to `/mcp` whose body starts with a complete
JSON value, the response has status 200, Content-Type application/json, and as
body the bytes that `HandleMessage` returns for that value, which is the whole
body when nothing follows the value; so a JSON value that is not an envelope is
answered over HTTP with the `ParseError` envelope. A body without a complete
JSON value is answered with status 400 and the text "Invalid JSON", whatever
the dispatcher is. -/
theorem http_carries_dispatcher (s : Server) (w : World) (doc : JSON) (more : Bool) :
    (∀ out : JSON, HandleMessage s w (.json doc) = .ok out →
      mcpHandler (HandleMessage s w) { Method := "POST", Body := .value doc more }
        = { Status := 200, ContentType := "application/json", Body := .bytes out }) ∧
    (∀ err : String, HandleMessage s w (.json doc) = .error err →
      mcpHandler (HandleMessage s w) { Method := "POST", Body := .value doc more }
        = httpError err 500) ∧
    (Reachable s → s.encodable = true → ∃ out : JSON, HandleMessage s w (.json doc) = .ok out) ∧
    (RequestBody.value doc false).bytes = .json doc ∧
    (unmarshalMessage (.json doc) = none →
      mcpHandler (HandleMessage s w) { Method := "POST", Body := .value doc more }
        = { Status := 200, ContentType := "application/json",
            Body := .bytes (marshalMessage (NewError .null ParseError "Parse error" .null)) }) ∧
    ∀ handler : Wire → Except String JSON,
      mcpHandler handler { Method := "POST", Body := .noValue }
        = { Status := 400, ContentType := "text/plain; charset=utf-8",
            Body := .text "Invalid JSON\n" } := by
  have hok : ∀ out : JSON, HandleMessage s w (.json doc) = .ok out →
      mcpHandler (HandleMessage s w) { Method := "POST", Body := .value doc more }
        = { Status := 200, ContentType := "application/json", Body := .bytes out } := by
    intro out hout
    simp only [mcpHandler, hout]
    rfl
  refine ⟨hok, fun err herr => ?_,
    fun hs he => handleMessage_bytes s w (.json doc) hs (Or.inl he), rfl,
    fun hnone => hok _ (handleMessage_parse_error_aux s w (.json doc) hnone), fun _ => rfl⟩
  simp only [mcpHandler, herr]
  rfl

/-! ### The stream transport -/

theorem readBytes_line (line rest : List Nat) (h : 10 ∉ line) :
    ReadBytes 10 (line ++ 10 :: rest) = (line ++ [10], none, rest) := by
  induction line with
  | nil => simp [ReadBytes]
  | cons b bs ih =>
    simp only [List.mem_cons, not_or] at h
    have hb : b ≠ 10 := fun e => h.1 e.symm
    have ih' := ih h.2
    simp only [List.cons_append, ReadBytes, hb, if_false]
    simp only [List.append_eq, ih']

theorem readBytes_eof (inp : List Nat) (h : 10 ∉ inp) :
    ReadBytes 10 inp = (inp, some "EOF", []) := by
  induction inp with
  | nil => rfl
  | cons b bs ih =>
    simp only [List.mem_cons, not_or] at h
    have hb : b ≠ 10 := fun e => h.1 e.symm
    have ih' := ih h.2
    simp only [ReadBytes, hb, if_false]
    simp only [ih']

theorem readMessage_line (t : StdioTransport) (line rest : List Nat) (h : 10 ∉ line)
    (ht : t.reader = line ++ 10 :: rest) :
    t.ReadMessage = (.ok line, { t with reader := rest }) := by
  simp [StdioTransport.ReadMessage, ht, readBytes_line line rest h]

theorem writeMessage_open (t : StdioTransport) (d : List Nat) (h : t.writer.failure = none) :
    t.WriteMessage d
      = (none, { t with writer := { t.writer with taken := t.writer.taken ++ (d ++ [10]) } }) := by
  simp [StdioTransport.WriteMessage, ByteWriter.Write, h]

theorem writeAll_open (msgs : List (List Nat)) (t : StdioTransport)
    (h : t.writer.failure = none) :
    writeAll t msgs
      = { t with writer := { t.writer with taken := t.writer.taken ++ frame msgs } } := by
  induction msgs generalizing t with
  | nil => simp [writeAll, frame]
  | cons d ds ih =>
    rw [writeAll, writeMessage_open t d h]
    simp only
    rw [ih { reader := t.reader,
             writer := { taken := t.writer.taken ++ (d ++ [10]), failure := t.writer.failure } } h]
    simp [frame]

theorem readN_frame (msgs : List (List Nat)) (t : StdioTransport) (rest : List Nat)
    (hn : ∀ d ∈ msgs, 10 ∉ d) (ht : t.reader = frame msgs ++ rest) :
    readN msgs.length t = (msgs.map Except.ok, { t with reader := rest }) := by
  induction msgs generalizing t with
  | nil =>
    simp only [frame, List.map_nil, List.flatten_nil, List.nil_append] at ht
    simp only [List.length_nil, readN, List.map_nil, ← ht]
  | cons d ds ih =>
    have hd : 10 ∉ d := hn d (List.mem_cons_self _ _)
    have ht' : t.reader = d ++ 10 :: (frame ds ++ rest) := by
      rw [ht]; simp [frame]
    have hr := readMessage_line t d (frame ds ++ rest) hd ht'
    have ih' := ih { t with reader := frame ds ++ rest }
      (fun x hx => hn x (List.mem_cons_of_mem _ hx)) rfl
    simp only [List.length_cons, readN, hr, ih', List.map_cons]

/-- C21: `WriteMessage(d)` on an open stream appends exactly `d` and one
newline byte (10) to it and returns no error; `ReadMessage` on an input that
starts with a line (bytes without newline, then a newline) returns those
bytes without the newline, nothing else removed, and leaves the input after
the newline; on an input without newline it returns the error of the end of
input. Hence for messages none of which contains a newline byte, the stream
that `WriteMessage` produced for them, read by as many `ReadMessage` calls,
gives the same messages in the same order, and the next call meets the end
of input. -/
theorem stdio_line_framing (msgs : List (List Nat)) (hn : ∀ d ∈ msgs, 10 ∉ d) :
    (∀ (t : StdioTransport) (d : List Nat), t.writer.failure = none →
      ((t.WriteMessage d).1 = none ∧
       (t.WriteMessage d).2.writer.taken = t.writer.taken ++ d ++ [10] ∧
       (t.WriteMessage d).2.reader = t.reader)) ∧
    (∀ (t : StdioTransport) (line rest : List Nat), 10 ∉ line →
      t.reader = line ++ 10 :: rest →
      t.ReadMessage = (.ok line, { t with reader := rest })) ∧
    (∀ (t : StdioTransport), 10 ∉ t.reader → (t.ReadMessage).1 = .error "EOF") ∧
    (∀ (w r : StdioTransport), w.writer = emptyWriter →
      r.reader = (writeAll w msgs).writer.taken →
      (readN msgs.length r).1 = msgs.map Except.ok ∧
      (((readN msgs.length r).2).ReadMessage).1 = .error "EOF") := by
  refine ⟨fun t d h => ?_, fun t line rest h ht => readMessage_line t line rest h ht,
    fun t h => ?_, fun w r hw hr => ?_⟩
  · rw [writeMessage_open t d h]
    simp
  · simp [StdioTransport.ReadMessage, readBytes_eof t.reader h]
  · rw [writeAll_open msgs w (by rw [hw]; rfl)] at hr
    simp only [hw, emptyWriter, List.nil_append] at hr
    have h1 := readN_frame msgs r [] hn (by rw [hr]; simp)
    rw [h1]
    refine ⟨rfl, ?_⟩
    simp [StdioTransport.ReadMessage, ReadBytes]

/-- C21 at three messages: `{}`, the empty message and a carriage return. -/
theorem stdio_line_framing_witness :
    (∀ d ∈ [[123, 125], [], [13]], 10 ∉ d) ∧
    (writeAll { reader := [], writer := emptyWriter } [[123, 125], [], [13]]).writer.taken
      = [123, 125, 10, 10, 13, 10] ∧
    (readN 3 { reader := [123, 125, 10, 10, 13, 10], writer := emptyWriter }).1
      = [.ok [123, 125], .ok [], .ok [13]] ∧
    ((∀ (t : StdioTransport) (d : List Nat), t.writer.failure = none →
      ((t.WriteMessage d).1 = none ∧
       (t.WriteMessage d).2.writer.taken = t.writer.taken ++ d ++ [10] ∧
       (t.WriteMessage d).2.reader = t.reader)) ∧
    (∀ (t : StdioTransport) (line rest : List Nat), 10 ∉ line →
      t.reader = line ++ 10 :: rest →
      t.ReadMessage = (.ok line, { t with reader := rest })) ∧
    (∀ (t : StdioTransport), 10 ∉ t.reader → (t.ReadMessage).1 = .error "EOF") ∧
    (∀ (w r : StdioTransport), w.writer = emptyWriter →
      r.reader = (writeAll w [[123, 125], [], [13]]).writer.taken →
      (readN [[123, 125], [], [13]].length r).1 = [[123, 125], [], [13]].map Except.ok ∧
      (((readN [[123, 125], [], [13]].length r).2).ReadMessage).1 = .error "EOF")) :=
  ⟨by decide, by decide, rfl, stdio_line_framing [[123, 125], [], [13]] (by decide)⟩

/-! ### The API client -/

/-- C22: `NewEHQClient` removes one trailing slash only. It stores
"https://example.com/" as "https://example.com" and "https://example.com"
unchanged, but "https://example.com//" as "https://example.com/", which ends
with a slash. -/
theorem newEHQClient_double_slash :
    (NewEHQClient "https://example.com//").BaseURL = "https://example.com/" ∧
    HasSuffix (NewEHQClient "https://example.com//").BaseURL "/" = true ∧
    (NewEHQClient "https://example.com/").BaseURL = "https://example.com" ∧
    (NewEHQClient "https://example.com").BaseURL = "https://example.com" ∧
    (NewEHQClient "/").BaseURL = "" :=
  ⟨by decide, by decide, by decide, by decide, by decide⟩

/-- C23: for every client whose token is empty, every upstream and every
search string, `GetProjects` returns a nil response and the error
"client not authenticated - call Authenticate() first", builds no request,
sends none, and leaves the client as it was. -/
theorem getProjects_not_authenticated (c : EHQClient) (u : Upstream) (search : String)
    (h : c.Token = "") :
    c.GetProjects u search
      = (.returned (none, some "client not authenticated - call Authenticate() first"), [], c) := by
  simp only [EHQClient.GetProjects, h, if_true]

/-- C23 at the call of `TestGetProjectsNotAuthenticated`. -/
theorem getProjects_not_authenticated_witness :
    (NewEHQClient "https://example.com").Token = "" ∧
    (NewEHQClient "https://example.com").GetProjects sampleUpstream ""
      = (.returned (none, some "client not authenticated - call Authenticate() first"), [],
         NewEHQClient "https://example.com") :=
  ⟨rfl, getProjects_not_authenticated (NewEHQClient "https://example.com") sampleUpstream "" rfl⟩

/-! ### Error codes -/

/-- C24: the five error codes have the values -32700, -32600, -32601, -32602
and -32603, which are pairwise distinct; `GetErrorMessage` gives "Parse error",
"Invalid Request", "Method not found", "Invalid params" and "Internal error"
for them, and for every other integer `c` the text "Unknown error (c)" with
`c` in decimal. -/
theorem getErrorMessage_table (c : Int)
    (hc : c ∉ [ParseError, InvalidRequest, MethodNotFound, InvalidParams, InternalError]) :
    (ParseError = -32700 ∧ InvalidRequest = -32600 ∧ MethodNotFound = -32601 ∧
      InvalidParams = -32602 ∧ InternalError = -32603) ∧
    [ParseError, InvalidRequest, MethodNotFound, InvalidParams, InternalError].Nodup ∧
    (GetErrorMessage ParseError = "Parse error" ∧
      GetErrorMessage InvalidRequest = "Invalid Request" ∧
      GetErrorMessage MethodNotFound = "Method not found" ∧
      GetErrorMessage InvalidParams = "Invalid params" ∧
      GetErrorMessage InternalError = "Internal error") ∧
    GetErrorMessage c = "Unknown error (" ++ toString c ++ ")" := by
  refine ⟨⟨rfl, rfl, rfl, rfl, rfl⟩, by decide, ⟨rfl, rfl, rfl, rfl, rfl⟩, ?_⟩
  simp only [List.mem_cons, List.mem_singleton, List.not_mem_nil, or_false, not_or] at hc
  obtain ⟨h1, h2, h3, h4, h5⟩ := hc
  have hl : ErrorMessages.lookup c = none := by
    simp only [ErrorMessages, List.lookup]
    have e1 : (c == ParseError) = false := by simpa using h1
    have e2 : (c == InvalidRequest) = false := by simpa using h2
    have e3 : (c == MethodNotFound) = false := by simpa using h3
    have e4 : (c == InvalidParams) = false := by simpa using h4
    have e5 : (c == InternalError) = false := by simpa using h5
    simp only [e1, e2, e3, e4, e5]
  simp only [GetErrorMessage, hl]

/-- C24 at the code -32000, which is none of the five. -/
theorem getErrorMessage_table_witness :
    (-32000 : Int) ∉ [ParseError, InvalidRequest, MethodNotFound, InvalidParams, InternalError] ∧
    GetErrorMessage (-32000) = "Unknown error (-32000)" ∧
    GetErrorMessage 0 = "Unknown error (0)" ∧
    ((ParseError = -32700 ∧ InvalidRequest = -32600 ∧ MethodNotFound = -32601 ∧
      InvalidParams = -32602 ∧ InternalError = -32603) ∧
    [ParseError, InvalidRequest, MethodNotFound, InvalidParams, InternalError].Nodup ∧
    (GetErrorMessage ParseError = "Parse error" ∧
      GetErrorMessage InvalidRequest = "Invalid Request" ∧
      GetErrorMessage MethodNotFound = "Method not found" ∧
      GetErrorMessage InvalidParams = "Invalid params" ∧
      GetErrorMessage InternalError = "Internal error") ∧
    GetErrorMessage (-32000) = "Unknown error (" ++ toString (-32000 : Int) ++ ")") :=
  ⟨by decide, by decide, by decide, getErrorMessage_table (-32000) (by decide)⟩

/-! ### Transport selection -/

/-- C25: with `-stdio-only -http 8080` the multi-transport server starts the
stdio transport and the HTTP transport; with `-stdio-only -ws 8081` it starts
the stdio transport and the WebSocket transport. -/
theorem stdioOnly_starts_http :
    multiServerMain { Flags.default with stdioOnly := true, httpPort := 8080 }
      = some { stdio := true, http := true, ws := false } ∧
    multiServerMain { Flags.default with stdioOnly := true, wsPort := 8081 }
      = some { stdio := true, http := false, ws := true } ∧
    multiServerMain { Flags.default with stdioOnly := true }
      = some { stdio := true, http := false, ws := false } :=
  ⟨by decide, by decide, by decide⟩

/-! ### The codes of the answers -/

/-- What a built-in handler answers: no Go error, an envelope with the tag
"2.0", and as error code only `InvalidParams` or `MethodNotFound`. -/
theorem builtin_call_codes (h : Handler) (hmem : ∃ k, mapGet builtinHandlers k = some h)
    (s : Server) (w : World) (msg : Message) :
    ∃ resp, h.call s w msg = .ok resp ∧ resp.JSONRPC = "2.0" ∧
      ∀ e, resp.Error = some e → e.Code = InvalidParams ∨ e.Code = MethodNotFound := by
  obtain ⟨k, hk⟩ := hmem
  simp only [builtinHandlers, mapGet] at hk
  split_ifs at hk <;> simp only [Option.some.injEq] at hk <;> subst hk
  · exact ⟨_, rfl, rfl, fun e he => by simp [NewResponse] at he⟩
  · exact ⟨_, rfl, rfl, fun e he => by simp [NewResponse] at he⟩
  · simp only [Handler.call, handleResourcesRead, marshalAny]
    split
    · refine ⟨_, rfl, rfl, fun e he => ?_⟩
      simp only [NewError, Option.some.injEq] at he
      subst he
      exact Or.inl rfl
    · split
      · refine ⟨_, rfl, rfl, fun e he => ?_⟩
        simp only [NewError, Option.some.injEq] at he
        subst he
        exact Or.inr rfl
      · exact ⟨_, rfl, rfl, fun e he => by simp [NewResponse] at he⟩
  · simp only [Handler.call, handleToolsCall, marshalAny]
    split
    · refine ⟨_, rfl, rfl, fun e he => ?_⟩
      simp only [NewError, Option.some.injEq] at he
      subst he
      exact Or.inl rfl
    · split
      · refine ⟨_, rfl, rfl, fun e he => ?_⟩
        simp only [NewError, Option.some.injEq] at he
        subst he
        exact Or.inr rfl
      · exact ⟨_, rfl, rfl, fun e he => by simp [NewResponse] at he⟩
  · exact ⟨_, rfl, rfl, fun e he => by simp [NewResponse] at he⟩

/-- On a reachable server every answer is what `json.Marshal` makes of an
envelope with the tag "2.0" whose error, if any, has one of three codes. -/
theorem handleMessage_shape (s : Server) (w : World) (data : Wire) (hs : Reachable s) :
    ∃ resp : Message, HandleMessage s w data = jsonMarshal resp ∧
      resp.JSONRPC = "2.0" ∧
      ∀ e, resp.Error = some e →
        e.Code = ParseError ∨ e.Code = MethodNotFound ∨ e.Code = InvalidParams := by
  unfold HandleMessage
  cases unmarshalMessage data with
  | none =>
    refine ⟨_, rfl, rfl, fun e he => ?_⟩
    simp only [NewError, Option.some.injEq] at he
    subst he
    exact Or.inl rfl
  | some msg =>
    simp only [processMessage, reachable_handlers hs]
    cases hg : mapGet builtinHandlers msg.Method with
    | none =>
      refine ⟨_, rfl, rfl, fun e he => ?_⟩
      simp only [NewError, Option.some.injEq] at he
      subst he
      exact Or.inr (Or.inl rfl)
    | some h =>
      obtain ⟨resp, hresp, htag, hcode⟩ := builtin_call_codes h ⟨_, hg⟩ s w msg
      simp only [hresp]
      refine ⟨resp, rfl, htag, fun e he => ?_⟩
      rcases hcode e he with h1 | h1
      · exact Or.inr (Or.inr h1)
      · exact Or.inr (Or.inl h1)

theorem error_toJSON_get_code (e : Error) : e.toJSON.get "code" = some (.num e.Code) := by
  simp [Error.toJSON, JSON.get, mapGet]

/-- C26, as stated, fails on a reachable server with a tool whose schema has
no JSON encoding (here a channel): to a `tools/list` request `HandleMessage`
returns the error of `json.Marshal` and no bytes. -/
theorem handleMessage_marshal_error :
    Reachable ((NewServer "test-server" "1.0.0").RegisterTool channelTool) ∧
    unmarshalMessage (.json (.obj [("jsonrpc", .str "2.0"), ("id", .num 1),
        ("method", .str "tools/list")]))
      = some { JSONRPC := "2.0", ID := .num 1, Method := "tools/list", Params := .null,
               Result := .value .null, Error := none } ∧
    processMessage ((NewServer "test-server" "1.0.0").RegisterTool channelTool) sampleWorld
        { JSONRPC := "2.0", ID := .num 1, Method := "tools/list", Params := .null,
          Result := .value .null, Error := none }
      = .ok (NewResponse (.num 1) (.toolsListResponse { Tools := [channelTool] })) ∧
    HandleMessage ((NewServer "test-server" "1.0.0").RegisterTool channelTool) sampleWorld
        (.json (.obj [("jsonrpc", .str "2.0"), ("id", .num 1), ("method", .str "tools/list")]))
      = .error "json: unsupported type: chan int" ∧
    ¬ ∃ out : JSON,
      HandleMessage ((NewServer "test-server" "1.0.0").RegisterTool channelTool) sampleWorld
        (.json (.obj [("jsonrpc", .str "2.0"), ("id", .num 1), ("method", .str "tools/list")]))
      = .ok out := by
  refine ⟨Reachable.registerTool _ (Reachable.newServer _ _), rfl, rfl, rfl, ?_⟩
  rintro ⟨out, h⟩
  have h' : HandleMessage ((NewServer "test-server" "1.0.0").RegisterTool channelTool)
      sampleWorld
      (.json (.obj [("jsonrpc", .str "2.0"), ("id", .num 1), ("method", .str "tools/list")]))
      = .error "json: unsupported type: chan int" := rfl
  rw [h'] at h
  cases h

/-- C26, amended: on a reachable server, whatever the bytes received,
`HandleMessage` returns what `json.Marshal` makes of an envelope; when that
envelope has an error, its code is `ParseError`, `MethodNotFound` or
`InvalidParams`, never `InternalError` or `InvalidRequest`, and so reads the
`code` member of the `error` member of its document. When every schema of the
catalog has an encoding, or the request is not a `tools/list` request, the
document is returned and no Go error. Every handler of the table returns an
envelope and no Go error. -/
theorem handleMessage_error_codes (s : Server) (w : World) (data : Wire) (hs : Reachable s) :
    (∃ resp : Message, HandleMessage s w data = jsonMarshal resp ∧
      (∀ e, resp.Error = some e →
        (e.Code = ParseError ∨ e.Code = MethodNotFound ∨ e.Code = InvalidParams) ∧
        e.Code ≠ InternalError ∧ e.Code ≠ InvalidRequest) ∧
      (∀ errDoc, (marshalMessage resp).get "error" = some errDoc →
        ∃ c, errDoc.get "code" = some (.num c) ∧
          (c = -32700 ∨ c = -32601 ∨ c = -32602)) ∧
      (s.encodable = true ∨
          (∀ r, unmarshalMessage data = some r → r.Method ≠ "tools/list") →
        HandleMessage s w data = .ok (marshalMessage resp))) ∧
    (∀ (k : String) (h : Handler) (msg : Message), mapGet s.handlers k = some h →
      ∃ resp, h.call s w msg = .ok resp) := by
  constructor
  · obtain ⟨resp, hresp, _, hcode⟩ := handleMessage_shape s w data hs
    refine ⟨resp, hresp, fun e he => ?_, fun errDoc hdoc => ?_, fun he => ?_⟩
    · have := hcode e he
      refine ⟨this, ?_, ?_⟩
      · rcases this with h | h | h <;> rw [h] <;> decide
      · rcases this with h | h | h <;> rw [h] <;> decide
    · rw [marshalMessage_get_error] at hdoc
      cases hE : resp.Error with
      | none => simp [hE] at hdoc
      | some e =>
        rw [hE] at hdoc
        simp only [Option.map_some', Option.some.injEq] at hdoc
        subst hdoc
        exact ⟨e.Code, error_toJSON_get_code e, hcode e hE⟩
    · obtain ⟨out, hout⟩ := handleMessage_bytes s w data hs he
      rw [hout]
      rw [hresp] at hout
      rw [(jsonMarshal_ok hout).1]
  · intro k h msg hk
    rw [reachable_handlers hs] at hk
    obtain ⟨resp, hresp, _⟩ := builtin_call_codes h ⟨k, hk⟩ s w msg
    exact ⟨resp, hresp⟩

/-- C26, amended, at a `tools/call` request whose params are a string, on a
server with one tool. -/
theorem handleMessage_error_codes_witness :
    Reachable ((NewServer "test-server" "1.0.0").RegisterTool EchoTool) ∧
    ((NewServer "test-server" "1.0.0").RegisterTool EchoTool).encodable = true ∧
    HandleMessage ((NewServer "test-server" "1.0.0").RegisterTool EchoTool) sampleWorld
      (.json (.obj [("jsonrpc", .str "2.0"), ("id", .num 7), ("method", .str "tools/call"),
        ("params", .str "echo")]))
      = .ok (.obj [("jsonrpc", .str "2.0"), ("id", .num 7),
          ("error", .obj [("code", .num (-32602)), ("message", .str "Invalid parameters")])]) ∧
    ((∃ resp : Message,
      HandleMessage ((NewServer "test-server" "1.0.0").RegisterTool EchoTool) sampleWorld
        (.json (.obj [("jsonrpc", .str "2.0"), ("id", .num 7), ("method", .str "tools/call"),
          ("params", .str "echo")]))
        = jsonMarshal resp ∧
      (∀ e, resp.Error = some e →
        (e.Code = ParseError ∨ e.Code = MethodNotFound ∨ e.Code = InvalidParams) ∧
        e.Code ≠ InternalError ∧ e.Code ≠ InvalidRequest) ∧
      (∀ errDoc, (marshalMessage resp).get "error" = some errDoc →
        ∃ c, errDoc.get "code" = some (.num c) ∧
          (c = -32700 ∨ c = -32601 ∨ c = -32602)) ∧
      (((NewServer "test-server" "1.0.0").RegisterTool EchoTool).encodable = true ∨
          (∀ r, unmarshalMessage (.json (.obj [("jsonrpc", .str "2.0"), ("id", .num 7),
            ("method", .str "tools/call"), ("params", .str "echo")])) = some r →
            r.Method ≠ "tools/list") →
        HandleMessage ((NewServer "test-server" "1.0.0").RegisterTool EchoTool) sampleWorld
          (.json (.obj [("jsonrpc", .str "2.0"), ("id", .num 7), ("method", .str "tools/call"),
            ("params", .str "echo")]))
          = .ok (marshalMessage resp))) ∧
    (∀ (k : String) (h : Handler) (msg : Message),
      mapGet ((NewServer "test-server" "1.0.0").RegisterTool EchoTool).handlers k = some h →
      ∃ resp, h.call ((NewServer "test-server" "1.0.0").RegisterTool EchoTool) sampleWorld msg
        = .ok resp)) :=
  ⟨Reachable.registerTool _ (Reachable.newServer _ _), rfl, rfl,
   handleMessage_error_codes _ sampleWorld
    (.json (.obj [("jsonrpc", .str "2.0"), ("id", .num 7), ("method", .str "tools/call"),
      ("params", .str "echo")]))
    (Reachable.registerTool _ (Reachable.newServer _ _))⟩

/-! ### `tools/call` without a tool name -/

/-- C27, as stated, fails at params that are an object without a name whose
`arguments` member is a number: on a server with no tool under the empty
name, the request is answered with code `InvalidParams` and message
"Invalid parameters", not with "Tool not found: ". -/
theorem toolsCall_arguments_not_object :
    mapGet (NewServer "test-server" "1.0.0").tools "" = none ∧
    (∀ kv ∈ [("arguments", JSON.num 5)], fieldMatch "name" kv.1 = false) ∧
    unmarshalMessage (.json (.obj [("jsonrpc", .str "2.0"), ("id", .num 1),
        ("method", .str "tools/call"), ("params", .obj [("arguments", .num 5)])]))
      = some { JSONRPC := "2.0", ID := .num 1, Method := "tools/call",
               Params := .obj [("arguments", .num 5)], Result := .value .null,
               Error := none } ∧
    unmarshalToolsCallRequest (.obj [("arguments", .num 5)]) = none ∧
    HandleMessage (NewServer "test-server" "1.0.0") sampleWorld
      (.json (.obj [("jsonrpc", .str "2.0"), ("id", .num 1), ("method", .str "tools/call"),
        ("params", .obj [("arguments", .num 5)])]))
      = .ok (.obj [("jsonrpc", .str "2.0"), ("id", .num 1),
          ("error", .obj [("code", .num (-32602)), ("message", .str "Invalid parameters")])]) ∧
    HandleMessage (NewServer "test-server" "1.0.0") sampleWorld
      (.json (.obj [("jsonrpc", .str "2.0"), ("id", .num 1), ("method", .str "tools/call"),
        ("params", .obj [("arguments", .num 5)])]))
      ≠ .ok (marshalMessage (NewError (.num 1) MethodNotFound "Tool not found: " .null)) := by
  refine ⟨rfl, by decide, rfl, rfl, rfl, ?_⟩
  intro h
  have h' : marshalMessage (NewError (.num 1) InvalidParams "Invalid parameters" .null)
      = marshalMessage (NewError (.num 1) MethodNotFound "Tool not found: " .null) :=
    Except.ok.inj h
  have hget := congrArg (fun d => JSON.get d "error") h'
  simp only [marshalMessage_get_error, NewError, Option.map_some', Option.some.injEq] at hget
  exact absurd (error_toJSON_inj hget).1 (by decide)

/-- C27, amended: on a reachable server with no tool registered under the
empty name, a `tools/call` request whose params are absent, null, or an object
without a member that selects `name` and whose members that select
`arguments` are objects or null, is not rejected as `InvalidParams`: the
params decode to a request with the empty name, and the answer is the
encoding of the error envelope with the request's id, code `MethodNotFound`
and message "Tool not found: ". -/
theorem toolsCall_without_name (s : Server) (w : World) (data : Wire) (r : Message)
    (hs : Reachable s) (h0 : mapGet s.tools "" = none) (hr : unmarshalMessage data = some r)
    (hm : r.Method = "tools/call") (hp : paramsWithoutName r.Params = true) :
    (∃ req, unmarshalToolsCallRequest r.Params = some req ∧ req.Name = "") ∧
    HandleMessage s w data
      = .ok (marshalMessage (NewError r.ID MethodNotFound "Tool not found: " .null)) ∧
    HandleMessage s w data
      ≠ .ok (marshalMessage (NewError r.ID InvalidParams "Invalid parameters" .null)) := by
  obtain ⟨req, hreq, hname⟩ :=
    unmarshal_paramsWithoutName r.Params hp (unmarshalMessage_params_goValue data r hr)
  have hans : HandleMessage s w data
      = .ok (marshalMessage (NewError r.ID MethodNotFound "Tool not found: " .null)) := by
    simp only [HandleMessage, jsonMarshal_newError, hr, processMessage_toolsCall s w r hs hm,
      handleToolsCall,
      marshalAny,
      unmarshalToolsCallRequest_encoded r.Params (unmarshalMessage_params_goValue data r hr),
      hreq, hname, h0, String.append_empty]
  refine ⟨⟨req, hreq, hname⟩, hans, ?_⟩
  rw [hans]
  intro h
  have hget := congrArg (fun d => JSON.get d "error") (Except.ok.inj h)
  simp only [marshalMessage_get_error, NewError, Option.map_some', Option.some.injEq] at hget
  exact absurd (error_toJSON_inj hget).1 (by decide)

/-- C27, amended, at a request without params on a server with one tool; the
same answer is given to null params and to params that hold arguments only. -/
theorem toolsCall_without_name_witness :
    (Reachable ((NewServer "test-server" "1.0.0").RegisterTool EchoTool) ∧
      mapGet ((NewServer "test-server" "1.0.0").RegisterTool EchoTool).tools "" = none ∧
      unmarshalMessage (.json (.obj [("jsonrpc", .str "2.0"), ("id", .num 1),
          ("method", .str "tools/call")]))
        = some { JSONRPC := "2.0", ID := .num 1, Method := "tools/call", Params := .null,
                 Result := .value .null, Error := none } ∧
      paramsWithoutName .null = true ∧
      paramsWithoutName (.obj [("arguments", .obj [("message", .str "hi")])]) = true ∧
      paramsWithoutName (.obj [("arguments", .num 5)]) = false ∧
      paramsWithoutName (.obj [("Name", .str "echo")]) = false) ∧
    HandleMessage ((NewServer "test-server" "1.0.0").RegisterTool EchoTool) sampleWorld
      (.json (.obj [("jsonrpc", .str "2.0"), ("id", .num 1), ("method", .str "tools/call"),
        ("params", .null)]))
      = .ok (.obj [("jsonrpc", .str "2.0"), ("id", .num 1),
          ("error", .obj [("code", .num (-32601)), ("message", .str "Tool not found: ")])]) ∧
    HandleMessage ((NewServer "test-server" "1.0.0").RegisterTool EchoTool) sampleWorld
      (.json (.obj [("jsonrpc", .str "2.0"), ("id", .num 1), ("method", .str "tools/call"),
        ("params", .obj [("arguments", .obj [("message", .str "hi")])])]))
      = .ok (.obj [("jsonrpc", .str "2.0"), ("id", .num 1),
          ("error", .obj [("code", .num (-32601)), ("message", .str "Tool not found: ")])]) ∧
    ((∃ req, unmarshalToolsCallRequest .null = some req ∧ req.Name = "") ∧
    HandleMessage ((NewServer "test-server" "1.0.0").RegisterTool EchoTool) sampleWorld
      (.json (.obj [("jsonrpc", .str "2.0"), ("id", .num 1), ("method", .str "tools/call")]))
      = .ok (marshalMessage (NewError (.num 1) MethodNotFound "Tool not found: " .null)) ∧
    HandleMessage ((NewServer "test-server" "1.0.0").RegisterTool EchoTool) sampleWorld
      (.json (.obj [("jsonrpc", .str "2.0"), ("id", .num 1), ("method", .str "tools/call")]))
      ≠ .ok (marshalMessage (NewError (.num 1) InvalidParams "Invalid parameters" .null))) :=
  ⟨⟨Reachable.registerTool _ (Reachable.newServer _ _), rfl, rfl, rfl, rfl, rfl, rfl⟩, rfl, rfl,
   toolsCall_without_name ((NewServer "test-server" "1.0.0").RegisterTool EchoTool) sampleWorld
    (.json (.obj [("jsonrpc", .str "2.0"), ("id", .num 1), ("method", .str "tools/call")]))
    { JSONRPC := "2.0", ID := .num 1, Method := "tools/call", Params := .null,
      Result := .value .null, Error := none }
    (Reachable.registerTool _ (Reachable.newServer _ _)) rfl rfl rfl rfl⟩

/-! ### The protocol tag -/

theorem tagEq_refl (a : Message) : tagEq a a := ⟨rfl, rfl, rfl, rfl, rfl⟩

theorem optTagEq_symm {x y : Option Message} (h : optTagEq x y) : optTagEq y x := by
  cases x <;> cases y <;> simp only [optTagEq] at h ⊢
  obtain ⟨h1, h2, h3, h4, h5⟩ := h
  exact ⟨h1.symm, h2.symm, h3.symm, h4.symm, h5.symm⟩

theorem optTagEq_trans {x y z : Option Message} (h : optTagEq x y) (g : optTagEq y z) :
    optTagEq x z := by
  cases x <;> cases y <;> cases z <;> simp only [optTagEq] at h g ⊢
  obtain ⟨h1, h2, h3, h4, h5⟩ := h
  obtain ⟨g1, g2, g3, g4, g5⟩ := g
  exact ⟨h1.trans g1, h2.trans g2, h3.trans g3, h4.trans g4, h5.trans g5⟩

/-- The store of a member keeps two envelopes in agreement up to the tag. -/
theorem setField_tagEq (a b : Message) (k : String) (v : JSON) (h : tagEq a b) :
    optTagEq (a.setField k v) (b.setField k v) := by
  obtain ⟨j1, i1, m1, p1, r1, e1⟩ := a
  obtain ⟨j2, i2, m2, p2, r2, e2⟩ := b
  obtain ⟨h1, h2, h3, h4, h5⟩ := h
  simp only at h1 h2 h3 h4 h5
  subst h1 h2 h3 h4 h5
  simp only [Message.setField]
  split_ifs
  · cases v <;> simp [storeString, optTagEq, tagEq]
  · cases decodeAny v <;> simp [optTagEq, tagEq]
  · cases v <;> simp [storeString, optTagEq, tagEq]
  · cases decodeAny v <;> simp [optTagEq, tagEq]
  · cases decodeAny v <;> simp [optTagEq, tagEq]
  · cases v with
    | obj ms =>
      simp only
      cases decodeFields Error.setField ms (e1.getD Error.zero) <;> simp [optTagEq, tagEq]
    | _ => simp [optTagEq, tagEq]
  · simp [optTagEq, tagEq]

/-- Decoding with and without the members that give the tag as a string. -/
theorem decodeFields_dropTag (ms : List (String × JSON)) :
    ∀ a b : Message, tagEq a b →
      optTagEq (decodeFields Message.setField ms a)
        (decodeFields Message.setField (dropTag ms) b) := by
  induction ms with
  | nil => intro a b h; exact h
  | cons kv ms ih =>
    intro a b h
    obtain ⟨k, v⟩ := kv
    by_cases ht : isTagMember (k, v) = true
    · have hd : dropTag ((k, v) :: ms) = dropTag ms := by
        simp [dropTag, List.filter_cons, ht]
      rw [hd]
      simp only [isTagMember, Bool.and_eq_true] at ht
      obtain ⟨hk, hv⟩ := ht
      cases v with
      | str x =>
        have hs : a.setField k (.str x) = some { a with JSONRPC := x } := by
          simp [Message.setField, hk, storeString]
        simp only [decodeFields, hs]
        exact ih _ b h
      | _ => simp at hv
    · have hd : dropTag ((k, v) :: ms) = (k, v) :: dropTag ms := by
        simp [dropTag, List.filter_cons, ht]
      rw [hd]
      have hstep := setField_tagEq a b k v h
      simp only [decodeFields]
      cases ha : a.setField k v with
      | none =>
        cases hb : b.setField k v with
        | none => trivial
        | some b' => rw [ha, hb] at hstep; exact hstep.elim
      | some a' =>
        cases hb : b.setField k v with
        | none => rw [ha, hb] at hstep; exact hstep.elim
        | some b' =>
          rw [ha, hb] at hstep
          exact ih a' b' hstep

/-- A built-in handler does not read the tag of the request. -/
theorem builtin_call_tagEq (h : Handler) (hmem : ∃ k, mapGet builtinHandlers k = some h)
    (s : Server) (w : World) (a b : Message) (hab : tagEq a b) :
    h.call s w a = h.call s w b := by
  obtain ⟨j1, i1, m1, p1, r1, e1⟩ := a
  obtain ⟨j2, i2, m2, p2, r2, e2⟩ := b
  obtain ⟨h1, h2, h3, h4, h5⟩ := hab
  simp only at h1 h2 h3 h4 h5
  subst h1 h2 h3 h4 h5
  obtain ⟨k, hk⟩ := hmem
  simp only [builtinHandlers, mapGet] at hk
  split_ifs at hk <;> simp only [Option.some.injEq] at hk <;> subst hk <;> rfl

/-- Two decodings that agree up to the tag are answered alike. -/
theorem handleMessage_tagEq (s : Server) (w : World) (d₁ d₂ : Wire) (hs : Reachable s)
    (h : optTagEq (unmarshalMessage d₁) (unmarshalMessage d₂)) :
    HandleMessage s w d₁ = HandleMessage s w d₂ := by
  unfold HandleMessage
  cases h1 : unmarshalMessage d₁ with
  | none =>
    cases h2 : unmarshalMessage d₂ with
    | none => rfl
    | some b => rw [h1, h2] at h; exact h.elim
  | some a =>
    cases h2 : unmarshalMessage d₂ with
    | none => rw [h1, h2] at h; exact h.elim
    | some b =>
      rw [h1, h2] at h
      have hid : a.ID = b.ID := h.1
      have hm : a.Method = b.Method := h.2.1
      have hp : processMessage s w a = processMessage s w b := by
        simp only [processMessage, reachable_handlers hs, hm, hid]
        cases hg : mapGet builtinHandlers b.Method with
        | none => rfl
        | some hd => exact builtin_call_tagEq hd ⟨_, hg⟩ s w a b h
      simp only [hp, hid]

/-- C28: on a reachable server, two envelope objects that differ only in the
members that give the `jsonrpc` tag as a string (other strings, or the member
absent) are answered alike by `HandleMessage`, decodable or not; so are any
two inputs whose decoded envelopes agree in every field but the tag. Every
envelope answered, and every document returned, carries the tag "2.0",
whatever the request carried. -/
theorem handleMessage_ignores_tag (s : Server) (w : World) (ms ms' : List (String × JSON))
    (hs : Reachable s) (hd : dropTag ms = dropTag ms') :
    HandleMessage s w (.json (.obj ms)) = HandleMessage s w (.json (.obj ms')) ∧
    (∀ (d₁ d₂ : Wire) (r₁ r₂ : Message), unmarshalMessage d₁ = some r₁ →
      unmarshalMessage d₂ = some r₂ → tagEq r₁ r₂ →
      HandleMessage s w d₁ = HandleMessage s w d₂) ∧
    (∀ data : Wire, ∃ resp : Message, HandleMessage s w data = jsonMarshal resp ∧
      resp.JSONRPC = "2.0" ∧ (marshalMessage resp).get "jsonrpc" = some (.str "2.0")) ∧
    (∀ (data : Wire) (out : JSON), HandleMessage s w data = .ok out →
      out.get "jsonrpc" = some (.str "2.0")) := by
  refine ⟨?_, fun d₁ d₂ r₁ r₂ h1 h2 h => ?_, fun data => ?_, fun data out hout => ?_⟩
  · apply handleMessage_tagEq s w _ _ hs
    simp only [unmarshalMessage, unmarshalStruct]
    have h1 := decodeFields_dropTag ms Message.zero Message.zero (tagEq_refl _)
    have h2 := decodeFields_dropTag ms' Message.zero Message.zero (tagEq_refl _)
    rw [← hd] at h2
    exact optTagEq_trans h1 (optTagEq_symm h2)
  · apply handleMessage_tagEq s w _ _ hs
    rw [h1, h2]
    exact h
  · obtain ⟨resp, hresp, htag, _⟩ := handleMessage_shape s w data hs
    refine ⟨resp, hresp, htag, ?_⟩
    rw [marshalMessage_get_jsonrpc, htag]
  · obtain ⟨resp, hresp, htag, _⟩ := handleMessage_shape s w data hs
    rw [hresp] at hout
    rw [(jsonMarshal_ok hout).1, marshalMessage_get_jsonrpc, htag]

/-- C28 at a `tools/list` request with the tag "1.0" and the same request
without tag. -/
theorem handleMessage_ignores_tag_witness :
    (Reachable (NewServer "test-server" "1.0.0") ∧
      dropTag [("jsonrpc", .str "1.0"), ("id", .num 1), ("method", .str "tools/list")]
        = dropTag [("id", .num 1), ("method", .str "tools/list")]) ∧
    HandleMessage (NewServer "test-server" "1.0.0") sampleWorld
      (.json (.obj [("jsonrpc", .str "1.0"), ("id", .num 1), ("method", .str "tools/list")]))
      = .ok (.obj [("jsonrpc", .str "2.0"), ("id", .num 1),
          ("result", .obj [("tools", .arr [])])]) ∧
    (HandleMessage (NewServer "test-server" "1.0.0") sampleWorld
        (.json (.obj [("jsonrpc", .str "1.0"), ("id", .num 1), ("method", .str "tools/list")]))
      = HandleMessage (NewServer "test-server" "1.0.0") sampleWorld
        (.json (.obj [("id", .num 1), ("method", .str "tools/list")])) ∧
    (∀ (d₁ d₂ : Wire) (r₁ r₂ : Message), unmarshalMessage d₁ = some r₁ →
      unmarshalMessage d₂ = some r₂ → tagEq r₁ r₂ →
      HandleMessage (NewServer "test-server" "1.0.0") sampleWorld d₁
        = HandleMessage (NewServer "test-server" "1.0.0") sampleWorld d₂) ∧
    (∀ data : Wire, ∃ resp : Message,
      HandleMessage (NewServer "test-server" "1.0.0") sampleWorld data
        = jsonMarshal resp ∧
      resp.JSONRPC = "2.0" ∧ (marshalMessage resp).get "jsonrpc" = some (.str "2.0")) ∧
    (∀ (data : Wire) (out : JSON),
      HandleMessage (NewServer "test-server" "1.0.0") sampleWorld data = .ok out →
      out.get "jsonrpc" = some (.str "2.0"))) :=
  ⟨⟨Reachable.newServer _ _, rfl⟩, rfl,
   handleMessage_ignores_tag (NewServer "test-server" "1.0.0") sampleWorld
    [("jsonrpc", .str "1.0"), ("id", .num 1), ("method", .str "tools/list")]
    [("id", .num 1), ("method", .str "tools/list")] (Reachable.newServer _ _) rfl⟩

/-! ### Documents of the wrong type -/

theorem decodeFields_none_of_mem {α : Type} (set : α → String → JSON → Option α)
    (k : String) (v : JSON) (hset : ∀ a, set a k v = none) :
    ∀ (ms : List (String × JSON)) (a : α), (k, v) ∈ ms → decodeFields set ms a = none := by
  intro ms
  induction ms with
  | nil => intro a h; simp at h
  | cons kv ms ih =>
    intro a h
    obtain ⟨k', v'⟩ := kv
    rcases List.mem_cons.1 h with h1 | h1
    · simp only [Prod.mk.injEq] at h1
      obtain ⟨rfl, rfl⟩ := h1
      simp only [decodeFields, hset a]
    · simp only [decodeFields]
      cases set a k' v' with
      | none => rfl
      | some a' => exact ih a' h1

theorem setField_wrongType (k : String) (v : JSON) (h : wrongTypeMember (k, v) = true)
    (a : Message) : a.setField k v = none := by
  simp only [wrongTypeMember, Bool.or_eq_true, Bool.and_eq_true] at h
  rcases h with ⟨hk | hk, hv⟩ | ⟨hk, hv⟩
  · simp only [Message.setField, hk, if_true]
    cases v <;> simp [notStringOrNull] at hv <;> rfl
  · have hk' := hk
    simp only [fieldMatch, beq_iff_eq] at hk'
    have e1 : fieldMatch "jsonrpc" k = false := by
      simp only [fieldMatch, hk']; decide
    have e2 : fieldMatch "id" k = false := by
      simp only [fieldMatch, hk']; decide
    simp only [Message.setField, e1, e2, hk, if_true, if_false, Bool.false_eq_true]
    cases v <;> simp [notStringOrNull] at hv <;> rfl
  · have hk' := hk
    simp only [fieldMatch, beq_iff_eq] at hk'
    have e1 : fieldMatch "jsonrpc" k = false := by
      simp only [fieldMatch, hk']; decide
    have e2 : fieldMatch "id" k = false := by
      simp only [fieldMatch, hk']; decide
    have e3 : fieldMatch "method" k = false := by
      simp only [fieldMatch, hk']; decide
    have e4 : fieldMatch "params" k = false := by
      simp only [fieldMatch, hk']; decide
    have e5 : fieldMatch "result" k = false := by
      simp only [fieldMatch, hk']; decide
    simp only [Message.setField, e1, e2, e3, e4, e5, hk, if_true, if_false, Bool.false_eq_true]
    cases v <;> simp [notObjectOrNull] at hv <;> rfl

/-- C29: a JSON document of the wrong type for an envelope (a top-level value
that is neither object nor null, or an object in which `jsonrpc` or `method`
is neither string nor null or `error` is neither object nor null) is not
decoded: on every server `HandleMessage` answers with the encoding of the
error envelope with code `ParseError` and message "Parse error", which has no
`id` member, whatever `id` the document carries. The literal `null` decodes
to the empty envelope and on a reachable server is answered with code
`MethodNotFound` and message "Method not found: ". -/
theorem handleMessage_wrong_type (s : Server) (w : World) (doc : JSON)
    (h : wrongType doc = true) :
    unmarshalMessage (.json doc) = none ∧
    HandleMessage s w (.json doc)
      = .ok (marshalMessage (NewError .null ParseError "Parse error" .null)) ∧
    (marshalMessage (NewError .null ParseError "Parse error" .null)).get "id" = none ∧
    unmarshalMessage (.json .null) = some Message.zero ∧
    (Reachable s → HandleMessage s w (.json .null)
      = .ok (marshalMessage (NewError .null MethodNotFound "Method not found: " .null))) := by
  have hdec : unmarshalMessage (.json doc) = none := by
    cases doc with
    | null => simp [wrongType] at h
    | obj ms =>
      simp only [wrongType, List.any_eq_true] at h
      obtain ⟨⟨k, v⟩, hmem, hw⟩ := h
      simp only [unmarshalMessage, unmarshalStruct]
      exact decodeFields_none_of_mem Message.setField k v (setField_wrongType k v hw) ms _ hmem
    | _ => rfl
  refine ⟨hdec, ?_, rfl, rfl, fun hs => ?_⟩
  · simp only [HandleMessage, jsonMarshal_newError, hdec]
  · simp only [HandleMessage, unmarshalMessage, unmarshalStruct, processMessage,
      reachable_handlers hs]
    rfl

/-- C29 at three documents with the id 1: a number as method, a string as
error, and an array. -/
theorem handleMessage_wrong_type_witness :
    wrongType (.obj [("jsonrpc", .str "2.0"), ("id", .num 1), ("method", .num 5)]) = true ∧
    HandleMessage (NewServer "test-server" "1.0.0") sampleWorld
      (.json (.obj [("jsonrpc", .str "2.0"), ("id", .num 1), ("error", .str "x")]))
      = .ok (.obj [("jsonrpc", .str "2.0"),
          ("error", .obj [("code", .num (-32700)), ("message", .str "Parse error")])]) ∧
    HandleMessage (NewServer "test-server" "1.0.0") sampleWorld
      (.json (.arr [.obj [("jsonrpc", .str "2.0"), ("id", .num 1),
        ("method", .str "tools/list")]]))
      = .ok (.obj [("jsonrpc", .str "2.0"),
          ("error", .obj [("code", .num (-32700)), ("message", .str "Parse error")])]) ∧
    HandleMessage (NewServer "test-server" "1.0.0") sampleWorld (.json .null)
      = .ok (.obj [("jsonrpc", .str "2.0"),
          ("error", .obj [("code", .num (-32601)), ("message", .str "Method not found: ")])]) ∧
    (unmarshalMessage
        (.json (.obj [("jsonrpc", .str "2.0"), ("id", .num 1), ("method", .num 5)])) = none ∧
    HandleMessage (NewServer "test-server" "1.0.0") sampleWorld
        (.json (.obj [("jsonrpc", .str "2.0"), ("id", .num 1), ("method", .num 5)]))
      = .ok (marshalMessage (NewError .null ParseError "Parse error" .null)) ∧
    (marshalMessage (NewError .null ParseError "Parse error" .null)).get "id" = none ∧
    unmarshalMessage (.json .null) = some Message.zero ∧
    (Reachable (NewServer "test-server" "1.0.0") →
      HandleMessage (NewServer "test-server" "1.0.0") sampleWorld (.json .null)
        = .ok (marshalMessage (NewError .null MethodNotFound "Method not found: " .null)))) :=
  ⟨rfl, rfl, rfl, rfl,
   handleMessage_wrong_type (NewServer "test-server" "1.0.0") sampleWorld
    (.obj [("jsonrpc", .str "2.0"), ("id", .num 1), ("method", .num 5)]) rfl⟩

/-! ### Tools without an implementation -/

/-- C30: on a reachable server, a `tools/call` request whose params decode to
a request naming a registered tool that is none of `hello_world`, `echo`,
`get_time` and `get_projects` is answered, whatever the arguments and the
outside world, by the encoding of a success envelope whose content is one
item of type "text" with the text "Tool 'n' not implemented", `n` being the
name. Each of the four descriptors of the tools package has one of the four
names, and for them `executeTool` runs the tool's own function. -/
theorem toolsCall_not_implemented (s : Server) (w : World) (data : Wire) (r : Message)
    (req : ToolsCallRequest) (tool : Tool) (hs : Reachable s)
    (hr : unmarshalMessage data = some r) (hm : r.Method = "tools/call")
    (hp : unmarshalToolsCallRequest r.Params = some req)
    (ht : mapGet s.tools req.Name = some tool) (hn : req.Name ∉ executedNames) :
    HandleMessage s w data
      = .ok (marshalMessage (NewResponse r.ID (.toolsCallResponse
          { Content := [{ Type_ := "text",
                          Text := "Tool \'" ++ req.Name ++ "\' not implemented" }],
            IsError := false }))) ∧
    (∀ t ∈ [HelloWorldTool, EchoTool, GetTimeTool, GetProjectsTool], t.Name ∈ executedNames) ∧
    (∀ (w' : World) (args : Option (List (String × JSON))),
      executeTool w' HelloWorldTool.Name args = ExecuteHelloWorld w' args ∧
      executeTool w' EchoTool.Name args = ExecuteEcho args ∧
      executeTool w' GetTimeTool.Name args = ExecuteGetTime w' args ∧
      executeTool w' GetProjectsTool.Name args = ExecuteGetProjects w' args) := by
  refine ⟨?_, ?_, fun w' args => ⟨rfl, rfl, rfl, rfl⟩⟩
  · obtain ⟨out, hout, hval, _⟩ := registered_tool_answer s w data r req tool hs hr hm hp ht
    rw [hout, hval]
    simp only [executedNames, List.mem_cons, List.mem_singleton, List.not_mem_nil, or_false,
      not_or] at hn
    obtain ⟨h1, h2, h3, h4⟩ := hn
    simp only [executeTool, h1, h2, h3, h4, if_false]
  · intro t ht
    simp only [List.mem_cons, List.mem_singleton, List.not_mem_nil, or_false] at ht
    rcases ht with rfl | rfl | rfl | rfl <;> decide

/-- C30 at a server with the four tools of the package and a tool named
"custom_tool", called with one argument. -/
theorem toolsCall_not_implemented_witness :
    (Reachable customServer ∧
      unmarshalMessage customCall
        = some { JSONRPC := "2.0", ID := .num 1, Method := "tools/call",
                 Params := .obj [("arguments", .obj [("x", .num 1)]),
                   ("name", .str "custom_tool")],
                 Result := .value .null, Error := none } ∧
      unmarshalToolsCallRequest
          (.obj [("arguments", .obj [("x", .num 1)]), ("name", .str "custom_tool")])
        = some { Name := "custom_tool", Arguments := some [("x", .num 1)] } ∧
      mapGet customServer.tools "custom_tool" = some customTool ∧
      "custom_tool" ∉ executedNames) ∧
    HandleMessage customServer sampleWorld customCall
      = .ok (.obj [("jsonrpc", .str "2.0"), ("id", .num 1),
          ("result", .obj [("content", .arr [.obj [("type", .str "text"),
            ("text", .str "Tool \'custom_tool\' not implemented")]])])]) ∧
    (HandleMessage customServer sampleWorld customCall
      = .ok (marshalMessage (NewResponse (.num 1) (.toolsCallResponse
          { Content := [{ Type_ := "text",
                          Text := "Tool \'" ++ "custom_tool" ++ "\' not implemented" }],
            IsError := false }))) ∧
    (∀ t ∈ [HelloWorldTool, EchoTool, GetTimeTool, GetProjectsTool], t.Name ∈ executedNames) ∧
    (∀ (w' : World) (args : Option (List (String × JSON))),
      executeTool w' HelloWorldTool.Name args = ExecuteHelloWorld w' args ∧
      executeTool w' EchoTool.Name args = ExecuteEcho args ∧
      executeTool w' GetTimeTool.Name args = ExecuteGetTime w' args ∧
      executeTool w' GetProjectsTool.Name args = ExecuteGetProjects w' args)) :=
  ⟨⟨Reachable.registerTool _ (Reachable.registerTool _ (Reachable.registerTool _
      (Reachable.registerTool _ (Reachable.registerTool _ (Reachable.newServer _ _))))),
    rfl, rfl, rfl, by decide⟩, rfl,
   toolsCall_not_implemented customServer sampleWorld customCall
    { JSONRPC := "2.0", ID := .num 1, Method := "tools/call",
      Params := .obj [("arguments", .obj [("x", .num 1)]), ("name", .str "custom_tool")],
      Result := .value .null, Error := none }
    { Name := "custom_tool", Arguments := some [("x", .num 1)] }
    customTool
    (Reachable.registerTool _ (Reachable.registerTool _ (Reachable.registerTool _
      (Reachable.registerTool _ (Reachable.registerTool _ (Reachable.newServer _ _))))))
    rfl rfl rfl rfl (by decide)⟩

end Mcp
